import Mathlib

/-!
# QtEntity: component stores and prefab instancing

A shallow embedding of `source/QtEntity/SimpleEntitySystem.cpp` and
`source/QtEntity/PrefabSystem.cpp`.

* Pointers (`QObject*`, `Prefab*`) are addresses into an explicit heap; a nullable
  pointer is an `Option Ptr`.  `new` takes the next unused address, `delete` empties
  the cell.
* `QMap` containers are association lists walked in list order; `find` returns the
  first binding of a key, as `QMap::find` does on a map with unique keys.
* A call either returns, throws `std::runtime_error` (`Outcome.thrown`) or aborts
  the process (`Outcome.crash`: a null pointer dereferenced, an assertion failed).
  The state reached is returned in every case, because a C++ exception does not undo
  earlier writes.
* `Q_ASSERT` is compiled out in release builds.  The assertions of `PrefabSystem.cpp`
  (`Q_ASSERT(es)`, `Q_ASSERT(component)`) guard a pointer that the next statement tests
  again, and the embedding follows the release semantics there.  The assertion of
  `SimpleVIterator::equal` is modelled (`equalAssertion`), and the type-erased walk
  takes the build as an argument: `pwalk true` keeps the assertion, `pwalk false` is
  the release build.
* `emit` and `QMetaProperty::write` append to a trace kept in the runtime state.
-/

namespace QtEntity

/-! ## Values -/

/-- Entity identifiers are plain unsigned integers. -/
abbrev EntityId := Nat

/-- Heap addresses. -/
abbrev Ptr := Nat

/-- The part of `QVariant` the stores use: an invalid variant, an integer, a string,
or a nested `QVariantMap`. -/
inductive QVariant where
  | invalid
  | int (n : Int)
  | str (s : String)
  | map (m : List (String × QVariant))

/-- `QVariantMap` is `QMap<QString, QVariant>`. -/
abbrev QVariantMap := List (String × QVariant)

namespace QVariant

mutual
/-- Decision procedure for equality of variants. -/
def decEqVariant : (a b : QVariant) → Decidable (a = b)
  | .invalid, .invalid => isTrue rfl
  | .int a, .int b =>
    if h : a = b then isTrue (by rw [h]) else isFalse (by intro e; cases e; exact h rfl)
  | .str a, .str b =>
    if h : a = b then isTrue (by rw [h]) else isFalse (by intro e; cases e; exact h rfl)
  | .map a, .map b =>
    match decEqEntries a b with
    | isTrue h => isTrue (by rw [h])
    | isFalse h => isFalse (by intro e; cases e; exact h rfl)
  | .invalid, .int _ => isFalse (by intro e; cases e)
  | .invalid, .str _ => isFalse (by intro e; cases e)
  | .invalid, .map _ => isFalse (by intro e; cases e)
  | .int _, .invalid => isFalse (by intro e; cases e)
  | .int _, .str _ => isFalse (by intro e; cases e)
  | .int _, .map _ => isFalse (by intro e; cases e)
  | .str _, .invalid => isFalse (by intro e; cases e)
  | .str _, .int _ => isFalse (by intro e; cases e)
  | .str _, .map _ => isFalse (by intro e; cases e)
  | .map _, .invalid => isFalse (by intro e; cases e)
  | .map _, .int _ => isFalse (by intro e; cases e)
  | .map _, .str _ => isFalse (by intro e; cases e)
/-- Decision procedure for equality of the entry lists of nested maps. -/
def decEqEntries : (a b : List (String × QVariant)) → Decidable (a = b)
  | [], [] => isTrue rfl
  | [], _ :: _ => isFalse (by intro e; cases e)
  | _ :: _, [] => isFalse (by intro e; cases e)
  | (k, v) :: r, (k', v') :: r' =>
    if hk : k = k' then
      match decEqVariant v v' with
      | isTrue hv =>
        match decEqEntries r r' with
        | isTrue hr => isTrue (by rw [hk, hv, hr])
        | isFalse hr => isFalse (by intro e; cases e; exact hr rfl)
      | isFalse hv => isFalse (by intro e; cases e; exact hv rfl)
    else isFalse (by intro e; cases e; exact hk rfl)
end

instance : DecidableEq QVariant := decEqVariant

end QVariant

/-- Declared type of a reflected property (`QMetaProperty::userType`): `variant` is a
property declared as `QVariant`, which accepts every value unconverted. -/
inductive QType where
  | int
  | string
  | map
  | variant
  deriving DecidableEq

/-- The number a non-empty run of decimal digits spells, most significant digit
first; `acc` is the value of the digits already read. -/
def parseDigits : List Char → Nat → Option Nat
  | [], acc => some acc
  | c :: r, acc =>
    if 48 ≤ c.toNat ∧ c.toNat ≤ 57 then parseDigits r (acc * 10 + (c.toNat - 48)) else none

/-- `QString::toInt`: the integer a string of decimal digits with an optional sign
spells; null for any other text. -/
def parseInt (s : String) : Option Int :=
  match s.data with
  | [] => none
  | '-' :: [] => none
  | '+' :: [] => none
  | '-' :: r => (parseDigits r 0).map (fun n => - (n : Int))
  | '+' :: r => (parseDigits r 0).map (fun n => (n : Int))
  | r => (parseDigits r 0).map (fun n => (n : Int))

namespace QVariant

/-- Modelled from the spec: `QVariant::convert`, part of the reflection provider the
repository only consumes ("read/write access to a named field by value").  A value of
the target type is kept, an integer becomes its decimal string, a string becomes the
integer it spells and fails to convert when it spells none; nothing else converts. -/
def convert : QType → QVariant → Option QVariant
  | .variant, v => some v
  | .int, .int n => some (.int n)
  | .int, .str s => (parseInt s).map QVariant.int
  | .string, .str s => some (.str s)
  | .string, .int n => some (.str (toString n))
  | .map, .map m => some (.map m)
  | _, _ => none

/-- `QVariant::toString()`: the string a variant converts to, empty when it does not. -/
def toQString (v : QVariant) : String :=
  match convert .string v with
  | some (.str s) => s
  | _ => ""

/-- `QVariant::value<QVariantMap>()`: the held map, or an empty map for any other
variant. -/
def toMap : QVariant → QVariantMap
  | .map m => m
  | _ => []

mutual
/-- Modelled from the spec: `QVariant::operator==` of the reflection provider (Qt 5
`QVariant::cmp`).  When the two types differ the argument is converted to the type of
the receiver and a failed conversion makes them unequal; maps are compared entry by
entry with the same comparison. -/
def cmp : QVariant → QVariant → Bool
  | .invalid, .invalid => true
  | .invalid, _ => false
  | .int a, .int b => decide (a = b)
  | .int a, .str s => decide (parseInt s = some a)
  | .int _, _ => false
  | .str a, .str b => decide (a = b)
  | .str a, .int n => decide (a = toString n)
  | .str _, _ => false
  | .map a, .map b => cmpEntries a b
  | .map _, _ => false
/-- `QMap::operator==` on the entries of two variant maps. -/
def cmpEntries : List (String × QVariant) → List (String × QVariant) → Bool
  | [], [] => true
  | (k, v) :: r, (k', v') :: r' => decide (k = k') && cmp v v' && cmpEntries r r'
  | _, _ => false
end

end QVariant

/-! ## `QMap` as an association list -/

/-- Association list standing for `QMap<κ, ν>`. -/
abbrev QMap (κ ν : Type) := List (κ × ν)

/-- The `operator<` a `QMap` orders its keys with. -/
class QMapKey (κ : Type) where
  lessThan : κ → κ → Bool

instance : QMapKey Nat := ⟨fun a b => decide (a < b)⟩

instance : QMapKey String := ⟨fun a b => decide (a.data < b.data)⟩

namespace QMap

variable {κ ν : Type}

/-- `QMap::find` / `QMap::value`: the first binding of `k`. -/
def find [DecidableEq κ] : QMap κ ν → κ → Option ν
  | [], _ => none
  | (k', v) :: r, k => if k' = k then some v else find r k

/-- `m[k] = v`: replaces the binding of `k` if there is one, otherwise inserts in
key order. -/
def insert [DecidableEq κ] [QMapKey κ] : QMap κ ν → κ → ν → QMap κ ν
  | [], k, v => [(k, v)]
  | (k', v') :: r, k, v =>
    if k = k' then (k, v) :: r
    else if QMapKey.lessThan k k' then (k, v) :: (k', v') :: r
    else (k', v') :: insert r k v

/-- `QMap::erase(find(k))`: removes the first binding of `k`. -/
def erase [DecidableEq κ] : QMap κ ν → κ → QMap κ ν
  | [], _ => []
  | (k', v) :: r, k => if k' = k then r else (k', v) :: erase r k

/-- Assignment through a reference obtained by lookup: overwrites the value of the
first binding of `k`; nothing happens when `k` is not bound. -/
def replace [DecidableEq κ] : QMap κ ν → κ → ν → QMap κ ν
  | [], _, _ => []
  | (k', v') :: r, k, v => if k' = k then (k', v) :: r else (k', v') :: replace r k v

/-- The keys in iteration order. -/
def keys (m : QMap κ ν) : List κ := m.map Prod.fst

/-- The values in iteration order. -/
def values (m : QMap κ ν) : List ν := m.map Prod.snd

end QMap

/-! ## Reflection: meta objects and objects -/

/-- A reflected property (`QMetaProperty`): its name, whether it has a setter, its
declared type, and the value the default constructor leaves in it. -/
structure QMetaProperty where
  name : String
  writable : Bool
  type : QType
  init : QVariant
  deriving DecidableEq

/-- A `QMetaObject`: class name, whether a `Q_INVOKABLE` default constructor is
declared (otherwise `newInstance()` yields null), and the property table. -/
structure QMetaObject where
  className : String
  invokable : Bool
  properties : List QMetaProperty
  deriving DecidableEq

/-- A heap object: its dynamic meta object, one value per property index, and for a
`PrefabInstance` the address of the `Prefab` it shares. -/
structure QObject where
  metaObject : QMetaObject
  values : List QVariant
  prefab : Option Ptr
  deriving DecidableEq

/-- What the trace records: the two signals of a store, tagged with the component
class of the emitting store, and successful property writes. -/
inductive Event where
  | componentCreated (cls : String) (id : EntityId) (obj : Ptr)
  | componentAboutToDestruct (cls : String) (id : EntityId) (obj : Ptr)
  | written (obj : Ptr) (index : Nat) (value : QVariant)
  deriving DecidableEq

/-- Process state outside the stores: the object heap (a freed cell is `none`) and
the trace. -/
structure Runtime where
  heap : List (Option QObject)
  trace : List Event
  deriving DecidableEq

/-- Outcome of a call. -/
inductive Outcome (α : Type) where
  | ok (a : α)
  | thrown (what : String)
  | crash
  deriving DecidableEq

namespace Runtime

/-- The object at a live address. -/
def read (rt : Runtime) (p : Ptr) : Option QObject :=
  match rt.heap[p]? with
  | some (some o) => some o
  | _ => none

/-- The expression `new T(...)`: the object is placed at the next unused address. -/
def alloc (rt : Runtime) (o : QObject) : Ptr × Runtime :=
  (rt.heap.length, { rt with heap := rt.heap ++ [some o] })

/-- The statement `delete p`. -/
def delete (rt : Runtime) (p : Ptr) : Runtime :=
  { rt with heap := rt.heap.set p none }

/-- The statement `emit signal(...)`. -/
def emit (rt : Runtime) (e : Event) : Runtime :=
  { rt with trace := rt.trace ++ [e] }

/-- `prop.read(obj)` for the property at index `i`; an invalid variant when there is
nothing to read. -/
def readProperty (rt : Runtime) (obj : Ptr) (i : Nat) : QVariant :=
  match rt.read obj with
  | some o => (o.values[i]?).getD QVariant.invalid
  | none => QVariant.invalid

/-- `prop.write(obj, v)` for the property at index `i`: refuses a property without a
setter, converts `v` to the declared type and stores it; answers `false`, changing
nothing, when it refuses or the conversion fails. -/
def writeProperty (rt : Runtime) (obj : Ptr) (i : Nat) (prop : QMetaProperty)
    (v : QVariant) : Bool × Runtime :=
  if !prop.writable then (false, rt)
  else
    match rt.read obj, QVariant.convert prop.type v with
    | some o, some v' =>
      (true, { heap := rt.heap.set obj (some { o with values := o.values.set i v' }),
               trace := rt.trace ++ [Event.written obj i v'] })
    | _, _ => (false, rt)

end Runtime

namespace QMetaObject

/-- The object a default constructor builds. -/
def defaultObject (mo : QMetaObject) : QObject :=
  { metaObject := mo, values := mo.properties.map QMetaProperty.init, prefab := none }

/-- `QMetaObject::newInstance()`: a default-constructed object, or null when the
class declares no invokable default constructor. -/
def newInstance (mo : QMetaObject) (rt : Runtime) : Option Ptr × Runtime :=
  if mo.invokable then
    ((rt.alloc mo.defaultObject).1, (rt.alloc mo.defaultObject).2)
  else (none, rt)

end QMetaObject

/-! ## `SimpleEntitySystem` -/

/-- The state of a `SimpleEntitySystem`: the meta object of its component class and
the `_components` map.  The declaration of `ComponentStore` lies in a header outside
the sources at hand; following the spec it is an association ordered by `EntityId`. -/
structure SimpleEntitySystem where
  componentMetaObject : QMetaObject
  components : QMap EntityId Ptr
  deriving DecidableEq

namespace SimpleEntitySystem

/-- `SimpleEntitySystem::getComponent`. -/
def getComponent (s : SimpleEntitySystem) (id : EntityId) : Option Ptr :=
  s.components.find id

/-- `SimpleEntitySystem::hasComponent`. -/
def hasComponent (s : SimpleEntitySystem) (id : EntityId) : Bool :=
  (s.getComponent id).isSome

/-- `SimpleEntitySystem::count`. -/
def count (s : SimpleEntitySystem) : Nat :=
  s.components.length

/-- The loop of `SimpleEntitySystem::applyParameters` from property index `i` on. -/
def applyParametersFrom (properties : QVariantMap) (obj : Ptr) :
    List QMetaProperty → Nat → Runtime → Runtime
  | [], _, rt => rt
  | prop :: rest, i, rt =>
    if !prop.writable then
      applyParametersFrom properties obj rest (i + 1) rt
    else
      match QMap.find properties prop.name with
      | none => applyParametersFrom properties obj rest (i + 1) rt
      | some var =>
        applyParametersFrom properties obj rest (i + 1) (rt.writeProperty obj i prop var).2

/-- `SimpleEntitySystem::applyParameters`.  With a non-empty map the object is
dereferenced (`obj->metaObject()`), which crashes on a null or dangling pointer. -/
def applyParameters (rt : Runtime) (obj : Option Ptr) (properties : QVariantMap) :
    Outcome Unit × Runtime :=
  if properties.isEmpty then (.ok (), rt)
  else
    match obj with
    | none => (.crash, rt)
    | some p =>
      match rt.read p with
      | none => (.crash, rt)
      | some o => (.ok (), applyParametersFrom properties p o.metaObject.properties 0 rt)

/-- `SimpleEntitySystem::createObjectInstance`. -/
def createObjectInstance (s : SimpleEntitySystem) (rt : Runtime) (_id : EntityId)
    (propertyVals : QVariantMap) : Outcome (Option Ptr) × Runtime :=
  match applyParameters (s.componentMetaObject.newInstance rt).2
      (s.componentMetaObject.newInstance rt).1 propertyVals with
  | (.ok _, rt') => (.ok (s.componentMetaObject.newInstance rt).1, rt')
  | (.thrown e, rt') => (.thrown e, rt')
  | (.crash, rt') => (.crash, rt')

/-- The message of the exception for an id that already has a component. -/
def duplicateError : String := "Component already existss!"

/-- The message of the exception for a failed construction. -/
def constructionError : String := "Component could not be constructed."

/-- `SimpleEntitySystem::createComponent`. -/
def createComponent (s : SimpleEntitySystem) (rt : Runtime) (id : EntityId)
    (propertyVals : QVariantMap) : Outcome Ptr × SimpleEntitySystem × Runtime :=
  if (s.getComponent id).isSome then (.thrown duplicateError, s, rt)
  else
    match s.createObjectInstance rt id propertyVals with
    | (.ok none, rt') => (.thrown constructionError, s, rt')
    | (.ok (some obj), rt') =>
      (.ok obj, { s with components := s.components.insert id obj },
        rt'.emit (.componentCreated s.componentMetaObject.className id obj))
    | (.thrown e, rt') => (.thrown e, s, rt')
    | (.crash, rt') => (.crash, s, rt')

/-- `SimpleEntitySystem::destroyComponent`. -/
def destroyComponent (s : SimpleEntitySystem) (rt : Runtime) (id : EntityId) :
    Bool × SimpleEntitySystem × Runtime :=
  match s.components.find id with
  | none => (false, s, rt)
  | some obj =>
    (true, { s with components := s.components.erase id },
      (rt.emit (.componentAboutToDestruct s.componentMetaObject.className id obj)).delete obj)

/-- `SimpleEntitySystem::begin()`: the position of the first entry of `_components`. -/
def begin (_s : SimpleEntitySystem) : Nat := 0

/-- `SimpleEntitySystem::end()`: the position past the last entry of `_components`. -/
def end_ (s : SimpleEntitySystem) : Nat := s.components.length

/-- The statically-typed walk `for(auto i = begin(); i != end(); ++i)` from position
`it`, collecting `i.value()`.  `none` when the fuel runs out or a position outside the
map is dereferenced. -/
def walk (s : SimpleEntitySystem) : Nat → Nat → Option (List Ptr)
  | 0, _ => none
  | fuel + 1, it =>
    if it = s.end_ then some []
    else
      match s.components[it]? with
      | none => none
      | some kv => (walk s fuel (it + 1)).map (fun l => kv.2 :: l)

end SimpleEntitySystem

/-- What `typeid` yields: the type of a class, or the type of a pointer. -/
inductive TypeInfo where
  | ofClass (name : String)
  | pointerTo (pointee : TypeInfo)
  deriving DecidableEq

/-- `SimpleVIterator`: the type-erased cursor, wrapping a `ComponentStore::iterator`. -/
structure SimpleVIterator where
  iter : Nat
  deriving DecidableEq

namespace SimpleVIterator

/-- `SimpleVIterator::clone`. -/
def clone (it : SimpleVIterator) : SimpleVIterator := { iter := it.iter }

/-- `SimpleVIterator::operator*`: the component the wrapped iterator stands on. -/
def deref (s : SimpleEntitySystem) (it : SimpleVIterator) : Option Ptr :=
  (s.components[it.iter]?).map Prod.snd

/-- The `return` statement of `SimpleVIterator::equal`: compares the wrapped
iterators.  It is the whole body when `Q_ASSERT` expands to nothing. -/
def equal (it other : SimpleVIterator) : Bool :=
  decide (other.iter = it.iter)

/-- `typeid(other)` in `SimpleVIterator::equal`.  The parameter is declared
`VIterator* other`: the operand is an expression of pointer type, for which `typeid`
yields the static type `VIterator*`, whatever object `other` points to. -/
def typeidOfOther (_other : SimpleVIterator) : TypeInfo :=
  .pointerTo (.ofClass "QtEntity::EntitySystem::VIterator")

/-- `typeid(*other)`: the dynamic type of the object a cursor made by `pbegin()` or
`pend()` points to. -/
def typeidOfPointee (_other : SimpleVIterator) : TypeInfo :=
  .ofClass "QtEntity::SimpleVIterator"

/-- `typeid(SimpleVIterator)`. -/
def typeidOfClass : TypeInfo :=
  .ofClass "QtEntity::SimpleVIterator"

/-- The condition of `Q_ASSERT(typeid(other) == typeid(SimpleVIterator))`. -/
def equalAssertion (other : SimpleVIterator) : Bool :=
  decide (typeidOfOther other = typeidOfClass)

/-- `SimpleVIterator::equal` in a build that keeps `Q_ASSERT`: a failed assertion
aborts the process before the wrapped iterators are compared. -/
def equalChecked (it other : SimpleVIterator) : Outcome Bool :=
  if equalAssertion other then .ok (it.equal other) else .crash

/-- `SimpleVIterator::equal` as a build compiles it: where `Q_ASSERT` is kept
(`assertions`) the assertion runs before the comparison, where `QT_NO_DEBUG` is
defined the comparison is all there is. -/
def equalIn (assertions : Bool) (it other : SimpleVIterator) : Outcome Bool :=
  if assertions then it.equalChecked other else .ok (it.equal other)

/-- `SimpleVIterator::increment`. -/
def increment (it : SimpleVIterator) : SimpleVIterator := { iter := it.iter + 1 }

end SimpleVIterator

namespace SimpleEntitySystem

/-- `SimpleEntitySystem::pbegin`. -/
def pbegin (s : SimpleEntitySystem) : SimpleVIterator := { iter := s.begin }

/-- `SimpleEntitySystem::pend`. -/
def pend (s : SimpleEntitySystem) : SimpleVIterator := { iter := s.end_ }

/-- The type-erased walk `for(auto j = pbegin(); j != pend(); ++j)` from cursor `it`,
collecting `*j`, in a build with or without assertions; `EntitySystem::Iterator`
forwards `!=`, `++` and `*` to `equal`, `increment` and `operator*` of the cursor it
owns.  `none` when the fuel runs out or a cursor outside the map is dereferenced,
`some .crash` when a comparison aborts. -/
def pwalk (s : SimpleEntitySystem) (assertions : Bool) :
    Nat → SimpleVIterator → Option (Outcome (List Ptr))
  | 0, _ => none
  | fuel + 1, it =>
    match it.equalIn assertions s.pend with
    | .ok true => some (.ok [])
    | .ok false =>
      match it.deref s with
      | none => none
      | some c =>
        (pwalk s assertions fuel it.increment).map (fun r =>
          match r with
          | .ok l => .ok (c :: l)
          | .thrown e => .thrown e
          | .crash => .crash)
    | .thrown e => some (.thrown e)
    | .crash => some .crash

/-- Representation invariant of a store in a runtime: `_components` binds every id at
most once, no two ids share an object, and every stored pointer is live. -/
structure WF (s : SimpleEntitySystem) (rt : Runtime) : Prop where
  keys_nodup : s.components.keys.Nodup
  values_nodup : s.components.values.Nodup
  live : ∀ p ∈ s.components.values, (rt.read p).isSome = true

end SimpleEntitySystem

/-! ## `PrefabSystem` -/

/-- A `Prefab`: its path, the map from component class name to initial property map,
and the names of its parameters. -/
structure Prefab where
  path : String
  components : QVariantMap
  parameters : List String
  deriving DecidableEq

/-- `PrefabSystem` derives from `SimpleEntitySystem` (its components are the
`PrefabInstance` objects) and adds `_prefabs`, from path to the shared `Prefab`. -/
structure PrefabSystem where
  base : SimpleEntitySystem
  prefabs : QMap String Ptr
  deriving DecidableEq

/-- The whole program state.

Modelled from the spec: the Entity Manager, whose source is not part of the
repository fragment, is the directory `systems` "mapping a component-type name to the
store instance that owns components of that type"; a lookup of an unregistered name
gives null.  The stores it holds are `SimpleEntitySystem`s, and the `PrefabSystem`
itself is kept apart from them in `prefabSystem`. -/
structure World where
  rt : Runtime
  prefabHeap : List Prefab
  systems : QMap String SimpleEntitySystem
  prefabSystem : PrefabSystem
  deriving DecidableEq

namespace World

/-- `EntityManager::getSystemByComponentClassName`. -/
def getSystemByComponentClassName (w : World) (name : String) : Option SimpleEntitySystem :=
  QMap.find w.systems name

/-- The call `es->createComponent(id, propertyVals)` on the store registered as `cls`. -/
def createComponentIn (w : World) (cls : String) (es : SimpleEntitySystem) (id : EntityId)
    (propertyVals : QVariantMap) : Outcome Ptr × World :=
  ((es.createComponent w.rt id propertyVals).1,
    { w with systems := QMap.replace w.systems cls (es.createComponent w.rt id propertyVals).2.1,
             rt := (es.createComponent w.rt id propertyVals).2.2 })

/-- The call `es->destroyComponent(id)` on the store registered as `cls`. -/
def destroyComponentIn (w : World) (cls : String) (es : SimpleEntitySystem) (id : EntityId) :
    Bool × World :=
  ((es.destroyComponent w.rt id).1,
    { w with systems := QMap.replace w.systems cls (es.destroyComponent w.rt id).2.1,
             rt := (es.destroyComponent w.rt id).2.2 })

/-- `prefab->setComponents(c)`. -/
def setComponents (w : World) (prefab : Ptr) (c : QVariantMap) : World :=
  match w.prefabHeap[prefab]? with
  | some pf => { w with prefabHeap := w.prefabHeap.set prefab { pf with components := c } }
  | none => w

end World

namespace PrefabSystem

/-- `PrefabSystem::addPrefab`: a new `Prefab` object is bound to `path`. -/
def addPrefab (w : World) (path : String) (components : QVariantMap)
    (parameters : List String) : World :=
  { w with
    prefabHeap := w.prefabHeap ++ [{ path := path, components := components,
                                     parameters := parameters }],
    prefabSystem := { w.prefabSystem with
      prefabs := QMap.insert w.prefabSystem.prefabs path w.prefabHeap.length } }

/-- The loop of `PrefabSystem::createPrefabComponents` over the entries of
`prefab->components()`.  An exception thrown by a store's `createComponent` leaves
the loop at once. -/
def createPrefabComponentsFrom (id : EntityId) : QVariantMap → World → Outcome Unit × World
  | [], w => (.ok (), w)
  | (classname, var) :: rest, w =>
    match w.getSystemByComponentClassName classname with
    | none => createPrefabComponentsFrom id rest w
    | some es =>
      match w.createComponentIn classname es id var.toMap with
      | (.ok _, w') => createPrefabComponentsFrom id rest w'
      | (.thrown e, w') => (.thrown e, w')
      | (.crash, w') => (.crash, w')

/-- `PrefabSystem::createPrefabComponents`. -/
def createPrefabComponents (w : World) (id : EntityId) (prefab : Ptr) : Outcome Unit × World :=
  match w.prefabHeap[prefab]? with
  | none => (.crash, w)
  | some pf => createPrefabComponentsFrom id pf.components w

/-- `PrefabSystem::createObjectInstance`, the override of the one of
`SimpleEntitySystem`. -/
def createObjectInstance (w : World) (id : EntityId) (propertyVals : QVariantMap) :
    Outcome (Option Ptr) × World :=
  match QMap.find w.prefabSystem.prefabs
      ((QMap.find propertyVals "path").getD QVariant.invalid).toQString with
  | none => (.ok none, w)
  | some prefab =>
    match createPrefabComponents w id prefab with
    | (.ok _, w') =>
      (.ok (some w'.rt.heap.length),
        { w' with rt := (w'.rt.alloc
            { w'.prefabSystem.base.componentMetaObject.defaultObject with
              prefab := some prefab }).2 })
    | (.thrown e, w') => (.thrown e, w')
    | (.crash, w') => (.crash, w')

/-- `SimpleEntitySystem::createComponent` as inherited by `PrefabSystem`: the virtual
call `this->createObjectInstance` reaches the override. -/
def createComponent (w : World) (id : EntityId) (propertyVals : QVariantMap) :
    Outcome Ptr × World :=
  if (w.prefabSystem.base.getComponent id).isSome then
    (.thrown SimpleEntitySystem.duplicateError, w)
  else
    match createObjectInstance w id propertyVals with
    | (.ok none, w') => (.thrown SimpleEntitySystem.constructionError, w')
    | (.ok (some obj), w') =>
      (.ok obj,
        { w' with
          prefabSystem := { w'.prefabSystem with
            base := { w'.prefabSystem.base with
              components := QMap.insert w'.prefabSystem.base.components id obj } },
          rt := w'.rt.emit
            (.componentCreated w'.prefabSystem.base.componentMetaObject.className id obj) })
    | (.thrown e, w') => (.thrown e, w')
    | (.crash, w') => (.crash, w')

/-- Instantiating the template `path` on entity `id`: `createComponent` of the
`PrefabSystem` with the property map `{path: path}`. -/
def instantiate (w : World) (path : String) (id : EntityId) : Outcome Ptr × World :=
  createComponent w id [("path", QVariant.str path)]

/-- The loop `for(auto k = this->begin(); k != this->end(); ++k)` of `updatePrefab`
that destroys the component of class `cls` on every instance of `prefab`.
`pi->prefab()` dereferences the result of the `qobject_cast`, which is null for an
object that is no `PrefabInstance`. -/
def destroyOnInstances (cls : String) (prefab : Ptr) :
    List (EntityId × Ptr) → World → Outcome Unit × World
  | [], w => (.ok (), w)
  | (id, pi) :: rest, w =>
    match (w.rt.read pi).bind QObject.prefab with
    | none => (.crash, w)
    | some q =>
      if q = prefab then
        match w.getSystemByComponentClassName cls with
        | none => destroyOnInstances cls prefab rest w
        | some es => destroyOnInstances cls prefab rest (w.destroyComponentIn cls es id).2
      else destroyOnInstances cls prefab rest w

/-- The innermost loop of `updatePrefab`, over the property indices of one component
from index `i` on. -/
def updateProperties (parameters : List String) (newvals : QVariantMap) (component : Ptr) :
    List QMetaProperty → Nat → Runtime → Runtime
  | [], _, rt => rt
  | prop :: rest, i, rt =>
    if parameters.contains prop.name || prop.name = "objectName" then
      updateProperties parameters newvals component rest (i + 1) rt
    else
      match QMap.find newvals prop.name with
      | none => updateProperties parameters newvals component rest (i + 1) rt
      | some newval =>
        if !(newval.cmp (rt.readProperty component i)) then
          updateProperties parameters newvals component rest (i + 1)
            (rt.writeProperty component i prop newval).2
        else updateProperties parameters newvals component rest (i + 1) rt

/-- The loop of `updatePrefab` that updates the component of class `cls` on every
instance of `prefab`. -/
def updateOnInstances (cls : String) (prefab : Ptr) (parameters : List String)
    (newvals : QVariantMap) : List (EntityId × Ptr) → World → Outcome Unit × World
  | [], w => (.ok (), w)
  | (id, pi) :: rest, w =>
    match (w.rt.read pi).bind QObject.prefab with
    | none => (.crash, w)
    | some q =>
      if q = prefab then
        match (w.getSystemByComponentClassName cls).bind (fun es => es.getComponent id) with
        | none => updateOnInstances cls prefab parameters newvals rest w
        | some component =>
          match w.rt.read component with
          | none => (.crash, w)
          | some o =>
            updateOnInstances cls prefab parameters newvals rest
              { w with
                rt := updateProperties parameters newvals component o.metaObject.properties 0
                  w.rt }
      else updateOnInstances cls prefab parameters newvals rest w

/-- The first loop of `updatePrefab`, over the entries of the old
`prefab->components()`. -/
def updateExisting (prefab : Ptr) (parameters : List String) (newcomponents : QVariantMap)
    (instances : List (EntityId × Ptr)) : QVariantMap → World → Outcome Unit × World
  | [], w => (.ok (), w)
  | (key, _) :: rest, w =>
    match w.getSystemByComponentClassName key with
    | none => updateExisting prefab parameters newcomponents instances rest w
    | some _ =>
      match QMap.find newcomponents key with
      | none =>
        match destroyOnInstances key prefab instances w with
        | (.ok _, w') => updateExisting prefab parameters newcomponents instances rest w'
        | (.thrown e, w') => (.thrown e, w')
        | (.crash, w') => (.crash, w')
      | some newval =>
        match updateOnInstances key prefab parameters newval.toMap instances w with
        | (.ok _, w') => updateExisting prefab parameters newcomponents instances rest w'
        | (.thrown e, w') => (.thrown e, w')
        | (.crash, w') => (.crash, w')

/-- The loop of `updatePrefab` that creates the component of class `cls` on every
instance of `prefab`; an exception of `createComponent` leaves it at once. -/
def createOnInstances (cls : String) (prefab : Ptr) (vals : QVariantMap) :
    List (EntityId × Ptr) → World → Outcome Unit × World
  | [], w => (.ok (), w)
  | (id, pi) :: rest, w =>
    match (w.rt.read pi).bind QObject.prefab with
    | none => (.crash, w)
    | some q =>
      if q = prefab then
        match w.getSystemByComponentClassName cls with
        | none => createOnInstances cls prefab vals rest w
        | some es =>
          match w.createComponentIn cls es id vals with
          | (.ok _, w') => createOnInstances cls prefab vals rest w'
          | (.thrown e, w') => (.thrown e, w')
          | (.crash, w') => (.crash, w')
      else createOnInstances cls prefab vals rest w

/-- The second loop of `updatePrefab`, over the entries of `newcomponents`; `old` is
`prefab->components()`. -/
def addMissing (prefab : Ptr) (old : QVariantMap) (instances : List (EntityId × Ptr)) :
    QVariantMap → World → Outcome Unit × World
  | [], w => (.ok (), w)
  | (key, val) :: rest, w =>
    match QMap.find old key with
    | some _ => addMissing prefab old instances rest w
    | none =>
      match w.getSystemByComponentClassName key with
      | none => addMissing prefab old instances rest w
      | some _ =>
        match createOnInstances key prefab val.toMap instances w with
        | (.ok _, w') => addMissing prefab old instances rest w'
        | (.thrown e, w') => (.thrown e, w')
        | (.crash, w') => (.crash, w')

/-- `PrefabSystem::updatePrefab`.  The stores reached through the Entity Manager are
not the `PrefabSystem`, so the instance map walked by the inner loops and the old
component map of the prefab stay as they are until `setComponents` runs. -/
def updatePrefab (w : World) (path : String) (newcomponents : QVariantMap)
    (updateInstances : Bool) : Outcome Unit × World :=
  match QMap.find w.prefabSystem.prefabs path with
  | none => (.ok (), w)
  | some prefab =>
    if updateInstances then
      match w.prefabHeap[prefab]? with
      | none => (.crash, w)
      | some pf =>
        match updateExisting prefab pf.parameters newcomponents
            w.prefabSystem.base.components pf.components w with
        | (.ok _, w1) =>
          match addMissing prefab pf.components w.prefabSystem.base.components
              newcomponents w1 with
          | (.ok _, w2) => (.ok (), w2.setComponents prefab newcomponents)
          | (.thrown e, w2) => (.thrown e, w2)
          | (.crash, w2) => (.crash, w2)
        | (.thrown e, w1) => (.thrown e, w1)
        | (.crash, w1) => (.crash, w1)
    else (.ok (), w.setComponents prefab newcomponents)

end PrefabSystem

/-- The value a freshly constructed component holds in the property `prop` once
`applyParameters` has run with the map `m`: the converted entry of `m` when the
property has a setter, `m` names it and the conversion succeeds, the value left by
the default constructor otherwise. -/
def QMetaProperty.valueAfter (prop : QMetaProperty) (m : QVariantMap) : QVariant :=
  if prop.writable then
    match QMap.find m prop.name with
    | none => prop.init
    | some v => (QVariant.convert prop.type v).getD prop.init
  else prop.init

/-- The component `createComponent` builds in the store `es` for the template entry
`var`: a default-constructed object on which `applyParameters` has run with the
property map of the entry. -/
def PrefabSystem.builtObject (es : SimpleEntitySystem) (var : QVariant) : QObject :=
  { metaObject := es.componentMetaObject,
    values := es.componentMetaObject.properties.map (fun q => q.valueAfter var.toMap),
    prefab := none }

/-- The world `instantiate` leaves when the loop of `createPrefabComponents` returned
in the world `w1`: a `PrefabInstance` sharing `prefab` is allocated, stored under `id`
and announced. -/
def PrefabSystem.instantiated (w1 : World) (id : EntityId) (prefab : Ptr) : World :=
  { w1 with
    prefabSystem := { w1.prefabSystem with
      base := { w1.prefabSystem.base with
        components := QMap.insert w1.prefabSystem.base.components id w1.rt.heap.length } },
    rt := (w1.rt.alloc { w1.prefabSystem.base.componentMetaObject.defaultObject with
              prefab := some prefab }).2.emit
            (.componentCreated w1.prefabSystem.base.componentMetaObject.className id
              w1.rt.heap.length) }

/-! ## Vocabulary for `updatePrefab` -/

/-- The fields the update step of `updatePrefab` never writes: those named in the
parameter list of the prefab, and `objectName`. -/
def PrefabSystem.exempt (parameters : List String) (name : String) : Prop :=
  parameters.contains name = true ∨ name = "objectName"

/-- The value the update step of `updatePrefab` leaves in one property of a
component that holds `current`: an exempt property, one the new map does not name,
or one whose new value compares equal to `current` keeps `current`; otherwise the new
value is written, which stores its conversion to the declared type, or is refused
(no setter, no conversion) and leaves `current`. -/
def PrefabSystem.fieldAfterUpdate (parameters : List String) (newvals : QVariantMap)
    (prop : QMetaProperty) (current : QVariant) : QVariant :=
  if parameters.contains prop.name || prop.name = "objectName" then current
  else
    match QMap.find newvals prop.name with
    | none => current
    | some newval =>
      if newval.cmp current then current
      else if prop.writable then (QVariant.convert prop.type newval).getD current
      else current

/-- What the first loop of `updatePrefab` (removals and updates) may do to the heap
and the trace: no allocation, a freed cell stays freed, a live object is freed or
keeps its class, its prefab reference, its number of fields and the values of its
exempt fields; nothing is announced as created. -/
structure Runtime.Updated (parameters : List String) (rt rt' : Runtime) : Prop where
  length_eq : rt'.heap.length = rt.heap.length
  dead : ∀ p, rt.read p = none → rt'.read p = none
  shape : ∀ p o, rt.read p = some o →
    rt'.read p = none ∨
    ∃ o', rt'.read p = some o' ∧ o'.metaObject = o.metaObject ∧ o'.prefab = o.prefab ∧
      o'.values.length = o.values.length ∧
      ∀ (k : Nat) (prop : QMetaProperty), o.metaObject.properties[k]? = some prop →
        PrefabSystem.exempt parameters prop.name → o'.values[k]? = o.values[k]?
  trace : ∃ ext, rt'.trace = rt.trace ++ ext ∧
    ∀ e ∈ ext, ∀ c i o, e ≠ Event.componentCreated c i o

/-- What the first loop of `updatePrefab` may do to the world: the `PrefabSystem` and
the templates are untouched, the directory keeps its names, a store keeps its class
and can only lose components, stores of classes outside `touched` are untouched, and
so is every object that is no component of a store of a class in `touched`. -/
structure World.ShrinksOn (parameters : List String) (touched : String → Prop)
    (w w' : World) : Prop where
  prefabSystem_eq : w'.prefabSystem = w.prefabSystem
  prefabHeap_eq : w'.prefabHeap = w.prefabHeap
  unregistered : ∀ name, w.getSystemByComponentClassName name = none →
    w'.getSystemByComponentClassName name = none
  stores : ∀ name es, w.getSystemByComponentClassName name = some es →
    ∃ es', w'.getSystemByComponentClassName name = some es' ∧
      es'.componentMetaObject = es.componentMetaObject ∧
      List.Sublist es'.components es.components
  others : ∀ name, ¬ touched name →
    w'.getSystemByComponentClassName name = w.getSystemByComponentClassName name
  frame : ∀ p, (∀ name es, touched name → w.getSystemByComponentClassName name = some es →
      p ∉ QMap.values es.components) → w'.rt.read p = w.rt.read p
  heap : Runtime.Updated parameters w.rt w'.rt

/-- What the second loop of `updatePrefab` (additions) may do to the world: the
`PrefabSystem` and the templates are untouched, the directory keeps its names, a
store keeps its class and the components it has, stores of classes outside `touched`
are untouched, no object that existed changes, nothing is announced as destroyed and
only objects allocated meanwhile are written. -/
structure World.GrowsOn (touched : String → Prop) (w w' : World) : Prop where
  prefabSystem_eq : w'.prefabSystem = w.prefabSystem
  prefabHeap_eq : w'.prefabHeap = w.prefabHeap
  unregistered : ∀ name, w.getSystemByComponentClassName name = none →
    w'.getSystemByComponentClassName name = none
  stores : ∀ name es, w.getSystemByComponentClassName name = some es →
    ∃ es', w'.getSystemByComponentClassName name = some es' ∧
      es'.componentMetaObject = es.componentMetaObject ∧
      ∀ id c, es.getComponent id = some c → es'.getComponent id = some c
  others : ∀ name, ¬ touched name →
    w'.getSystemByComponentClassName name = w.getSystemByComponentClassName name
  length_le : w.rt.heap.length ≤ w'.rt.heap.length
  frame : ∀ p, p < w.rt.heap.length → w'.rt.read p = w.rt.read p
  trace : ∃ ext, w'.rt.trace = w.rt.trace ++ ext ∧
    ∀ e ∈ ext, (∀ c i o, e ≠ Event.componentAboutToDestruct c i o) ∧
      ∀ o i v, e = Event.written o i v → w.rt.heap.length ≤ o

/-- The component pointers held by the stores of the directory, store by store. -/
def World.storePointers : QMap String SimpleEntitySystem → List Ptr
  | [] => []
  | (_, es) :: rest => QMap.values es.components ++ World.storePointers rest

/-- Representation invariant of the world: the directory binds every class name once,
every store and the instance store bind every id once, no object is shared between
two bindings of any store (the instance store included), and every stored pointer is
a live object with one value per property of its class. -/
structure World.WF (w : World) : Prop where
  names_nodup : (QMap.keys w.systems).Nodup
  keys_nodup : ∀ e ∈ w.systems, (QMap.keys e.2.components).Nodup
  instances_nodup : (QMap.keys w.prefabSystem.base.components).Nodup
  pointers_nodup :
    (World.storePointers w.systems ++ QMap.values w.prefabSystem.base.components).Nodup
  typed : ∀ p ∈ World.storePointers w.systems ++ QMap.values w.prefabSystem.base.components,
    (w.rt.read p).map (fun o => decide (o.values.length = o.metaObject.properties.length))
      = some true

/-- The world `w` with the heap of `Prefab` objects replaced by `h`. -/
def World.withHeap (w : World) (h : List Prefab) : World :=
  { w with prefabHeap := h }

/-- The two loops of `updatePrefab` one after the other, as the body of
`if(updateInstances)` runs them; `old` is `prefab->components()`. -/
def PrefabSystem.propagate (prefab : Ptr) (parameters : List String)
    (newcomponents : QVariantMap) (instances : List (EntityId × Ptr)) (old : QVariantMap)
    (w : World) : Outcome Unit × World :=
  match PrefabSystem.updateExisting prefab parameters newcomponents instances old w with
  | (.ok _, w1) => PrefabSystem.addMissing prefab old instances newcomponents w1
  | (.thrown e, w1) => (.thrown e, w1)
  | (.crash, w1) => (.crash, w1)

/-! ## The pooled store -/

/-- Modelled from the spec: the state of the Pooled Store (`PooledEntitySystem`), of
which the sources at hand hold the tests only.  Following the spec it is "backed by an
ordered sequence of fixed-size chunks, each chunk a contiguous array of component
slots plus an occupied flag per slot", with "a free-list of slot addresses recycled
from destroyed components".  `slots` are the chunks laid end to end, an unoccupied
slot being `none`; `used` is the number of slots handed out by appending; `trace`
records the notifications of the store.  A component handle is the address of its
slot. -/
structure PooledEntitySystem where
  componentMetaObject : QMetaObject
  chunkSize : Nat
  slots : List (Option (EntityId × QObject))
  used : Nat
  freeList : List Nat
  trace : List Event
  deriving DecidableEq

namespace PooledEntitySystem

/-- Modelled from the spec: the pooled store built with initial capacity 0 and the
given chunk size; it has no chunk yet. -/
def empty (mo : QMetaObject) (chunkSize : Nat) : PooledEntitySystem :=
  { componentMetaObject := mo, chunkSize := chunkSize, slots := [], used := 0,
    freeList := [], trace := [] }

/-- Modelled from the spec: `capacity()`, "number of chunks × chunkSize", which is the
number of slots. -/
def capacity (s : PooledEntitySystem) : Nat :=
  s.slots.length

/-- Modelled from the spec: `count()`, the number of occupied slots. -/
def count (s : PooledEntitySystem) : Nat :=
  s.slots.countP (fun sl => sl.isSome)

/-- Modelled from the spec: the address of the occupied slot that holds the component
of `id`, searching the slots in order. -/
def slotOf : List (Option (EntityId × QObject)) → EntityId → Option Nat
  | [], _ => none
  | none :: rest, id => (slotOf rest id).map (fun a => a + 1)
  | some (i, _) :: rest, id =>
    if i = id then some 0 else (slotOf rest id).map (fun a => a + 1)

/-- Modelled from the spec: `component(id)`, the `fetch` of the storage contract: the
handle of the component of `id`, or absent. -/
def component (s : PooledEntitySystem) (id : EntityId) : Option Nat :=
  slotOf s.slots id

/-- Modelled from the spec: the component a `create` constructs, the default instance
on which "each entry of `propertyMap`" has been applied "to the new component's
matching writable field". -/
def construct (mo : QMetaObject) (m : QVariantMap) : QObject :=
  { metaObject := mo, values := mo.properties.map (fun q => q.valueAfter m), prefab := none }

/-- Modelled from the spec: `createComponent(id, propertyMap)`.  It fails on an id
that has a live component and on a component type that cannot be constructed;
otherwise it "pops from the free list if non-empty, else appends into the current
chunk, allocating a new chunk (size = chunkSize) when the current one is full", and
announces the component.  A store that has no room even after the allocation (chunk
size 0) cannot place the component. -/
def createComponent (s : PooledEntitySystem) (id : EntityId) (m : QVariantMap) :
    Outcome Nat × PooledEntitySystem :=
  if (s.component id).isSome then (.thrown SimpleEntitySystem.duplicateError, s)
  else if !s.componentMetaObject.invokable then
    (.thrown SimpleEntitySystem.constructionError, s)
  else
    match s.freeList with
    | a :: rest =>
      (.ok a,
        { s with
          slots := s.slots.set a (some (id, construct s.componentMetaObject m)),
          freeList := rest,
          trace := s.trace ++ [.componentCreated s.componentMetaObject.className id a] })
    | [] =>
      if s.used < s.slots.length then
        (.ok s.used,
          { s with
            slots := s.slots.set s.used (some (id, construct s.componentMetaObject m)),
            used := s.used + 1,
            trace := s.trace ++
              [.componentCreated s.componentMetaObject.className id s.used] })
      else if s.used < s.slots.length + s.chunkSize then
        (.ok s.used,
          { s with
            slots := (s.slots ++ List.replicate s.chunkSize none).set s.used
              (some (id, construct s.componentMetaObject m)),
            used := s.used + 1,
            trace := s.trace ++
              [.componentCreated s.componentMetaObject.className id s.used] })
      else (.crash, s)

/-- Modelled from the spec: releasing the occupied slot at address `a`, which holds
the component of `id`: the "about to be destroyed" notification is emitted first,
then the slot is marked unoccupied and threaded on the free list. -/
def release (s : PooledEntitySystem) (a : Nat) (id : EntityId) : PooledEntitySystem :=
  { s with
    slots := s.slots.set a none,
    freeList := a :: s.freeList,
    trace := s.trace ++ [.componentAboutToDestruct s.componentMetaObject.className id a] }

/-- Modelled from the spec: `destroyComponent(id)`, "a no-op returning false" for an
id that is not present. -/
def destroyComponent (s : PooledEntitySystem) (id : EntityId) : Bool × PooledEntitySystem :=
  match s.component id with
  | none => (false, s)
  | some a => (true, s.release a id)

/-- Modelled from the spec: `clear()`, which "resets count to 0 and returns all slots
to the free list" and "does not release chunk memory". -/
def clear (s : PooledEntitySystem) : PooledEntitySystem :=
  { s with
    slots := List.replicate s.slots.length none,
    used := s.slots.length,
    freeList := List.range s.slots.length }

/-- Modelled from the spec: the first position at or after `p` that stands on an
occupied slot, or the end position: "iteration skips unoccupied slots". -/
def skip (s : PooledEntitySystem) (p : Nat) : Nat :=
  min s.slots.length (p + ((s.slots.drop p).takeWhile (fun sl => sl.isNone)).length)

/-- Modelled from the spec: `begin()`. -/
def begin (s : PooledEntitySystem) : Nat := s.skip 0

/-- Modelled from the spec: `end()`. -/
def end_ (s : PooledEntitySystem) : Nat := s.slots.length

/-- Modelled from the spec: `++i` on an iterator. -/
def increment (s : PooledEntitySystem) (it : Nat) : Nat := s.skip (it + 1)

/-- Modelled from the spec: `*i`, the pair of the id and the handle of the component
the iterator stands on. -/
def deref (s : PooledEntitySystem) (it : Nat) : Option (EntityId × Nat) :=
  match s.slots[it]? with
  | some (some (id, _)) => some (id, it)
  | _ => none

/-- Modelled from the spec: the walk `for(auto i = begin(); i != end(); ++i)` from the
iterator `it`, collecting `*i`.  `none` when the fuel runs out or an iterator that
stands on no component is dereferenced. -/
def walk (s : PooledEntitySystem) : Nat → Nat → Option (List (EntityId × Nat))
  | 0, _ => none
  | fuel + 1, it =>
    if it = s.end_ then some []
    else
      match s.deref it with
      | none => none
      | some e => (walk s fuel (s.increment it)).map (fun l => e :: l)

/-- Modelled from the spec: `erase(iterator)`, which removes the component the
iterator stands on and "returns an iterator to the next occupied slot".  An iterator
that stands on no component cannot be erased. -/
def erase (s : PooledEntitySystem) (it : Nat) : Outcome Nat × PooledEntitySystem :=
  match s.deref it with
  | some (id, _) => (.ok ((s.release it id).skip (it + 1)), s.release it id)
  | none => (.crash, s)

end PooledEntitySystem

/-- A call on a pooled store: `createComponent` or `destroyComponent`. -/
inductive PoolOp where
  | create (id : EntityId) (m : QVariantMap)
  | destroy (id : EntityId)

namespace PooledEntitySystem

/-- The store after one call. -/
def step (s : PooledEntitySystem) : PoolOp → PooledEntitySystem
  | .create id m => (s.createComponent id m).2
  | .destroy id => (s.destroyComponent id).2

/-- The store after a sequence of calls. -/
def run : List PoolOp → PooledEntitySystem → PooledEntitySystem
  | [], s => s
  | op :: ops, s => run ops (s.step op)

/-- The peak number of simultaneously live components over a sequence of calls,
the state before the first call included. -/
def peak : List PoolOp → PooledEntitySystem → Nat
  | [], s => s.count
  | op :: ops, s => max s.count (peak ops (s.step op))

/-- The live components of a run of slots that starts at address `p`, in slot order,
each with its handle. -/
def entriesFrom : List (Option (EntityId × QObject)) → Nat → List (EntityId × Nat)
  | [], _ => []
  | none :: rest, p => entriesFrom rest (p + 1)
  | some (id, _) :: rest, p => (id, p) :: entriesFrom rest (p + 1)

/-- Representation invariant of a pooled store. -/
structure WF (s : PooledEntitySystem) : Prop where
  chunks : s.chunkSize ∣ s.slots.length
  used_le : s.used ≤ s.slots.length
  tight : s.slots.length < s.used + s.chunkSize ∨ s.slots.length = 0
  balance : s.count + s.freeList.length = s.used
  free_nodup : s.freeList.Nodup
  free_unoccupied : ∀ a ∈ s.freeList, a < s.used ∧ s.slots[a]? = some none
  fresh_unoccupied : ∀ sl ∈ s.slots.drop s.used, sl = none
  ids_nodup : ((entriesFrom s.slots 0).map Prod.fst).Nodup
  constructible : s.slots ≠ [] → s.componentMetaObject.invokable = true

end PooledEntitySystem

/-! ## Sequences of calls on a store -/

namespace SimpleEntitySystem

/-- The statically-typed walk `for(auto i = begin(); i != end(); ++i)` from position
`it`, collecting `i.key()`.  `none` when the fuel runs out or a position outside the
map is dereferenced. -/
def walkKeys (s : SimpleEntitySystem) : Nat → Nat → Option (List EntityId)
  | 0, _ => none
  | fuel + 1, it =>
    if it = s.end_ then some []
    else
      match s.components[it]? with
      | none => none
      | some kv => (walkKeys s fuel (it + 1)).map (fun l => kv.1 :: l)

end SimpleEntitySystem

/-- A call on a store: `createComponent(id, propertyVals)` or `destroyComponent(id)`. -/
inductive StoreOp where
  | create (id : EntityId) (propertyVals : QVariantMap)
  | destroy (id : EntityId)

namespace SimpleEntitySystem

/-- The store and the runtime after one call, whatever its outcome. -/
def step (st : SimpleEntitySystem × Runtime) : StoreOp → SimpleEntitySystem × Runtime
  | .create id m => (st.1.createComponent st.2 id m).2
  | .destroy id => (st.1.destroyComponent st.2 id).2

/-- The store and the runtime after a sequence of calls. -/
def run : List StoreOp → SimpleEntitySystem × Runtime → SimpleEntitySystem × Runtime
  | [], st => st
  | op :: ops, st => run ops (step st op)

end SimpleEntitySystem

/-! ## Vocabulary for the frame of `updatePrefab` -/

/-- Pointer discipline of a world, as far as lookups can tell: every store binds an
id once, an object is the component of one id in one store only, components are
allocated objects, and the `PrefabInstance` objects are allocated and are no
component of a store. -/
structure World.Tidy (w : World) : Prop where
  keys_nodup : ∀ n es, w.getSystemByComponentClassName n = some es →
    (QMap.keys es.components).Nodup
  inj : ∀ n1 es1 i1 n2 es2 i2 p, w.getSystemByComponentClassName n1 = some es1 →
    es1.getComponent i1 = some p → w.getSystemByComponentClassName n2 = some es2 →
    es2.getComponent i2 = some p → n1 = n2 ∧ i1 = i2
  lt : ∀ n es i p, w.getSystemByComponentClassName n = some es → es.getComponent i = some p →
    p < w.rt.heap.length
  inst_out : ∀ q ∈ QMap.values w.prefabSystem.base.components,
    q < w.rt.heap.length ∧
      ∀ n es i, w.getSystemByComponentClassName n = some es → es.getComponent i ≠ some q

/-- The step from `w` to `w'` passes the entity `e` by: the `PrefabSystem` is
untouched, every store is still registered and binds `e` as before, the components of
`e` are unchanged objects, and so are the `PrefabInstance` objects. -/
structure World.Bypasses (e : EntityId) (w w' : World) : Prop where
  prefabSystem_eq : w'.prefabSystem = w.prefabSystem
  stores : ∀ n es, w.getSystemByComponentClassName n = some es →
    ∃ es', w'.getSystemByComponentClassName n = some es' ∧
      es'.getComponent e = es.getComponent e
  objects : ∀ n es c, w.getSystemByComponentClassName n = some es →
    es.getComponent e = some c → w'.rt.read c = w.rt.read c
  instances : ∀ q ∈ QMap.values w.prefabSystem.base.components, w'.rt.read q = w.rt.read q

/-- The instance list `l` is made of `PrefabInstance` objects of the world, and no
entry of the entity `e` in it references the template `prefab`. -/
def World.Skips (e : EntityId) (prefab : Ptr) (l : List (EntityId × Ptr)) (w : World) : Prop :=
  (∀ id pi, (id, pi) ∈ l → pi ∈ QMap.values w.prefabSystem.base.components) ∧
    ∀ pi, (e, pi) ∈ l → (w.rt.read pi).bind QObject.prefab ≠ some prefab

/-! ## Fixtures

The component class of the test-suite and small states built from it. -/

/-- The `Testing` component of the tests: the `objectName` every `QObject` has and the
integer property `myint`. -/
def testingMetaObject : QMetaObject :=
  { className := "Testing", invokable := true,
    properties := [{ name := "objectName", writable := true, type := .string, init := .str "" },
                   { name := "myint", writable := true, type := .int, init := .int 0 }] }

/-- A component class without `Q_INVOKABLE` default constructor. -/
def abstractMetaObject : QMetaObject :=
  { testingMetaObject with className := "Abstract", invokable := false }

/-- An empty runtime. -/
def emptyRuntime : Runtime := { heap := [], trace := [] }

/-- An empty store of `Testing` components. -/
def testingSystem : SimpleEntitySystem :=
  { componentMetaObject := testingMetaObject, components := [] }

/-- An empty store whose component class cannot be constructed. -/
def abstractSystem : SimpleEntitySystem :=
  { componentMetaObject := abstractMetaObject, components := [] }

/-- The store of `destroyMore`: components for the ids 1, 2 and 3. -/
def threeSystem : SimpleEntitySystem :=
  { componentMetaObject := testingMetaObject, components := [(1, 0), (2, 1), (3, 2)] }

/-- The runtime of `destroyMore`: the three components with `myint` 1, 2 and 3. -/
def threeRuntime : Runtime :=
  { heap := [some { metaObject := testingMetaObject, values := [.str "", .int 1], prefab := none },
             some { metaObject := testingMetaObject, values := [.str "", .int 2], prefab := none },
             some { metaObject := testingMetaObject, values := [.str "", .int 3], prefab := none }],
    trace := [] }

/-- Component class `A` with the integer property `x`. -/
def metaA : QMetaObject :=
  { className := "A", invokable := true,
    properties := [{ name := "objectName", writable := true, type := .string, init := .str "" },
                   { name := "x", writable := true, type := .int, init := .int 0 }] }

/-- Component class `B` with the integer property `y`. -/
def metaB : QMetaObject :=
  { className := "B", invokable := true,
    properties := [{ name := "objectName", writable := true, type := .string, init := .str "" },
                   { name := "y", writable := true, type := .int, init := .int 0 }] }

/-- The meta object of `PrefabInstance`. -/
def metaPrefabInstance : QMetaObject :=
  { className := "QtEntity::PrefabInstance", invokable := false,
    properties := [{ name := "objectName", writable := true, type := .string, init := .str "" }] }

/-- The template of the propagation scenario: `{A: {x: 1}, B: {y: 2}}`, no parameters. -/
def templateT : Prefab :=
  { path := "T",
    components := [("A", .map [("x", .int 1)]), ("B", .map [("y", .int 2)])],
    parameters := [] }

/-- A world with empty stores for `A` and `B` and the template `T` registered. -/
def scenarioWorld : World :=
  { rt := emptyRuntime,
    prefabHeap := [templateT],
    systems := [("A", { componentMetaObject := metaA, components := [] }),
                ("B", { componentMetaObject := metaB, components := [] })],
    prefabSystem := { base := { componentMetaObject := metaPrefabInstance, components := [] },
                      prefabs := [("T", 0)] } }

/-- The scenario world in which entity 1 already has a `B` component. -/
def occupiedWorld : World :=
  { scenarioWorld with
    rt := { heap := [some { metaObject := metaB, values := [.str "", .int 7], prefab := none }],
            trace := [] },
    systems := [("A", { componentMetaObject := metaA, components := [] }),
                ("B", { componentMetaObject := metaB, components := [(1, 0)] })] }

/-- A world whose only template declares a component class that cannot be constructed. -/
def abstractWorld : World :=
  { rt := emptyRuntime,
    prefabHeap := [{ path := "T", components := [("Abstract", .map [])], parameters := [] }],
    systems := [("Abstract", abstractSystem)],
    prefabSystem := { base := { componentMetaObject := metaPrefabInstance, components := [] },
                      prefabs := [("T", 0)] } }

/-- The scenario world after the template `T` has been instantiated on entity 1:
the `A` component with `x` 1 at address 0, the `B` component with `y` 2 at address 1
and the `PrefabInstance` at address 2. -/
def instanceWorld : World :=
  { rt := { heap := [some { metaObject := metaA, values := [.str "", .int 1], prefab := none },
                     some { metaObject := metaB, values := [.str "", .int 2], prefab := none },
                     some { metaObject := metaPrefabInstance, values := [.str ""],
                            prefab := some 0 }],
            trace := [] },
    prefabHeap := [templateT],
    systems := [("A", { componentMetaObject := metaA, components := [(1, 0)] }),
                ("B", { componentMetaObject := metaB, components := [(1, 1)] })],
    prefabSystem := { base := { componentMetaObject := metaPrefabInstance,
                                components := [(1, 2)] },
                      prefabs := [("T", 0)] } }

/-- The instantiated scenario with `x` declared a parameter of the template and the
`x` of entity 1 set by hand to 99. -/
def parameterWorld : World :=
  { instanceWorld with
    rt := { heap := [some { metaObject := metaA, values := [.str "", .int 99], prefab := none },
                     some { metaObject := metaB, values := [.str "", .int 2], prefab := none },
                     some { metaObject := metaPrefabInstance, values := [.str ""],
                            prefab := some 0 }],
            trace := [] },
    prefabHeap := [{ templateT with parameters := ["x"] }] }

/-- A world whose template `T` declares `A` only: entity 1 is an instance with its `A`
component at address 0 and its `PrefabInstance` at address 1; the store of `B` is
registered and empty. -/
def singleWorld : World :=
  { rt := { heap := [some { metaObject := metaA, values := [.str "", .int 1], prefab := none },
                     some { metaObject := metaPrefabInstance, values := [.str ""],
                            prefab := some 0 }],
            trace := [] },
    prefabHeap := [{ path := "T", components := [("A", .map [("x", .int 1)])],
                     parameters := [] }],
    systems := [("A", { componentMetaObject := metaA, components := [(1, 0)] }),
                ("B", { componentMetaObject := metaB, components := [] })],
    prefabSystem := { base := { componentMetaObject := metaPrefabInstance,
                                components := [(1, 1)] },
                      prefabs := [("T", 0)] } }

/-- The instantiated scenario with a bystander: entity 2 has an `A` component with
`x` 7 at address 3 and no `PrefabInstance`. -/
def bystanderWorld : World :=
  { instanceWorld with
    rt := { heap := [some { metaObject := metaA, values := [.str "", .int 1], prefab := none },
                     some { metaObject := metaB, values := [.str "", .int 2], prefab := none },
                     some { metaObject := metaPrefabInstance, values := [.str ""],
                            prefab := some 0 },
                     some { metaObject := metaA, values := [.str "", .int 7], prefab := none }],
            trace := [] },
    systems := [("A", { componentMetaObject := metaA, components := [(1, 0), (2, 3)] }),
                ("B", { componentMetaObject := metaB, components := [(1, 1)] })] }

/-- The store after a create for the id 1 on an empty store of `Testing` components. -/
def oneSystem : SimpleEntitySystem :=
  { componentMetaObject := testingMetaObject, components := [(1, 0)] }

/-- The runtime after a create for the id 1 in the empty runtime. -/
def oneRuntime : Runtime :=
  { heap := [some testingMetaObject.defaultObject],
    trace := [.componentCreated "Testing" 1 0] }

/-! ## Facts about association lists -/

namespace QMap

variable {κ ν : Type} [DecidableEq κ]

theorem find_insert_self [QMapKey κ] (m : QMap κ ν) (k : κ) (v : ν) :
    find (insert m k v) k = some v := by
  induction m with
  | nil => simp [insert, find]
  | cons hd tl ih =>
    obtain ⟨k', v'⟩ := hd
    by_cases h1 : k = k'
    · simp [insert, find, h1]
    · by_cases h2 : QMapKey.lessThan k k' = true
      · simp [insert, find, h1, h2]
      · have h3 : ¬ k' = k := fun e => h1 e.symm
        simp [insert, find, h1, h2, h3, ih]

theorem find_insert_ne [QMapKey κ] (m : QMap κ ν) (k k' : κ) (v : ν) (h : k' ≠ k) :
    find (insert m k v) k' = find m k' := by
  have hs : ¬ k = k' := fun e => h e.symm
  induction m with
  | nil => simp [insert, find, hs]
  | cons hd tl ih =>
    obtain ⟨a, b⟩ := hd
    by_cases h1 : k = a
    · subst h1
      simp [insert, find, hs]
    · by_cases h2 : QMapKey.lessThan k a = true
      · simp [insert, find, h1, h2, hs]
      · by_cases h3 : a = k'
        · subst h3
          simp [insert, find, h1, h2]
        · simp [insert, find, h1, h2, h3, ih]

theorem find_eq_none_iff (m : QMap κ ν) (k : κ) : find m k = none ↔ k ∉ keys m := by
  induction m with
  | nil => simp [find, keys]
  | cons hd tl ih =>
    obtain ⟨a, b⟩ := hd
    by_cases h : a = k
    · simp [find, keys, h]
    · have h' : ¬ k = a := fun e => h e.symm
      simp only [find, h, if_false, ih]
      simp [keys, h']

theorem mem_of_find (m : QMap κ ν) (k : κ) (v : ν) (h : find m k = some v) : (k, v) ∈ m := by
  induction m with
  | nil => simp [find] at h
  | cons hd tl ih =>
    obtain ⟨a, b⟩ := hd
    by_cases h1 : a = k
    · simp [find, h1] at h
      simp [h1, h]
    · simp [find, h1] at h
      exact List.mem_cons_of_mem _ (ih h)

theorem find_of_mem (m : QMap κ ν) (k : κ) (v : ν) (hn : (keys m).Nodup) (h : (k, v) ∈ m) :
    find m k = some v := by
  induction m with
  | nil => simp at h
  | cons hd tl ih =>
    obtain ⟨a, b⟩ := hd
    simp only [keys, List.map_cons, List.nodup_cons] at hn
    rcases List.mem_cons.mp h with h1 | h1
    · cases h1
      simp [find]
    · have hk : k ∈ keys tl := List.mem_map.mpr ⟨(k, v), h1, rfl⟩
      have h2 : ¬ a = k := fun e => hn.1 (e ▸ hk)
      simp only [find, h2, if_false]
      exact ih hn.2 h1

theorem length_insert [QMapKey κ] (m : QMap κ ν) (k : κ) (v : ν) (h : find m k = none) :
    (insert m k v).length = m.length + 1 := by
  induction m with
  | nil => simp [insert]
  | cons hd tl ih =>
    obtain ⟨a, b⟩ := hd
    by_cases h1 : a = k
    · simp [find, h1] at h
    · have h1' : ¬ k = a := fun e => h1 e.symm
      simp only [find, h1, if_false] at h
      by_cases h2 : QMapKey.lessThan k a = true
      · simp [insert, h1', h2]
      · simp [insert, h1', h2, ih h]

theorem keys_insert_perm [QMapKey κ] (m : QMap κ ν) (k : κ) (v : ν) (h : find m k = none) :
    (keys (insert m k v)).Perm (k :: keys m) := by
  induction m with
  | nil => simp [insert, keys]
  | cons hd tl ih =>
    obtain ⟨a, b⟩ := hd
    by_cases h1 : a = k
    · simp [find, h1] at h
    · have h1' : ¬ k = a := fun e => h1 e.symm
      simp only [find, h1, if_false] at h
      by_cases h2 : QMapKey.lessThan k a = true
      · simp [insert, h1', h2, keys]
      · simp only [insert, h1', h2, if_false, keys, List.map_cons]
        exact ((ih h).cons a).trans (List.Perm.swap k a _)

theorem values_insert_perm [QMapKey κ] (m : QMap κ ν) (k : κ) (v : ν) (h : find m k = none) :
    (values (insert m k v)).Perm (v :: values m) := by
  induction m with
  | nil => simp [insert, values]
  | cons hd tl ih =>
    obtain ⟨a, b⟩ := hd
    by_cases h1 : a = k
    · simp [find, h1] at h
    · have h1' : ¬ k = a := fun e => h1 e.symm
      simp only [find, h1, if_false] at h
      by_cases h2 : QMapKey.lessThan k a = true
      · simp [insert, h1', h2, values]
      · simp only [insert, h1', h2, if_false, values, List.map_cons]
        exact ((ih h).cons b).trans (List.Perm.swap v b _)

theorem erase_of_find_none (m : QMap κ ν) (k : κ) (h : find m k = none) : erase m k = m := by
  induction m with
  | nil => rfl
  | cons hd tl ih =>
    obtain ⟨a, b⟩ := hd
    by_cases h1 : a = k
    · simp [find, h1] at h
    · simp only [find, h1, if_false] at h
      simp [erase, h1, ih h]

theorem find_erase_ne (m : QMap κ ν) (k k' : κ) (h : k' ≠ k) :
    find (erase m k) k' = find m k' := by
  induction m with
  | nil => rfl
  | cons hd tl ih =>
    obtain ⟨a, b⟩ := hd
    by_cases h1 : a = k
    · subst h1
      have h2 : ¬ a = k' := fun e => h e.symm
      simp [erase, find, h2]
    · by_cases h2 : a = k'
      · subst h2
        simp [erase, find, h1]
      · simp [erase, find, h1, h2, ih]

theorem find_erase_self (m : QMap κ ν) (k : κ) (hn : (keys m).Nodup) :
    find (erase m k) k = none := by
  induction m with
  | nil => rfl
  | cons hd tl ih =>
    obtain ⟨a, b⟩ := hd
    simp only [keys, List.map_cons, List.nodup_cons] at hn
    by_cases h1 : a = k
    · subst h1
      simp only [erase, if_true]
      exact (find_eq_none_iff tl a).mpr hn.1
    · simp only [erase, h1, if_false, find]
      exact ih hn.2

theorem length_erase (m : QMap κ ν) (k : κ) (v : ν) (h : find m k = some v) :
    (erase m k).length + 1 = m.length := by
  induction m with
  | nil => simp [find] at h
  | cons hd tl ih =>
    obtain ⟨a, b⟩ := hd
    by_cases h1 : a = k
    · simp [erase, h1]
    · simp only [find, h1, if_false] at h
      simp [erase, h1, ih h]

theorem erase_sublist (m : QMap κ ν) (k : κ) : List.Sublist (erase m k) m := by
  induction m with
  | nil => exact List.Sublist.slnil
  | cons hd tl ih =>
    obtain ⟨a, b⟩ := hd
    by_cases h1 : a = k
    · simp [erase, h1]
    · simp only [erase, h1, if_false]
      exact ih.cons₂ _

theorem values_erase_perm (m : QMap κ ν) (k : κ) (v : ν) (h : find m k = some v) :
    (values m).Perm (v :: values (erase m k)) := by
  induction m with
  | nil => simp [find] at h
  | cons hd tl ih =>
    obtain ⟨a, b⟩ := hd
    by_cases h1 : a = k
    · simp [find, h1] at h
      simp [erase, values, h1, h]
    · simp only [find, h1, if_false] at h
      simp only [erase, h1, if_false, values, List.map_cons]
      exact ((ih h).cons b).trans (List.Perm.swap v b _)

theorem find_replace_self (m : QMap κ ν) (k : κ) (v w : ν) (h : find m k = some w) :
    find (replace m k v) k = some v := by
  induction m with
  | nil => simp [find] at h
  | cons hd tl ih =>
    obtain ⟨a, b⟩ := hd
    by_cases h1 : a = k
    · simp [replace, find, h1]
    · simp only [find, h1, if_false] at h
      simp [replace, find, h1, ih h]

theorem find_replace_ne (m : QMap κ ν) (k k' : κ) (v : ν) (h : k' ≠ k) :
    find (replace m k v) k' = find m k' := by
  induction m with
  | nil => rfl
  | cons hd tl ih =>
    obtain ⟨a, b⟩ := hd
    by_cases h1 : a = k
    · subst h1
      have h2 : ¬ a = k' := fun e => h e.symm
      simp [replace, find, h2]
    · by_cases h2 : a = k'
      · subst h2
        simp [replace, find, h1]
      · simp [replace, find, h1, h2, ih]

theorem replace_of_find_none (m : QMap κ ν) (k : κ) (v : ν) (h : find m k = none) :
    replace m k v = m := by
  induction m with
  | nil => rfl
  | cons hd tl ih =>
    obtain ⟨a, b⟩ := hd
    by_cases h1 : a = k
    · simp [find, h1] at h
    · simp only [find, h1, if_false] at h
      simp [replace, h1, ih h]

theorem replace_same (m : QMap κ ν) (k : κ) (v : ν) (h : find m k = some v) :
    replace m k v = m := by
  induction m with
  | nil => rfl
  | cons hd tl ih =>
    obtain ⟨a, b⟩ := hd
    by_cases h1 : a = k
    · simp [find, h1] at h
      simp [replace, h1, h]
    · simp only [find, h1, if_false] at h
      simp [replace, h1, ih h]

theorem keys_replace (m : QMap κ ν) (k : κ) (v : ν) : keys (replace m k v) = keys m := by
  induction m with
  | nil => rfl
  | cons hd tl ih =>
    obtain ⟨a, b⟩ := hd
    by_cases h1 : a = k
    · simp [replace, keys, h1]
    · simp only [replace, h1, if_false, keys, List.map_cons]
      exact congrArg _ ih

end QMap

/-! ## Facts about the heap -/

namespace Runtime

theorem read_lt (rt : Runtime) (p : Ptr) (o : QObject) (h : rt.read p = some o) :
    p < rt.heap.length := by
  unfold read at h
  by_contra hlt
  rw [List.getElem?_eq_none (Nat.le_of_not_lt hlt)] at h
  simp at h

theorem read_alloc_new (rt : Runtime) (o : QObject) :
    (rt.alloc o).2.read rt.heap.length = some o := by
  simp [alloc, read]

theorem read_alloc_old (rt : Runtime) (o : QObject) (p : Ptr) (h : p ≠ rt.heap.length) :
    (rt.alloc o).2.read p = rt.read p := by
  rcases Nat.lt_or_gt_of_ne h with hlt | hgt
  · simp [alloc, read, List.getElem?_append_left hlt]
  · have h1 : (rt.heap ++ [some o])[p]? = none :=
      List.getElem?_eq_none (by simp; omega)
    have h2 : rt.heap[p]? = none := List.getElem?_eq_none (by omega)
    simp [alloc, read, h1, h2]

theorem length_alloc (rt : Runtime) (o : QObject) :
    (rt.alloc o).2.heap.length = rt.heap.length + 1 := by
  simp [alloc]

theorem read_emit (rt : Runtime) (e : Event) (p : Ptr) : (rt.emit e).read p = rt.read p := rfl

theorem read_delete_self (rt : Runtime) (p : Ptr) : (rt.delete p).read p = none := by
  unfold delete read
  by_cases h : p < rt.heap.length
  · simp [List.getElem?_set_self, h]
  · rw [List.getElem?_eq_none (by simpa using Nat.le_of_not_lt h)]

theorem read_delete_ne (rt : Runtime) (p q : Ptr) (h : q ≠ p) :
    (rt.delete p).read q = rt.read q := by
  unfold delete read
  simp only
  rw [List.getElem?_set_ne (fun e => h e.symm)]

theorem writeProperty_read_ne (rt : Runtime) (obj : Ptr) (i : Nat) (prop : QMetaProperty)
    (v : QVariant) (q : Ptr) (h : q ≠ obj) :
    (rt.writeProperty obj i prop v).2.read q = rt.read q := by
  unfold writeProperty
  split
  · rfl
  · split
    · unfold read
      simp only
      rw [List.getElem?_set_ne (fun e => h e.symm)]
    · rfl

theorem writeProperty_length (rt : Runtime) (obj : Ptr) (i : Nat) (prop : QMetaProperty)
    (v : QVariant) : (rt.writeProperty obj i prop v).2.heap.length = rt.heap.length := by
  unfold writeProperty
  split
  · rfl
  · split
    · simp
    · rfl

theorem writeProperty_read_self (rt : Runtime) (obj : Ptr) (i : Nat) (prop : QMetaProperty)
    (v v' : QVariant) (o : QObject) (hw : prop.writable = true) (hr : rt.read obj = some o)
    (hc : QVariant.convert prop.type v = some v') :
    (rt.writeProperty obj i prop v).2.read obj = some { o with values := o.values.set i v' } := by
  have hlt := read_lt rt obj o hr
  have hstep : rt.writeProperty obj i prop v
      = (true, { heap := rt.heap.set obj (some { o with values := o.values.set i v' }),
                 trace := rt.trace ++ [Event.written obj i v'] }) := by
    simp [writeProperty, hw, hr, hc]
  rw [hstep]
  simp [read, hlt]

theorem writeProperty_fail (rt : Runtime) (obj : Ptr) (i : Nat) (prop : QMetaProperty)
    (v : QVariant) (hc : QVariant.convert prop.type v = none) :
    (rt.writeProperty obj i prop v).2 = rt := by
  unfold writeProperty
  split
  · rfl
  · split
    · rename_i h1 h2
      rw [hc] at h2
      cases h2
    · rfl

end Runtime

/-! ## Facts about `SimpleEntitySystem` -/

namespace SimpleEntitySystem

theorem valueAfter_nil (prop : QMetaProperty) : prop.valueAfter [] = prop.init := by
  unfold QMetaProperty.valueAfter
  split <;> rfl

/-- What the loop of `applyParameters` leaves in the object it is run on: the values
before index `i` are kept and every later property `prop` holds `prop.valueAfter m`;
no other object changes. -/
theorem applyParametersFrom_spec (m : QVariantMap) (p : Ptr) (props : List QMetaProperty) :
    ∀ (i : Nat) (rt : Runtime) (o : QObject) (pre : List QVariant),
      rt.read p = some o → o.values = pre ++ props.map QMetaProperty.init → pre.length = i →
      (applyParametersFrom m p props i rt).read p
          = some { o with values := pre ++ props.map (fun q => q.valueAfter m) } ∧
        (applyParametersFrom m p props i rt).heap.length = rt.heap.length ∧
        ∀ q, q ≠ p → (applyParametersFrom m p props i rt).read q = rt.read q := by
  induction props with
  | nil =>
    intro i rt o pre hr hv _
    refine ⟨?_, rfl, fun _ _ => rfl⟩
    simp only [applyParametersFrom, List.map_nil] at hv ⊢
    rw [hr, ← hv]
  | cons prop rest ih =>
    intro i rt o pre hr hv hi
    have hv' : o.values = (pre ++ [prop.init]) ++ rest.map QMetaProperty.init := by
      simp [hv]
    have hi' : (pre ++ [prop.init]).length = i + 1 := by simp [hi]
    by_cases hw : prop.writable = true
    · cases hf : QMap.find m prop.name with
      | none =>
        have hval : prop.valueAfter m = prop.init := by
          simp [QMetaProperty.valueAfter, hw, hf]
        have := ih (i + 1) rt o (pre ++ [prop.init]) hr hv' hi'
        simpa [applyParametersFrom, hw, hf, hval] using this
      | some var =>
        cases hc : QVariant.convert prop.type var with
        | none =>
          have hval : prop.valueAfter m = prop.init := by
            simp [QMetaProperty.valueAfter, hw, hf, hc]
          have := ih (i + 1) rt o (pre ++ [prop.init]) hr hv' hi'
          simpa [applyParametersFrom, hw, hf, hval, Runtime.writeProperty_fail rt p i prop var hc]
            using this
        | some v' =>
          have hval : prop.valueAfter m = v' := by
            simp [QMetaProperty.valueAfter, hw, hf, hc]
          have hr1 := Runtime.writeProperty_read_self rt p i prop var v' o hw hr hc
          have hset : o.values.set i v' = (pre ++ [v']) ++ rest.map QMetaProperty.init := by
            rw [hv, ← hi]
            simp
          have hi1 : (pre ++ [v']).length = i + 1 := by simp [hi]
          have := ih (i + 1) (rt.writeProperty p i prop var).2
            { o with values := o.values.set i v' } (pre ++ [v']) hr1 hset hi1
          obtain ⟨h1, h2, h3⟩ := this
          refine ⟨?_, ?_, ?_⟩
          · simp only [applyParametersFrom, hw, hf]
            simpa [hval] using h1
          · simp only [applyParametersFrom, hw, hf]
            simpa [Runtime.writeProperty_length] using h2
          · intro q hq
            simp only [applyParametersFrom, hw, hf]
            simpa [Runtime.writeProperty_read_ne rt p i prop var q hq] using h3 q hq
    · have hval : prop.valueAfter m = prop.init := by
        simp [QMetaProperty.valueAfter, hw]
      have := ih (i + 1) rt o (pre ++ [prop.init]) hr hv' hi'
      simpa [applyParametersFrom, hw, hval] using this

/-- The object `createComponent` builds for the map `m`. -/
theorem createObjectInstance_invokable (s : SimpleEntitySystem) (rt : Runtime) (id : EntityId)
    (m : QVariantMap) (hctor : s.componentMetaObject.invokable = true) :
    ∃ rt', s.createObjectInstance rt id m = (.ok (some rt.heap.length), rt') ∧
      rt'.read rt.heap.length
        = some { metaObject := s.componentMetaObject,
                 values := s.componentMetaObject.properties.map (fun q => q.valueAfter m),
                 prefab := none } ∧
      rt'.heap.length = rt.heap.length + 1 ∧
      ∀ q, q ≠ rt.heap.length → rt'.read q = rt.read q := by
  have hnew : s.componentMetaObject.newInstance rt
      = (some rt.heap.length, (rt.alloc s.componentMetaObject.defaultObject).2) := by
    simp [QMetaObject.newInstance, hctor, Runtime.alloc]
  have hread := Runtime.read_alloc_new rt s.componentMetaObject.defaultObject
  cases m with
  | nil =>
    refine ⟨(rt.alloc s.componentMetaObject.defaultObject).2, ?_, ?_, ?_, ?_⟩
    · simp [createObjectInstance, hnew, applyParameters]
    · rw [hread]
      simp [QMetaObject.defaultObject, valueAfter_nil]
    · exact Runtime.length_alloc rt _
    · intro q hq
      exact Runtime.read_alloc_old rt _ q hq
  | cons e r =>
    have hspec := applyParametersFrom_spec (e :: r) rt.heap.length
      s.componentMetaObject.properties 0 (rt.alloc s.componentMetaObject.defaultObject).2
      s.componentMetaObject.defaultObject [] hread (by simp [QMetaObject.defaultObject]) rfl
    obtain ⟨h1, h2, h3⟩ := hspec
    refine ⟨applyParametersFrom (e :: r) rt.heap.length s.componentMetaObject.properties 0
      (rt.alloc s.componentMetaObject.defaultObject).2, ?_, ?_, ?_, ?_⟩
    · have happly : applyParameters (rt.alloc s.componentMetaObject.defaultObject).2
          (some rt.heap.length) (e :: r)
          = (.ok (), applyParametersFrom (e :: r) rt.heap.length
              s.componentMetaObject.properties 0
              (rt.alloc s.componentMetaObject.defaultObject).2) := by
        simp only [applyParameters, List.isEmpty_cons, hread]
        rfl
      simp only [createObjectInstance, hnew, happly]
    · rw [h1]
      simp [QMetaObject.defaultObject]
    · rw [h2]
      exact Runtime.length_alloc rt _
    · intro q hq
      rw [h3 q hq]
      exact Runtime.read_alloc_old rt _ q hq

/-- The result of `createComponent` for an id without component in a store whose
component class is default-constructible. -/
theorem createComponent_fresh (s : SimpleEntitySystem) (rt : Runtime) (i : EntityId)
    (m : QVariantMap) (habsent : s.getComponent i = none)
    (hctor : s.componentMetaObject.invokable = true) :
    ∃ rt', s.createComponent rt i m
        = (.ok rt.heap.length,
            { s with components := QMap.insert s.components i rt.heap.length }, rt') ∧
      rt'.read rt.heap.length
        = some { metaObject := s.componentMetaObject,
                 values := s.componentMetaObject.properties.map (fun q => q.valueAfter m),
                 prefab := none } ∧
      rt'.heap.length = rt.heap.length + 1 ∧
      ∀ q, q ≠ rt.heap.length → rt'.read q = rt.read q := by
  obtain ⟨rt1, h0, h1, h2, h3⟩ := createObjectInstance_invokable s rt i m hctor
  refine ⟨rt1.emit (.componentCreated s.componentMetaObject.className i rt.heap.length),
    ?_, ?_, ?_, ?_⟩
  · simp [createComponent, habsent, h0]
  · rw [Runtime.read_emit]
    exact h1
  · simpa [Runtime.emit] using h2
  · intro q hq
    rw [Runtime.read_emit]
    exact h3 q hq

theorem WF_empty (mo : QMetaObject) (rt : Runtime) :
    WF { componentMetaObject := mo, components := [] } rt :=
  ⟨List.nodup_nil, List.nodup_nil, fun _ h => absurd h (List.not_mem_nil _)⟩

/-- A successful `createComponent` keeps the representation invariant. -/
theorem createComponent_WF (s s' : SimpleEntitySystem) (rt rt' : Runtime) (i : EntityId)
    (m : QVariantMap) (h : Ptr) (hwf : s.WF rt) (hctor : s.componentMetaObject.invokable = true)
    (hres : s.createComponent rt i m = (.ok h, s', rt')) : s'.WF rt' := by
  by_cases habsent : s.getComponent i = none
  · obtain ⟨rt1, h0, h1, _, h3⟩ := createComponent_fresh s rt i m habsent hctor
    rw [h0] at hres
    simp only [Prod.mk.injEq] at hres
    obtain ⟨_, hs, hrt⟩ := hres
    subst hs hrt
    have hfresh : rt.heap.length ∉ QMap.values s.components := by
      intro hmem
      have := hwf.live _ hmem
      cases hr : rt.read rt.heap.length with
      | none => simp [hr] at this
      | some o => exact absurd (Runtime.read_lt rt _ o hr) (Nat.lt_irrefl _)
    refine ⟨?_, ?_, ?_⟩
    · have hp := QMap.keys_insert_perm s.components i rt.heap.length habsent
      exact hp.nodup_iff.mpr
        (List.nodup_cons.mpr ⟨(QMap.find_eq_none_iff _ _).mp habsent, hwf.keys_nodup⟩)
    · have hp := QMap.values_insert_perm s.components i rt.heap.length habsent
      exact hp.nodup_iff.mpr (List.nodup_cons.mpr ⟨hfresh, hwf.values_nodup⟩)
    · intro p hp
      have hp' := (QMap.values_insert_perm s.components i rt.heap.length habsent).mem_iff.mp hp
      rcases List.mem_cons.mp hp' with he | hm
      · subst he
        simp [h1]
      · have hne : p ≠ rt.heap.length := fun e => hfresh (e ▸ hm)
        rw [h3 p hne]
        exact hwf.live p hm
  · have hsome : (s.getComponent i).isSome = true := by
      cases hg : s.getComponent i with
      | none => exact absurd hg habsent
      | some _ => rfl
    simp [createComponent, hsome] at hres

/-- The state `destroyComponent` leaves for an id with a component. -/
theorem destroyComponent_live (s : SimpleEntitySystem) (rt : Runtime) (i : EntityId) (p : Ptr)
    (hlive : s.getComponent i = some p) :
    s.destroyComponent rt i
      = (true, { s with components := QMap.erase s.components i },
          (rt.emit (.componentAboutToDestruct s.componentMetaObject.className i p)).delete p) := by
  unfold getComponent at hlive
  simp [destroyComponent, hlive]

/-- The state `destroyComponent` leaves for an id without component. -/
theorem destroyComponent_absent (s : SimpleEntitySystem) (rt : Runtime) (i : EntityId)
    (habsent : s.getComponent i = none) : s.destroyComponent rt i = (false, s, rt) := by
  unfold getComponent at habsent
  simp [destroyComponent, habsent]

/-- The object of a destroyed component is no component of the remaining ids. -/
theorem not_mem_values_erase (s : SimpleEntitySystem) (i : EntityId) (p : Ptr)
    (hv : (QMap.values s.components).Nodup) (hlive : s.getComponent i = some p) :
    p ∉ QMap.values (QMap.erase s.components i) := by
  have hp := QMap.values_erase_perm s.components i p hlive
  exact (List.nodup_cons.mp (hp.nodup_iff.mp hv)).1

/-- `destroyComponent` keeps the representation invariant. -/
theorem destroyComponent_WF (s : SimpleEntitySystem) (rt : Runtime) (i : EntityId)
    (hwf : s.WF rt) : (s.destroyComponent rt i).2.1.WF (s.destroyComponent rt i).2.2 := by
  cases hg : s.getComponent i with
  | none =>
    rw [destroyComponent_absent s rt i hg]
    exact hwf
  | some p =>
    rw [destroyComponent_live s rt i p hg]
    refine ⟨?_, ?_, ?_⟩
    · exact (List.Sublist.map Prod.fst (QMap.erase_sublist s.components i)).nodup hwf.keys_nodup
    · exact (List.Sublist.map Prod.snd (QMap.erase_sublist s.components i)).nodup
        hwf.values_nodup
    · intro q hq
      have hne : q ≠ p := fun e => not_mem_values_erase s i p hwf.values_nodup hg (e ▸ hq)
      rw [Runtime.read_delete_ne _ _ _ hne, Runtime.read_emit]
      exact hwf.live q ((List.Sublist.map Prod.snd (QMap.erase_sublist s.components i)).subset hq)

/-- The typed walk started anywhere inside the map collects the remaining values. -/
theorem walk_eq_drop (s : SimpleEntitySystem) :
    ∀ (fuel it : Nat), it ≤ s.components.length → s.components.length - it < fuel →
      s.walk fuel it = some ((s.components.drop it).map Prod.snd) := by
  intro fuel
  induction fuel with
  | zero => intro it _ h; omega
  | succ n ih =>
    intro it hle hfuel
    by_cases he : it = s.components.length
    · subst he
      simp [walk, end_]
    · have hlt : it < s.components.length := Nat.lt_of_le_of_ne hle he
      have hget : s.components[it]? = some s.components[it] := List.getElem?_eq_getElem hlt
      have hrec := ih (it + 1) hlt (by omega)
      have hdrop : s.components.drop it = s.components[it] :: s.components.drop (it + 1) :=
        List.drop_eq_getElem_cons hlt
      rw [walk, if_neg (by simpa [end_] using he), hget, hrec, hdrop]
      rfl

/-- With assertions compiled out the type-erased walk is the typed walk, for every
fuel and from every position. -/
theorem pwalk_release (s : SimpleEntitySystem) :
    ∀ (fuel : Nat) (it : SimpleVIterator),
      s.pwalk false fuel it = (s.walk fuel it.iter).map Outcome.ok := by
  intro fuel
  induction fuel with
  | zero => intro it; rfl
  | succ n ih =>
    intro it
    have hunf : s.pwalk false (n + 1) it
        = match SimpleVIterator.equalIn false it s.pend with
          | .ok true => some (.ok [])
          | .ok false =>
            match it.deref s with
            | none => none
            | some c =>
              (pwalk s false n it.increment).map (fun r =>
                match r with
                | .ok l => .ok (c :: l)
                | .thrown e => .thrown e
                | .crash => .crash)
          | .thrown e => some (.thrown e)
          | .crash => some .crash := rfl
    have hw : s.walk (n + 1) it.iter
        = if it.iter = s.end_ then some []
          else
            match s.components[it.iter]? with
            | none => none
            | some kv => (walk s n (it.iter + 1)).map (fun l => kv.2 :: l) := rfl
    have heq : SimpleVIterator.equalIn false it s.pend = .ok (decide (s.end_ = it.iter)) := rfl
    rw [hunf, hw, heq]
    by_cases he : it.iter = s.end_
    · rw [if_pos he, decide_eq_true he.symm]
      rfl
    · rw [if_neg he, decide_eq_false (fun e => he e.symm)]
      dsimp only
      have hd : it.deref s = (s.components[it.iter]?).map Prod.snd := rfl
      rw [hd]
      cases hg : s.components[it.iter]? with
      | none => rfl
      | some kv =>
        have hrec := ih it.increment
        have hinc : it.increment.iter = it.iter + 1 := rfl
        rw [hinc] at hrec
        dsimp only [Option.map_some']
        rw [hrec]
        cases walk s n (it.iter + 1) with
        | none => rfl
        | some l => rfl

/-- With assertions kept the type-erased walk aborts at its first comparison, from
every position. -/
theorem pwalk_assertions (s : SimpleEntitySystem) (fuel : Nat) (it : SimpleVIterator) :
    s.pwalk true (fuel + 1) it = some .crash :=
  rfl

end SimpleEntitySystem

namespace SimpleEntitySystem

/-- Without invokable default constructor a non-empty property map makes
`createComponent` dereference the null pointer. -/
theorem createComponent_null_deref (s : SimpleEntitySystem) (rt : Runtime) (i : EntityId)
    (e : String × QVariant) (r : QVariantMap) (habsent : s.getComponent i = none)
    (hctor : s.componentMetaObject.invokable = false) :
    s.createComponent rt i (e :: r) = (.crash, s, rt) := by
  simp [createComponent, habsent, createObjectInstance, QMetaObject.newInstance, hctor,
    applyParameters]

/-- Without invokable default constructor the empty property map makes
`createComponent` throw the construction error. -/
theorem createComponent_no_ctor (s : SimpleEntitySystem) (rt : Runtime) (i : EntityId)
    (habsent : s.getComponent i = none) (hctor : s.componentMetaObject.invokable = false) :
    s.createComponent rt i [] = (.thrown constructionError, s, rt) := by
  simp [createComponent, habsent, createObjectInstance, QMetaObject.newInstance, hctor,
    applyParameters]

/-- `createComponent` returns only for an id without component in a store whose class
can be constructed. -/
theorem createComponent_ok_inv (s s' : SimpleEntitySystem) (rt rt' : Runtime) (i : EntityId)
    (m : QVariantMap) (h : Ptr) (hres : s.createComponent rt i m = (.ok h, s', rt')) :
    s.getComponent i = none ∧ s.componentMetaObject.invokable = true := by
  cases hg : s.getComponent i with
  | some p => simp [createComponent, hg] at hres
  | none =>
    refine ⟨rfl, ?_⟩
    cases hc : s.componentMetaObject.invokable with
    | true => rfl
    | false =>
      cases m with
      | nil => rw [createComponent_no_ctor s rt i hg hc] at hres; simp at hres
      | cons e r => rw [createComponent_null_deref s rt i e r hg hc] at hres; simp at hres

/-- `createComponent` throws the duplicate error only for an id with a component, and
then changes nothing. -/
theorem createComponent_duplicate_inv (s s' : SimpleEntitySystem) (rt rt' : Runtime)
    (i : EntityId) (m : QVariantMap)
    (hres : s.createComponent rt i m = (.thrown duplicateError, s', rt')) :
    s.getComponent i ≠ none ∧ s' = s ∧ rt' = rt := by
  cases hg : s.getComponent i with
  | some p =>
    simp [createComponent, hg] at hres
    exact ⟨by simp, hres.1.symm, hres.2.symm⟩
  | none =>
    cases hc : s.componentMetaObject.invokable with
    | true =>
      obtain ⟨rt1, h0, _⟩ := createComponent_fresh s rt i m hg hc
      rw [h0] at hres
      simp at hres
    | false =>
      cases m with
      | nil =>
        rw [createComponent_no_ctor s rt i hg hc] at hres
        simp only [Prod.mk.injEq, Outcome.thrown.injEq] at hres
        exact absurd hres.1 (by decide)
      | cons e r => rw [createComponent_null_deref s rt i e r hg hc] at hres; simp at hres

end SimpleEntitySystem

/-! ## Facts about `PrefabSystem` -/

namespace PrefabSystem

/-- What a run of the loop of `createPrefabComponents` that returns has done: the
`PrefabSystem` and the templates are untouched, stores of classes outside the walked
entries are untouched, every registered store of a walked class had no component for
`id` and has gained one built from its entry, and no older object changed. -/
theorem createPrefabComponentsFrom_ok_inv (id : EntityId) (c : QVariantMap) :
    ∀ (w w1 : World), (QMap.keys c).Nodup →
      createPrefabComponentsFrom id c w = (.ok (), w1) →
      w1.prefabSystem = w.prefabSystem ∧ w1.prefabHeap = w.prefabHeap ∧
      (∀ name, name ∉ QMap.keys c →
        w1.getSystemByComponentClassName name = w.getSystemByComponentClassName name) ∧
      (∀ cls var es, (cls, var) ∈ c → w.getSystemByComponentClassName cls = some es →
        es.getComponent id = none ∧
        ∃ h, w1.getSystemByComponentClassName cls
              = some { es with components := QMap.insert es.components id h } ∧
          w.rt.heap.length ≤ h ∧ w1.rt.read h = some (builtObject es var)) ∧
      (∀ q, q < w.rt.heap.length → w1.rt.read q = w.rt.read q) ∧
      w.rt.heap.length ≤ w1.rt.heap.length := by
  induction c with
  | nil =>
    intro w w1 _ hres
    simp only [createPrefabComponentsFrom, Prod.mk.injEq, true_and] at hres
    subst hres
    exact ⟨rfl, rfl, fun _ _ => rfl, fun _ _ _ hm => absurd hm (List.not_mem_nil _),
      fun _ _ => rfl, Nat.le_refl _⟩
  | cons hd rest ih =>
    obtain ⟨cls0, var0⟩ := hd
    intro w w1 hk hres
    simp only [QMap.keys, List.map_cons, List.nodup_cons] at hk
    obtain ⟨hnot, hk'⟩ := hk
    cases hs : w.getSystemByComponentClassName cls0 with
    | none =>
      simp only [createPrefabComponentsFrom, hs] at hres
      obtain ⟨i1, i2, i3, i4, i5, i6⟩ := ih w w1 hk' hres
      refine ⟨i1, i2, ?_, ?_, i5, i6⟩
      · intro name hname
        simp only [QMap.keys, List.map_cons, List.mem_cons, not_or] at hname
        exact i3 name hname.2
      · intro cls var es hm hes
        rcases List.mem_cons.mp hm with he | hm'
        · cases he
          rw [hs] at hes
          cases hes
        · exact i4 cls var es hm' hes
    | some es0 =>
      cases hcr : es0.createComponent w.rt id var0.toMap with
      | mk o rest2 =>
        obtain ⟨s', rt'⟩ := rest2
        cases o with
        | thrown e =>
          simp [createPrefabComponentsFrom, hs, World.createComponentIn, hcr] at hres
        | crash =>
          simp [createPrefabComponentsFrom, hs, World.createComponentIn, hcr] at hres
        | ok h =>
          obtain ⟨habs, hctor⟩ :=
            SimpleEntitySystem.createComponent_ok_inv es0 s' w.rt rt' id var0.toMap h hcr
          obtain ⟨rt1, h0, h1, h2, h3⟩ :=
            SimpleEntitySystem.createComponent_fresh es0 w.rt id var0.toMap habs hctor
          rw [h0] at hcr
          simp only [Prod.mk.injEq, Outcome.ok.injEq] at hcr
          obtain ⟨hh, hs', hrt'⟩ := hcr
          subst hh hs' hrt'
          simp only [createPrefabComponentsFrom, hs, World.createComponentIn, h0] at hres
          obtain ⟨i1, i2, i3, i4, i5, i6⟩ := ih _ w1 hk' hres
          simp only [World.getSystemByComponentClassName] at i3 i4 hs ⊢
          refine ⟨i1, i2, ?_, ?_, ?_, ?_⟩
          · intro name hname
            simp only [QMap.keys, List.map_cons, List.mem_cons, not_or] at hname
            rw [i3 name hname.2]
            exact QMap.find_replace_ne _ _ _ _ hname.1
          · intro cls var es hm hes
            rcases List.mem_cons.mp hm with he | hm'
            · cases he
              rw [hs] at hes
              cases hes
              refine ⟨habs, w.rt.heap.length, ?_, Nat.le_refl _, ?_⟩
              · rw [i3 cls0 hnot]
                exact QMap.find_replace_self _ _ _ _ hs
              · rw [i5 _ (by simp only [h2]; omega)]
                exact h1
            · have hne : cls ≠ cls0 := by
                intro e
                exact hnot (e ▸ List.mem_map.mpr ⟨(cls, var), hm', rfl⟩)
              have hes' : QMap.find (QMap.replace w.systems cls0
                  { es0 with components := QMap.insert es0.components id w.rt.heap.length })
                  cls = some es := by
                rw [QMap.find_replace_ne _ _ _ _ hne]
                exact hes
              obtain ⟨g1, hx, g2, g3, g4⟩ := i4 cls var es hm' hes'
              refine ⟨g1, hx, g2, ?_, g4⟩
              simp only [h2] at g3
              omega
          · intro q hq
            rw [i5 q (by simp only [h2]; omega)]
            exact h3 q (by omega)
          · simp only [h2] at i6
            omega

/-- The loop of `createPrefabComponents` returns when no registered store of a
declared class has a component for `id` yet and each of them can construct one. -/
theorem createPrefabComponentsFrom_ok (id : EntityId) (c : QVariantMap) :
    ∀ (w : World), (QMap.keys c).Nodup →
      (∀ cls var es, (cls, var) ∈ c → w.getSystemByComponentClassName cls = some es →
        es.getComponent id = none ∧ es.componentMetaObject.invokable = true) →
      ∃ w1, createPrefabComponentsFrom id c w = (.ok (), w1) := by
  induction c with
  | nil => intro w _ _; exact ⟨w, rfl⟩
  | cons hd rest ih =>
    obtain ⟨cls0, var0⟩ := hd
    intro w hk hyp
    simp only [QMap.keys, List.map_cons, List.nodup_cons] at hk
    obtain ⟨hnot, hk'⟩ := hk
    cases hs : w.getSystemByComponentClassName cls0 with
    | none =>
      simp only [createPrefabComponentsFrom, hs]
      exact ih w hk' (fun cls var es hm hes => hyp cls var es (List.mem_cons_of_mem _ hm) hes)
    | some es0 =>
      obtain ⟨habs, hctor⟩ := hyp cls0 var0 es0 (List.mem_cons_self _ _) hs
      obtain ⟨rt1, h0, _, _, _⟩ :=
        SimpleEntitySystem.createComponent_fresh es0 w.rt id var0.toMap habs hctor
      simp only [createPrefabComponentsFrom, hs, World.createComponentIn, h0]
      apply ih _ hk'
      intro cls var es hm hes
      have hne : cls ≠ cls0 := by
        intro e
        exact hnot (e ▸ List.mem_map.mpr ⟨(cls, var), hm, rfl⟩)
      simp only [World.getSystemByComponentClassName] at hes
      rw [QMap.find_replace_ne _ _ _ _ hne] at hes
      exact hyp cls var es (List.mem_cons_of_mem _ hm) hes

/-- A run of the loop of `createPrefabComponents` that ends in the duplicate error
has walked a first part of the entries with success and stopped at an entry whose
store already holds a component for `id`; the state is the one after the first part. -/
theorem createPrefabComponentsFrom_duplicate_inv (id : EntityId) (c : QVariantMap) :
    ∀ (w w1 : World),
      createPrefabComponentsFrom id c w
        = (.thrown SimpleEntitySystem.duplicateError, w1) →
      ∃ pre cls var post es, c = pre ++ (cls, var) :: post ∧
        createPrefabComponentsFrom id pre w = (.ok (), w1) ∧
        w1.getSystemByComponentClassName cls = some es ∧ es.getComponent id ≠ none := by
  induction c with
  | nil => intro w w1 hres; simp [createPrefabComponentsFrom] at hres
  | cons hd rest ih =>
    obtain ⟨cls0, var0⟩ := hd
    intro w w1 hres
    cases hs : w.getSystemByComponentClassName cls0 with
    | none =>
      simp only [createPrefabComponentsFrom, hs] at hres
      obtain ⟨pre, cls, var, post, es, h1, h2, h3, h4⟩ := ih w w1 hres
      refine ⟨(cls0, var0) :: pre, cls, var, post, es, by simp [h1], ?_, h3, h4⟩
      simp only [createPrefabComponentsFrom, hs]
      exact h2
    | some es0 =>
      cases hcr : es0.createComponent w.rt id var0.toMap with
      | mk o rest2 =>
        obtain ⟨s', rt'⟩ := rest2
        cases o with
        | crash =>
          simp [createPrefabComponentsFrom, hs, World.createComponentIn, hcr] at hres
        | thrown e =>
          simp only [createPrefabComponentsFrom, hs, World.createComponentIn, hcr,
            Prod.mk.injEq, Outcome.thrown.injEq] at hres
          obtain ⟨he, hw⟩ := hres
          subst he
          obtain ⟨hlive, hs', hrt'⟩ :=
            SimpleEntitySystem.createComponent_duplicate_inv es0 s' w.rt rt' id var0.toMap hcr
          subst hs' hrt'
          have hsame : w1 = w := by
            rw [← hw]
            simp only [World.getSystemByComponentClassName] at hs
            rw [QMap.replace_same _ _ _ hs]
          subst hsame
          exact ⟨[], cls0, var0, rest, _, rfl, rfl, hs, hlive⟩
        | ok h =>
          simp only [createPrefabComponentsFrom, hs, World.createComponentIn, hcr] at hres
          obtain ⟨pre, cls, var, post, es, h1, h2, h3, h4⟩ := ih _ w1 hres
          refine ⟨(cls0, var0) :: pre, cls, var, post, es, by simp [h1], ?_, h3, h4⟩
          simp only [createPrefabComponentsFrom, hs, World.createComponentIn, hcr]
          exact h2

/-- The path `createObjectInstance` reads from the property map of `instantiate`. -/
theorem path_of_instantiate (path : String) :
    ((QMap.find [("path", QVariant.str path)] "path").getD QVariant.invalid).toQString
      = path := by
  simp [QMap.find, QVariant.toQString, QVariant.convert]

/-- `instantiate` of a known template on an entity without `PrefabInstance`, when the
loop of `createPrefabComponents` returns. -/
theorem instantiate_of_ok (w w1 : World) (path : String) (id : EntityId) (prefab : Ptr)
    (pf : Prefab) (hT : QMap.find w.prefabSystem.prefabs path = some prefab)
    (hpf : w.prefabHeap[prefab]? = some pf)
    (hnoinst : w.prefabSystem.base.getComponent id = none)
    (hloop : createPrefabComponentsFrom id pf.components w = (.ok (), w1)) :
    instantiate w path id = (.ok w1.rt.heap.length, instantiated w1 id prefab) := by
  simp only [instantiate, createComponent, hnoinst, createObjectInstance, path_of_instantiate,
    hT, createPrefabComponents, hpf, hloop]
  rfl

/-- `instantiate` of a known template on an entity without `PrefabInstance`, when the
loop of `createPrefabComponents` throws. -/
theorem instantiate_of_thrown (w w1 : World) (path : String) (id : EntityId) (prefab : Ptr)
    (pf : Prefab) (what : String) (hT : QMap.find w.prefabSystem.prefabs path = some prefab)
    (hpf : w.prefabHeap[prefab]? = some pf)
    (hnoinst : w.prefabSystem.base.getComponent id = none)
    (hloop : createPrefabComponentsFrom id pf.components w = (.thrown what, w1)) :
    instantiate w path id = (.thrown what, w1) := by
  simp only [instantiate, createComponent, hnoinst, createObjectInstance, path_of_instantiate,
    hT, createPrefabComponents, hpf, hloop]
  rfl

/-- `instantiate` of a known template on an entity without `PrefabInstance`, when the
loop of `createPrefabComponents` crashes. -/
theorem instantiate_of_crash (w w1 : World) (path : String) (id : EntityId) (prefab : Ptr)
    (pf : Prefab) (hT : QMap.find w.prefabSystem.prefabs path = some prefab)
    (hpf : w.prefabHeap[prefab]? = some pf)
    (hnoinst : w.prefabSystem.base.getComponent id = none)
    (hloop : createPrefabComponentsFrom id pf.components w = (.crash, w1)) :
    instantiate w path id = (.crash, w1) := by
  simp only [instantiate, createComponent, hnoinst, createObjectInstance, path_of_instantiate,
    hT, createPrefabComponents, hpf, hloop]
  rfl

/-- `createComponent` of the `PrefabSystem` for a path that names no template throws
and leaves the world as it was. -/
theorem createComponent_unknown (w : World) (id : EntityId) (m : QVariantMap)
    (hunknown : QMap.find w.prefabSystem.prefabs
      ((QMap.find m "path").getD QVariant.invalid).toQString = none) :
    (createComponent w id m).2 = w ∧
      ((createComponent w id m).1 = .thrown SimpleEntitySystem.duplicateError ∨
        (createComponent w id m).1 = .thrown SimpleEntitySystem.constructionError) := by
  cases hg : w.prefabSystem.base.getComponent id with
  | some p => simp [createComponent, hg]
  | none => simp [createComponent, hg, createObjectInstance, hunknown]

end PrefabSystem

/-! ## The storage contract on `SimpleEntitySystem` -/

/-- Claim C1: for a store, an id `i` without live component and any property map, when
the component class can be constructed `createComponent` returns a handle `h`;
right afterwards `getComponent i` is that same `h`, `hasComponent i` is true and `h`
is a live object, while every other id is looked up as before, so that an id that was
never created stays absent. -/
theorem C1_create_then_fetch (s : SimpleEntitySystem) (rt : Runtime) (i : EntityId)
    (m : QVariantMap) (habsent : s.getComponent i = none)
    (hctor : s.componentMetaObject.invokable = true) :
    ∃ h s' rt', s.createComponent rt i m = (.ok h, s', rt') ∧
      s'.getComponent i = some h ∧ s'.hasComponent i = true ∧ (rt'.read h).isSome = true ∧
      (∀ j, j ≠ i → s'.getComponent j = s.getComponent j) ∧
      (∀ j, j ≠ i → s.getComponent j = none → s'.getComponent j = none) := by
  obtain ⟨rt1, h0, h1, _, _⟩ := SimpleEntitySystem.createComponent_fresh s rt i m habsent hctor
  have hself : SimpleEntitySystem.getComponent
      { s with components := QMap.insert s.components i rt.heap.length } i
      = some rt.heap.length := QMap.find_insert_self s.components i rt.heap.length
  have hother : ∀ j, j ≠ i → SimpleEntitySystem.getComponent
      { s with components := QMap.insert s.components i rt.heap.length } j
      = s.getComponent j := fun j hj => QMap.find_insert_ne s.components i j rt.heap.length hj
  refine ⟨rt.heap.length, _, rt1, h0, hself, ?_, ?_, hother, ?_⟩
  · simp [SimpleEntitySystem.hasComponent, hself]
  · simp [h1]
  · intro j hj hn
    rw [hother j hj, hn]

/-- Witness of C1 on the first step of `createAndFetch`: `createComponent(1, {myint: 666})`
on an empty store. -/
theorem C1_create_then_fetch_witness :
    testingSystem.getComponent 1 = none ∧ testingSystem.componentMetaObject.invokable = true ∧
    ∃ h s' rt', testingSystem.createComponent emptyRuntime 1 [("myint", QVariant.int 666)]
        = (.ok h, s', rt') ∧
      s'.getComponent 1 = some h ∧ s'.hasComponent 1 = true ∧ (rt'.read h).isSome = true ∧
      (∀ j, j ≠ 1 → s'.getComponent j = testingSystem.getComponent j) ∧
      (∀ j, j ≠ 1 → testingSystem.getComponent j = none → s'.getComponent j = none) :=
  ⟨by decide, by decide,
    C1_create_then_fetch testingSystem emptyRuntime 1 [("myint", QVariant.int 666)]
      (by decide) (by decide)⟩

/-- Counterexample to C2 as stated: `myint` is a writable integer property and the map
binds `myint` to the string `abc`; the write fails, the create succeeds all the same,
and the field holds its default 0, not the value of the map. -/
theorem C2_counterexample :
    (testingSystem.createComponent emptyRuntime 1 [("myint", QVariant.str "abc")]).1
        = Outcome.ok 0 ∧
      (testingMetaObject.properties.map (fun q => (q.name, q.writable)))[1]?
        = some ("myint", true) ∧
      QMap.find [("myint", QVariant.str "abc")] "myint" = some (QVariant.str "abc") ∧
      (testingSystem.createComponent emptyRuntime 1
          [("myint", QVariant.str "abc")]).2.2.readProperty 0 1 = QVariant.int 0 ∧
      (testingSystem.createComponent emptyRuntime 1
          [("myint", QVariant.str "abc")]).2.2.readProperty 0 1 ≠ QVariant.str "abc" := by
  decide

/-- Claim C2, amended: after `applyParameters` as run by `createComponent`, a writable
field whose name is a key of `m` holds the value of `m` converted to the type of the
field when that write succeeds; every other field (not writable, not named in `m`, or
refused by the write) keeps its default value.  The create succeeds whatever keys `m`
has, and the object has exactly the fields of the class. -/
theorem C2_applyParameters_fields (s : SimpleEntitySystem) (rt : Runtime) (i : EntityId)
    (m : QVariantMap) (habsent : s.getComponent i = none)
    (hctor : s.componentMetaObject.invokable = true) :
    ∃ h s' rt', s.createComponent rt i m = (.ok h, s', rt') ∧
      (rt'.read h).map (fun o => o.values.length)
        = some s.componentMetaObject.properties.length ∧
      ∀ k prop, s.componentMetaObject.properties[k]? = some prop →
        (prop.writable = true → ∀ v v', QMap.find m prop.name = some v →
            QVariant.convert prop.type v = some v' → rt'.readProperty h k = v') ∧
        (∀ v, QMap.find m prop.name = some v → QVariant.convert prop.type v = none →
            rt'.readProperty h k = prop.init) ∧
        (prop.writable = false → rt'.readProperty h k = prop.init) ∧
        (QMap.find m prop.name = none → rt'.readProperty h k = prop.init) := by
  obtain ⟨rt1, h0, h1, _, _⟩ := SimpleEntitySystem.createComponent_fresh s rt i m habsent hctor
  refine ⟨rt.heap.length, _, rt1, h0, ?_, ?_⟩
  · simp [h1]
  · intro k prop hk
    have hread : rt1.readProperty rt.heap.length k = prop.valueAfter m := by
      simp [Runtime.readProperty, h1, List.getElem?_map, hk]
    rw [hread]
    refine ⟨?_, ?_, ?_, ?_⟩
    · intro hw v v' hf hc
      simp [QMetaProperty.valueAfter, hw, hf, hc]
    · intro v hf hc
      unfold QMetaProperty.valueAfter
      split
      · simp [hf, hc]
      · rfl
    · intro hw
      simp [QMetaProperty.valueAfter, hw]
    · intro hf
      unfold QMetaProperty.valueAfter
      split
      · simp [hf]
      · rfl

/-- Witness of C2 (amended) on `createAndFetch`: `createComponent(1, {myint: 666})`. -/
theorem C2_applyParameters_fields_witness :
    testingSystem.getComponent 1 = none ∧ testingSystem.componentMetaObject.invokable = true ∧
    ∃ h s' rt', testingSystem.createComponent emptyRuntime 1 [("myint", QVariant.int 666)]
        = (.ok h, s', rt') ∧
      (rt'.read h).map (fun o => o.values.length)
        = some testingSystem.componentMetaObject.properties.length ∧
      ∀ k prop, testingSystem.componentMetaObject.properties[k]? = some prop →
        (prop.writable = true → ∀ v v',
            QMap.find [("myint", QVariant.int 666)] prop.name = some v →
            QVariant.convert prop.type v = some v' → rt'.readProperty h k = v') ∧
        (∀ v, QMap.find [("myint", QVariant.int 666)] prop.name = some v →
            QVariant.convert prop.type v = none → rt'.readProperty h k = prop.init) ∧
        (prop.writable = false → rt'.readProperty h k = prop.init) ∧
        (QMap.find [("myint", QVariant.int 666)] prop.name = none →
            rt'.readProperty h k = prop.init) :=
  ⟨by decide, by decide,
    C2_applyParameters_fields testingSystem emptyRuntime 1 [("myint", QVariant.int 666)]
      (by decide) (by decide)⟩

/-- Claim C3: `createComponent` for an id that already has a live component throws
and overwrites nothing: the store and the runtime are exactly as before, so
`getComponent i` is the same handle, the object behind it has the same field values
and `count()` is unchanged. -/
theorem C3_duplicate_create_fails (s : SimpleEntitySystem) (rt : Runtime) (i : EntityId)
    (m : QVariantMap) (h : Ptr) (hlive : s.getComponent i = some h) :
    s.createComponent rt i m = (.thrown SimpleEntitySystem.duplicateError, s, rt) ∧
      (s.createComponent rt i m).2.1.getComponent i = some h ∧
      (s.createComponent rt i m).2.2.read h = rt.read h ∧
      (s.createComponent rt i m).2.1.count = s.count := by
  have hres : s.createComponent rt i m = (.thrown SimpleEntitySystem.duplicateError, s, rt) := by
    simp [SimpleEntitySystem.createComponent, hlive]
  rw [hres]
  exact ⟨rfl, hlive, rfl, rfl⟩

/-- Witness of C3: a second `createComponent(2, {myint: 9})` on the store holding the
ids 1, 2 and 3. -/
theorem C3_duplicate_create_fails_witness :
    threeSystem.getComponent 2 = some 1 ∧
    (threeSystem.createComponent threeRuntime 2 [("myint", QVariant.int 9)]
        = (.thrown SimpleEntitySystem.duplicateError, threeSystem, threeRuntime) ∧
      (threeSystem.createComponent threeRuntime 2
          [("myint", QVariant.int 9)]).2.1.getComponent 2 = some 1 ∧
      (threeSystem.createComponent threeRuntime 2
          [("myint", QVariant.int 9)]).2.2.read 1 = threeRuntime.read 1 ∧
      (threeSystem.createComponent threeRuntime 2
          [("myint", QVariant.int 9)]).2.1.count = threeSystem.count) :=
  ⟨by decide,
    C3_duplicate_create_fails threeSystem threeRuntime 2 [("myint", QVariant.int 9)] 1
      (by decide)⟩

/-- Claim C4: `destroyComponent` for an id `i` with a live component returns true and
leaves the previous store with `i` removed: `getComponent i` is absent, the object is
freed, `count()` is one less, and every other id keeps its component and the field
values of it. -/
theorem C4_destroy_live (s : SimpleEntitySystem) (rt : Runtime) (i : EntityId) (p : Ptr)
    (hwf : s.WF rt) (hlive : s.getComponent i = some p) :
    (s.destroyComponent rt i).1 = true ∧
      (s.destroyComponent rt i).2.1.components = QMap.erase s.components i ∧
      (s.destroyComponent rt i).2.1.getComponent i = none ∧
      (s.destroyComponent rt i).2.2.read p = none ∧
      (s.destroyComponent rt i).2.1.count + 1 = s.count ∧
      ∀ j, j ≠ i →
        (s.destroyComponent rt i).2.1.getComponent j = s.getComponent j ∧
        ∀ q, s.getComponent j = some q →
          (s.destroyComponent rt i).2.2.read q = rt.read q := by
  rw [SimpleEntitySystem.destroyComponent_live s rt i p hlive]
  refine ⟨rfl, rfl, ?_, ?_, ?_, ?_⟩
  · exact QMap.find_erase_self s.components i hwf.keys_nodup
  · exact Runtime.read_delete_self _ p
  · exact QMap.length_erase s.components i p hlive
  · intro j hj
    have hfind : QMap.find (QMap.erase s.components i) j = QMap.find s.components j :=
      QMap.find_erase_ne s.components i j hj
    refine ⟨hfind, ?_⟩
    intro q hq
    have hmem : q ∈ QMap.values (QMap.erase s.components i) := by
      have hq' : QMap.find (QMap.erase s.components i) j = some q := hfind.trans hq
      exact List.mem_map.mpr ⟨(j, q), QMap.mem_of_find _ j q hq', rfl⟩
    have hne : q ≠ p := fun e =>
      SimpleEntitySystem.not_mem_values_erase s i p hwf.values_nodup hlive (e ▸ hmem)
    rw [Runtime.read_delete_ne _ _ _ hne, Runtime.read_emit]

/-- Witness of C4 on `destroyMore`: `destroyComponent(2)` on the store holding the ids
1, 2 and 3. -/
theorem C4_destroy_live_witness :
    threeSystem.WF threeRuntime ∧ threeSystem.getComponent 2 = some 1 ∧
    ((threeSystem.destroyComponent threeRuntime 2).1 = true ∧
      (threeSystem.destroyComponent threeRuntime 2).2.1.components
        = QMap.erase threeSystem.components 2 ∧
      (threeSystem.destroyComponent threeRuntime 2).2.1.getComponent 2 = none ∧
      (threeSystem.destroyComponent threeRuntime 2).2.2.read 1 = none ∧
      (threeSystem.destroyComponent threeRuntime 2).2.1.count + 1 = threeSystem.count ∧
      ∀ j, j ≠ 2 →
        (threeSystem.destroyComponent threeRuntime 2).2.1.getComponent j
          = threeSystem.getComponent j ∧
        ∀ q, threeSystem.getComponent j = some q →
          (threeSystem.destroyComponent threeRuntime 2).2.2.read q = threeRuntime.read q) :=
  ⟨⟨by decide, by decide, by decide⟩, by decide,
    C4_destroy_live threeSystem threeRuntime 2 1 ⟨by decide, by decide, by decide⟩ (by decide)⟩

/-- Claim C5: `destroyComponent` for an id without live component returns false and
leaves the store and the runtime exactly as they were; destroying an id with a live
component twice in a row returns true, then false, and removes one component only. -/
theorem C5_destroy_absent (s : SimpleEntitySystem) (rt : Runtime) (i : EntityId)
    (hkeys : (QMap.keys s.components).Nodup) :
    (s.getComponent i = none →
      s.destroyComponent rt i = (false, s, rt) ∧
      (s.destroyComponent rt i).2.1.count = s.count) ∧
    (s.getComponent i ≠ none →
      (s.destroyComponent rt i).1 = true ∧
      (s.destroyComponent rt i).2.1.destroyComponent (s.destroyComponent rt i).2.2 i
        = (false, (s.destroyComponent rt i).2.1, (s.destroyComponent rt i).2.2) ∧
      (s.destroyComponent rt i).2.1.count + 1 = s.count) := by
  constructor
  · intro habsent
    rw [SimpleEntitySystem.destroyComponent_absent s rt i habsent]
    exact ⟨rfl, rfl⟩
  · intro hlive
    cases hg : s.getComponent i with
    | none => exact absurd hg hlive
    | some p =>
      rw [SimpleEntitySystem.destroyComponent_live s rt i p hg]
      refine ⟨rfl, ?_, ?_⟩
      · exact SimpleEntitySystem.destroyComponent_absent _ _ i
          (QMap.find_erase_self s.components i hkeys)
      · exact QMap.length_erase s.components i p hg

/-- Witness of C5 on the store holding the ids 1, 2 and 3, for the id 2. -/
theorem C5_destroy_absent_witness :
    (QMap.keys threeSystem.components).Nodup ∧
    ((threeSystem.getComponent 2 = none →
      threeSystem.destroyComponent threeRuntime 2 = (false, threeSystem, threeRuntime) ∧
      (threeSystem.destroyComponent threeRuntime 2).2.1.count = threeSystem.count) ∧
    (threeSystem.getComponent 2 ≠ none →
      (threeSystem.destroyComponent threeRuntime 2).1 = true ∧
      (threeSystem.destroyComponent threeRuntime 2).2.1.destroyComponent
          (threeSystem.destroyComponent threeRuntime 2).2.2 2
        = (false, (threeSystem.destroyComponent threeRuntime 2).2.1,
            (threeSystem.destroyComponent threeRuntime 2).2.2) ∧
      (threeSystem.destroyComponent threeRuntime 2).2.1.count + 1 = threeSystem.count)) :=
  ⟨by decide, C5_destroy_absent threeSystem threeRuntime 2 (by decide)⟩

/-- Claim C6 at its failing input: in a store whose component class has no invokable
default constructor, `createComponent(1, {myint: 666})` dereferences the null pointer
in `applyParameters` instead of throwing the construction error; with the empty map
the same store does throw it and is left unchanged. -/
theorem C6_null_dereference :
    (abstractSystem.createComponent emptyRuntime 1 [("myint", QVariant.int 666)]).1
        = Outcome.crash ∧
      abstractSystem.createComponent emptyRuntime 1 []
        = (.thrown SimpleEntitySystem.constructionError, abstractSystem, emptyRuntime) := by
  decide

/-- Claim C7, as the code has it: in a build that keeps `Q_ASSERT` the type-erased
walk from `pbegin()` aborts at its first comparison with `pend()`, on every store and
with any fuel, because the assertion in `SimpleVIterator::equal` fails on every call,
while the typed walk from `begin()` to `end()` returns the values of `_components` in
order.  Only with assertions compiled out does the type-erased walk return what the
typed walk returns. -/
theorem C7_erased_walk_aborts_under_assertions (s : SimpleEntitySystem) (fuel : Nat) :
    s.pwalk true (fuel + 1) s.pbegin = some .crash ∧
      s.walk (s.count + 1 + fuel) s.begin = some (QMap.values s.components) ∧
      s.pwalk false (s.count + 1 + fuel) s.pbegin = some (.ok (QMap.values s.components)) ∧
      ∀ (n : Nat) (it : SimpleVIterator),
        s.pwalk false n it = (s.walk n it.iter).map Outcome.ok := by
  have hw : s.walk (s.count + 1 + fuel) s.begin = some (QMap.values s.components) := by
    have h := SimpleEntitySystem.walk_eq_drop s (s.count + 1 + fuel) 0 (Nat.zero_le _)
      (by show s.components.length - 0 < s.components.length + 1 + fuel; omega)
    rw [List.drop_zero] at h
    exact h
  refine ⟨SimpleEntitySystem.pwalk_assertions s fuel s.pbegin, hw, ?_,
    SimpleEntitySystem.pwalk_release s⟩
  rw [SimpleEntitySystem.pwalk_release s (s.count + 1 + fuel) s.pbegin]
  show (s.walk (s.count + 1 + fuel) s.begin).map Outcome.ok = _
  rw [hw]
  rfl

/-! ## Instantiating prefabs -/

/-- Counterexample to C8 as stated: the template `T` is known, entity 1 has no
`PrefabInstance` and no component in the store `T` declares, yet `instantiate` throws
the construction error, because the declared class has no invokable default
constructor; no component and no `PrefabInstance` exist for entity 1 afterwards. -/
theorem C8_counterexample :
    QMap.find abstractWorld.prefabSystem.prefabs "T" = some 0 ∧
      abstractWorld.prefabSystem.base.getComponent 1 = none ∧
      (abstractWorld.getSystemByComponentClassName "Abstract").bind
        (fun es => es.getComponent 1) = none ∧
      (PrefabSystem.instantiate abstractWorld "T" 1).1
        = Outcome.thrown SimpleEntitySystem.constructionError ∧
      (PrefabSystem.instantiate abstractWorld "T" 1).2.prefabSystem.base.getComponent 1
        = none ∧
      ((PrefabSystem.instantiate abstractWorld "T" 1).2.getSystemByComponentClassName
        "Abstract").bind (fun es => es.getComponent 1) = none := by
  decide

/-- Claim C8, amended: for a known template `T` and an entity `e` that has no
`PrefabInstance` and no component in any store declared by `T`, when moreover every
registered store of a declared class can default-construct its component,
instantiating `T` on `e` returns a handle, creates in every registered store of a
declared class a component for `e` built from the property map `T` gives that class,
and leaves the `PrefabSystem` holding under `e` a `PrefabInstance` that references
the unchanged template `T`. -/
theorem C8_instantiate_creates_components (w : World) (path : String) (e : EntityId)
    (prefab : Ptr) (pf : Prefab)
    (hT : QMap.find w.prefabSystem.prefabs path = some prefab)
    (hpf : w.prefabHeap[prefab]? = some pf)
    (hkeys : (QMap.keys pf.components).Nodup)
    (hnoinst : w.prefabSystem.base.getComponent e = none)
    (hfree : ∀ cls var es, (cls, var) ∈ pf.components →
      w.getSystemByComponentClassName cls = some es → es.getComponent e = none)
    (hctor : ∀ cls var es, (cls, var) ∈ pf.components →
      w.getSystemByComponentClassName cls = some es →
      es.componentMetaObject.invokable = true) :
    ∃ h w', PrefabSystem.instantiate w path e = (.ok h, w') ∧
      w'.prefabSystem.base.getComponent e = some h ∧
      (w'.rt.read h).bind QObject.prefab = some prefab ∧
      QMap.find w'.prefabSystem.prefabs path = some prefab ∧
      w'.prefabHeap[prefab]? = some pf ∧
      ∀ cls var es, (cls, var) ∈ pf.components →
        w.getSystemByComponentClassName cls = some es →
        ∃ es' c, w'.getSystemByComponentClassName cls = some es' ∧
          es'.getComponent e = some c ∧
          w'.rt.read c = some (PrefabSystem.builtObject es var) := by
  obtain ⟨w1, hloop⟩ := PrefabSystem.createPrefabComponentsFrom_ok e pf.components w hkeys
    (fun cls var es hm hes => ⟨hfree cls var es hm hes, hctor cls var es hm hes⟩)
  obtain ⟨i1, i2, _, i4, _, _⟩ :=
    PrefabSystem.createPrefabComponentsFrom_ok_inv e pf.components w w1 hkeys hloop
  refine ⟨w1.rt.heap.length, PrefabSystem.instantiated w1 e prefab,
    PrefabSystem.instantiate_of_ok w w1 path e prefab pf hT hpf hnoinst hloop, ?_, ?_, ?_, ?_, ?_⟩
  · exact QMap.find_insert_self _ _ _
  · simp only [PrefabSystem.instantiated, Runtime.read_emit, Runtime.read_alloc_new]
    rfl
  · simp only [PrefabSystem.instantiated, i1]
    exact hT
  · simp only [PrefabSystem.instantiated, i2]
    exact hpf
  · intro cls var es hm hes
    obtain ⟨_, c, hc1, _, hc3⟩ := i4 cls var es hm hes
    refine ⟨_, c, hc1, QMap.find_insert_self _ _ _, ?_⟩
    have hlt : c < w1.rt.heap.length := Runtime.read_lt _ _ _ hc3
    simp only [PrefabSystem.instantiated, Runtime.read_emit]
    rw [Runtime.read_alloc_old _ _ _ (Nat.ne_of_lt hlt)]
    exact hc3

/-- Witness of C8 (amended): the template `{A: {x: 1}, B: {y: 2}}` instantiated on
entity 1 in the world with empty stores for `A` and `B`. -/
theorem C8_instantiate_creates_components_witness :
    QMap.find scenarioWorld.prefabSystem.prefabs "T" = some 0 ∧
    scenarioWorld.prefabHeap[0]? = some templateT ∧
    (QMap.keys templateT.components).Nodup ∧
    scenarioWorld.prefabSystem.base.getComponent 1 = none ∧
    ∃ h w', PrefabSystem.instantiate scenarioWorld "T" 1 = (.ok h, w') ∧
      w'.prefabSystem.base.getComponent 1 = some h ∧
      (w'.rt.read h).bind QObject.prefab = some 0 ∧
      QMap.find w'.prefabSystem.prefabs "T" = some 0 ∧
      w'.prefabHeap[0]? = some templateT ∧
      ∀ cls var es, (cls, var) ∈ templateT.components →
        scenarioWorld.getSystemByComponentClassName cls = some es →
        ∃ es' c, w'.getSystemByComponentClassName cls = some es' ∧
          es'.getComponent 1 = some c ∧
          w'.rt.read c = some (PrefabSystem.builtObject es var) :=
  ⟨by decide, by decide, by decide, by decide,
    C8_instantiate_creates_components scenarioWorld "T" 1 0 templateT (by decide) (by decide)
      (by decide) (by decide)
      (by
        intro cls var es hm hes
        simp only [templateT, List.mem_cons, Prod.mk.injEq, List.mem_nil_iff, or_false] at hm
        rcases hm with ⟨rfl, _⟩ | ⟨rfl, _⟩
        · have : es = { componentMetaObject := metaA, components := [] } := by
            simpa [World.getSystemByComponentClassName, scenarioWorld, QMap.find] using hes.symm
          subst this
          rfl
        · have : es = { componentMetaObject := metaB, components := [] } := by
            simpa [World.getSystemByComponentClassName, scenarioWorld, QMap.find] using hes.symm
          subst this
          rfl)
      (by
        intro cls var es hm hes
        simp only [templateT, List.mem_cons, Prod.mk.injEq, List.mem_nil_iff, or_false] at hm
        rcases hm with ⟨rfl, _⟩ | ⟨rfl, _⟩
        · have : es = { componentMetaObject := metaA, components := [] } := by
            simpa [World.getSystemByComponentClassName, scenarioWorld, QMap.find] using hes.symm
          subst this
          rfl
        · have : es = { componentMetaObject := metaB, components := [] } := by
            simpa [World.getSystemByComponentClassName, scenarioWorld, QMap.find] using hes.symm
          subst this
          rfl)⟩

/-- Claim C9: an `instantiate` or an `updatePrefab` that names a template that is not
registered changes nothing: the whole world (every component store, the instance
store of the `PrefabSystem`, the template table, the heap) is as before the call;
`instantiate` throws, and no `PrefabInstance` is attached. -/
theorem C9_unknown_prefab_no_mutation (w : World) (path : String) (e : EntityId)
    (c : QVariantMap) (propagate : Bool)
    (hunknown : QMap.find w.prefabSystem.prefabs path = none) :
    (PrefabSystem.instantiate w path e).2 = w ∧
      ((PrefabSystem.instantiate w path e).1 = .thrown SimpleEntitySystem.duplicateError ∨
        (PrefabSystem.instantiate w path e).1
          = .thrown SimpleEntitySystem.constructionError) ∧
      (PrefabSystem.instantiate w path e).2.prefabSystem.base.getComponent e
        = w.prefabSystem.base.getComponent e ∧
      PrefabSystem.updatePrefab w path c propagate = (.ok (), w) := by
  have hp : QMap.find w.prefabSystem.prefabs
      ((QMap.find [("path", QVariant.str path)] "path").getD QVariant.invalid).toQString
      = none := by
    rw [PrefabSystem.path_of_instantiate]
    exact hunknown
  obtain ⟨h1, h2⟩ := PrefabSystem.createComponent_unknown w e _ hp
  refine ⟨h1, h2, ?_, ?_⟩
  · show (PrefabSystem.createComponent w e _).2.prefabSystem.base.getComponent e = _
    rw [h1]
  · simp [PrefabSystem.updatePrefab, hunknown]

/-- Witness of C9: the template `U` is not registered in the scenario world. -/
theorem C9_unknown_prefab_no_mutation_witness :
    QMap.find scenarioWorld.prefabSystem.prefabs "U" = none ∧
    ((PrefabSystem.instantiate scenarioWorld "U" 1).2 = scenarioWorld ∧
      ((PrefabSystem.instantiate scenarioWorld "U" 1).1
          = .thrown SimpleEntitySystem.duplicateError ∨
        (PrefabSystem.instantiate scenarioWorld "U" 1).1
          = .thrown SimpleEntitySystem.constructionError) ∧
      (PrefabSystem.instantiate scenarioWorld "U" 1).2.prefabSystem.base.getComponent 1
        = scenarioWorld.prefabSystem.base.getComponent 1 ∧
      PrefabSystem.updatePrefab scenarioWorld "U" [("A", QVariant.map [])] true
        = (.ok (), scenarioWorld)) :=
  ⟨by decide,
    C9_unknown_prefab_no_mutation scenarioWorld "U" 1 [("A", QVariant.map [])] true
      (by decide)⟩

/-- Counterexample to C10 as stated: the template declares `A` and `B`, entity 1
already has a `B` component and no `A` component; `instantiate` throws the duplicate
error, and afterwards the store of `A` holds a component for entity 1. -/
theorem C10_counterexample :
    (occupiedWorld.getSystemByComponentClassName "B").bind (fun es => es.getComponent 1)
        = some 0 ∧
      (occupiedWorld.getSystemByComponentClassName "A").bind (fun es => es.getComponent 1)
        = none ∧
      (PrefabSystem.instantiate occupiedWorld "T" 1).1
        = Outcome.thrown SimpleEntitySystem.duplicateError ∧
      ((PrefabSystem.instantiate occupiedWorld "T" 1).2.getSystemByComponentClassName
        "A").bind (fun es => es.getComponent 1) = some 1 := by
  decide

/-- Claim C10, amended: when instantiating `T` on `e` fails with the duplicate error
of a declared store, the operation is aborted without rollback.  No `PrefabInstance`
is attached and the `PrefabSystem`, the templates and every object that existed are
as before; the entries of `T` split into those walked before the failing one, the
failing one, whose store already held a component for `e`, and the rest; every store
of a class not among the entries walked before (the failing store, the later ones,
the undeclared ones) is in the state it had before the call, while each registered
store of an entry walked before has gained its component for `e` and keeps it. -/
theorem C10_duplicate_aborts_without_rollback (w : World) (path : String) (e : EntityId)
    (prefab : Ptr) (pf : Prefab)
    (hT : QMap.find w.prefabSystem.prefabs path = some prefab)
    (hpf : w.prefabHeap[prefab]? = some pf)
    (hkeys : (QMap.keys pf.components).Nodup)
    (hnoinst : w.prefabSystem.base.getComponent e = none)
    (hfail : (PrefabSystem.instantiate w path e).1
      = .thrown SimpleEntitySystem.duplicateError) :
    (PrefabSystem.instantiate w path e).2.prefabSystem = w.prefabSystem ∧
      (PrefabSystem.instantiate w path e).2.prefabHeap = w.prefabHeap ∧
      (∀ q, q < w.rt.heap.length →
        (PrefabSystem.instantiate w path e).2.rt.read q = w.rt.read q) ∧
      ∃ pre cls var post es, pf.components = pre ++ (cls, var) :: post ∧
        w.getSystemByComponentClassName cls = some es ∧ es.getComponent e ≠ none ∧
        (∀ name, name ∉ QMap.keys pre →
          (PrefabSystem.instantiate w path e).2.getSystemByComponentClassName name
            = w.getSystemByComponentClassName name) ∧
        (∀ cls' var' es', (cls', var') ∈ pre →
          w.getSystemByComponentClassName cls' = some es' →
          es'.getComponent e = none ∧
          ∃ h, (PrefabSystem.instantiate w path e).2.getSystemByComponentClassName cls'
                = some { es' with components := QMap.insert es'.components e h } ∧
            (PrefabSystem.instantiate w path e).2.rt.read h
              = some (PrefabSystem.builtObject es' var')) := by
  cases hloop : PrefabSystem.createPrefabComponentsFrom e pf.components w with
  | mk o w1 =>
    cases o with
    | ok u =>
      rw [PrefabSystem.instantiate_of_ok w w1 path e prefab pf hT hpf hnoinst hloop] at hfail
      simp at hfail
    | crash =>
      rw [PrefabSystem.instantiate_of_crash w w1 path e prefab pf hT hpf hnoinst hloop] at hfail
      simp at hfail
    | thrown what =>
      have hinst := PrefabSystem.instantiate_of_thrown w w1 path e prefab pf what hT hpf
        hnoinst hloop
      rw [hinst] at hfail ⊢
      simp only [Outcome.thrown.injEq] at hfail
      subst hfail
      obtain ⟨pre, cls, var, post, es, hsplit, hpre, hes, hdup⟩ :=
        PrefabSystem.createPrefabComponentsFrom_duplicate_inv e pf.components w w1 hloop
      have hk : (QMap.keys (pre ++ (cls, var) :: post)).Nodup := hsplit ▸ hkeys
      simp only [QMap.keys, List.map_append, List.map_cons] at hk
      have hkpre : (QMap.keys pre).Nodup := (List.nodup_append.mp hk).1
      have hcls : cls ∉ QMap.keys pre := by
        intro hmem
        exact (List.nodup_append.mp hk).2.2 hmem (List.mem_cons_self _ _)
      obtain ⟨i1, i2, i3, i4, i5, _⟩ :=
        PrefabSystem.createPrefabComponentsFrom_ok_inv e pre w w1 hkpre hpre
      refine ⟨i1, i2, i5, pre, cls, var, post, es, hsplit, ?_, hdup, i3, ?_⟩
      · rw [← i3 cls hcls]
        exact hes
      · intro cls' var' es' hm hes'
        obtain ⟨g1, h, g2, _, g4⟩ := i4 cls' var' es' hm hes'
        exact ⟨g1, h, g2, g4⟩

/-- Witness of C10 (amended): the template `{A: {x: 1}, B: {y: 2}}` instantiated on
entity 1, which already has a `B` component. -/
theorem C10_duplicate_aborts_without_rollback_witness :
    QMap.find occupiedWorld.prefabSystem.prefabs "T" = some 0 ∧
    occupiedWorld.prefabHeap[0]? = some templateT ∧
    (QMap.keys templateT.components).Nodup ∧
    occupiedWorld.prefabSystem.base.getComponent 1 = none ∧
    (PrefabSystem.instantiate occupiedWorld "T" 1).1
      = .thrown SimpleEntitySystem.duplicateError ∧
    ((PrefabSystem.instantiate occupiedWorld "T" 1).2.prefabSystem
        = occupiedWorld.prefabSystem ∧
      (PrefabSystem.instantiate occupiedWorld "T" 1).2.prefabHeap = occupiedWorld.prefabHeap ∧
      (∀ q, q < occupiedWorld.rt.heap.length →
        (PrefabSystem.instantiate occupiedWorld "T" 1).2.rt.read q = occupiedWorld.rt.read q) ∧
      ∃ pre cls var post es, templateT.components = pre ++ (cls, var) :: post ∧
        occupiedWorld.getSystemByComponentClassName cls = some es ∧
        es.getComponent 1 ≠ none ∧
        (∀ name, name ∉ QMap.keys pre →
          (PrefabSystem.instantiate occupiedWorld "T" 1).2.getSystemByComponentClassName name
            = occupiedWorld.getSystemByComponentClassName name) ∧
        (∀ cls' var' es', (cls', var') ∈ pre →
          occupiedWorld.getSystemByComponentClassName cls' = some es' →
          es'.getComponent 1 = none ∧
          ∃ h, (PrefabSystem.instantiate occupiedWorld "T" 1).2.getSystemByComponentClassName
                cls'
                = some { es' with components := QMap.insert es'.components 1 h } ∧
            (PrefabSystem.instantiate occupiedWorld "T" 1).2.rt.read h
              = some (PrefabSystem.builtObject es' var'))) :=
  ⟨by decide, by decide, by decide, by decide, by decide,
    C10_duplicate_aborts_without_rollback occupiedWorld "T" 1 0 templateT (by decide)
      (by decide) (by decide) (by decide) (by decide)⟩

/-! ## Facts about the loops of `updatePrefab` -/

namespace Runtime

theorem Updated.updated_refl (ps : List String) (rt : Runtime) : Updated ps rt rt :=
  ⟨rfl, fun _ h => h, fun _ o h => Or.inr ⟨o, h, rfl, rfl, rfl, fun _ _ _ _ => rfl⟩,
    ⟨[], by simp, by simp⟩⟩

theorem Updated.updated_trans {ps : List String} {a b c : Runtime} (h1 : Updated ps a b)
    (h2 : Updated ps b c) : Updated ps a c := by
  refine ⟨h2.length_eq.trans h1.length_eq, fun p h => h2.dead p (h1.dead p h), ?_, ?_⟩
  · intro p o ho
    rcases h1.shape p o ho with hb | ⟨o1, hb, m1, p1, l1, e1⟩
    · exact Or.inl (h2.dead p hb)
    · rcases h2.shape p o1 hb with hc | ⟨o2, hc, m2, p2, l2, e2⟩
      · exact Or.inl hc
      · refine Or.inr ⟨o2, hc, m2.trans m1, p2.trans p1, l2.trans l1, ?_⟩
        intro k prop hk hex
        rw [e2 k prop (by rw [m1]; exact hk) hex]
        exact e1 k prop hk hex
  · obtain ⟨x1, t1, n1⟩ := h1.trace
    obtain ⟨x2, t2, n2⟩ := h2.trace
    refine ⟨x1 ++ x2, by rw [t2, t1, List.append_assoc], ?_⟩
    intro e he
    rcases List.mem_append.mp he with h | h
    · exact n1 e h
    · exact n2 e h

/-- Announcing a destruction and freeing the object is within `Updated`. -/
theorem Updated.destroy (ps : List String) (rt : Runtime) (cls : String) (id : EntityId)
    (obj : Ptr) :
    Updated ps rt ((rt.emit (.componentAboutToDestruct cls id obj)).delete obj) := by
  refine ⟨by simp [delete, emit], ?_, ?_, ⟨[.componentAboutToDestruct cls id obj], rfl, ?_⟩⟩
  · intro p hp
    by_cases h : p = obj
    · subst h
      exact read_delete_self _ _
    · rw [read_delete_ne _ _ _ h, read_emit]
      exact hp
  · intro p o hp
    by_cases h : p = obj
    · subst h
      exact Or.inl (read_delete_self _ _)
    · refine Or.inr ⟨o, ?_, rfl, rfl, rfl, fun _ _ _ _ => rfl⟩
      rw [read_delete_ne _ _ _ h, read_emit]
      exact hp
  · intro e he c i o
    simp only [List.mem_singleton] at he
    subst he
    simp

/-- Writing a property that is not exempt is within `Updated`. -/
theorem Updated.write (ps : List String) (rt : Runtime) (obj : Ptr) (i : Nat)
    (prop : QMetaProperty) (v : QVariant) (o : QObject) (hr : rt.read obj = some o)
    (hi : o.metaObject.properties[i]? = some prop) (hne : ¬ PrefabSystem.exempt ps prop.name) :
    Updated ps rt (rt.writeProperty obj i prop v).2 := by
  by_cases hw : prop.writable = true
  · cases hc : QVariant.convert prop.type v with
    | none =>
      rw [writeProperty_fail rt obj i prop v hc]
      exact Updated.updated_refl ps rt
    | some v' =>
      have hself := writeProperty_read_self rt obj i prop v v' o hw hr hc
      refine ⟨writeProperty_length rt obj i prop v, ?_, ?_, ?_⟩
      · intro p hp
        have hpo : p ≠ obj := by
          intro e
          rw [e, hr] at hp
          cases hp
        rw [writeProperty_read_ne rt obj i prop v p hpo]
        exact hp
      · intro p o0 hp
        by_cases hpo : p = obj
        · subst hpo
          rw [hr] at hp
          cases hp
          refine Or.inr ⟨_, hself, rfl, rfl, by simp, ?_⟩
          intro k prop' hk hex
          have hki : i ≠ k := by
            intro e
            subst e
            rw [hi] at hk
            cases hk
            exact hne hex
          simp [List.getElem?_set_ne hki]
        · refine Or.inr ⟨o0, ?_, rfl, rfl, rfl, fun _ _ _ _ => rfl⟩
          rw [writeProperty_read_ne rt obj i prop v p hpo]
          exact hp
      · refine ⟨[Event.written obj i v'], ?_, ?_⟩
        · simp [writeProperty, hw, hr, hc]
        · intro e he c i0 o0
          simp only [List.mem_singleton] at he
          subst he
          simp
  · have : (rt.writeProperty obj i prop v).2 = rt := by
      simp [writeProperty, hw]
    rw [this]
    exact Updated.updated_refl ps rt

end Runtime

namespace PrefabSystem

theorem exempt_iff (ps : List String) (name : String) :
    (ps.contains name || decide (name = "objectName")) = true ↔ exempt ps name := by
  simp [exempt]

/-- The innermost loop of `updatePrefab` is within `Updated` and touches the
component it runs on only. -/
theorem updateProperties_updated (ps : List String) (newvals : QVariantMap) (c : Ptr)
    (props : List QMetaProperty) :
    ∀ (i : Nat) (rt : Runtime) (o : QObject), rt.read c = some o →
      o.metaObject.properties.drop i = props →
      Runtime.Updated ps rt (updateProperties ps newvals c props i rt) ∧
      ∀ p, p ≠ c → (updateProperties ps newvals c props i rt).read p = rt.read p := by
  induction props with
  | nil =>
    intro i rt o _ _
    exact ⟨Runtime.Updated.updated_refl ps rt, fun _ _ => rfl⟩
  | cons prop rest ih =>
    intro i rt o hr hd
    have hi : o.metaObject.properties[i]? = some prop := by
      have := List.getElem?_drop o.metaObject.properties i 0
      rw [hd] at this
      simpa using this.symm
    have hd' : o.metaObject.properties.drop (i + 1) = rest := by
      rw [← List.tail_drop, hd]
      rfl
    by_cases hex : (ps.contains prop.name || decide (prop.name = "objectName")) = true
    · simp only [updateProperties, hex, if_true]
      exact ih (i + 1) rt o hr hd'
    · cases hf : QMap.find newvals prop.name with
      | none =>
        simp only [updateProperties, hex, hf]
        exact ih (i + 1) rt o hr hd'
      | some newval =>
        by_cases hcmp : newval.cmp (rt.readProperty c i) = true
        · simp only [updateProperties, hex, hf, hcmp]
          exact ih (i + 1) rt o hr hd'
        · have hnex : ¬ exempt ps prop.name := fun h => hex ((exempt_iff ps prop.name).mpr h)
          have hstep := Runtime.Updated.write ps rt c i prop newval o hr hi hnex
          have hread : ∃ o1, (rt.writeProperty c i prop newval).2.read c = some o1 ∧
              o1.metaObject = o.metaObject := by
            rcases hstep.shape c o hr with hnone | ⟨o1, h1, h2, _⟩
            · exfalso
              by_cases hw : prop.writable = true
              · cases hc : QVariant.convert prop.type newval with
                | none =>
                  rw [Runtime.writeProperty_fail rt c i prop newval hc, hr] at hnone
                  cases hnone
                | some v' =>
                  rw [Runtime.writeProperty_read_self rt c i prop newval v' o hw hr hc] at hnone
                  cases hnone
              · have : (rt.writeProperty c i prop newval).2 = rt := by
                  simp [Runtime.writeProperty, hw]
                rw [this, hr] at hnone
                cases hnone
            · exact ⟨o1, h1, h2⟩
          obtain ⟨o1, hr1, hm1⟩ := hread
          have hrec := ih (i + 1) (rt.writeProperty c i prop newval).2 o1 hr1
            (by rw [hm1]; exact hd')
          have hunf : updateProperties ps newvals c (prop :: rest) i rt
              = updateProperties ps newvals c rest (i + 1)
                  (rt.writeProperty c i prop newval).2 := by
            have hcmp' : newval.cmp (rt.readProperty c i) = false := by simpa using hcmp
            rw [updateProperties, if_neg hex]
            simp only [hf, hcmp']
            rfl
          rw [hunf]
          refine ⟨hstep.updated_trans hrec.1, ?_⟩
          intro p hp
          rw [hrec.2 p hp]
          exact Runtime.writeProperty_read_ne rt c i prop newval p hp

end PrefabSystem

namespace World

theorem ShrinksOn.shrinks_refl (ps : List String) (P : String → Prop) (w : World) :
    ShrinksOn ps P w w :=
  ⟨rfl, rfl, fun _ h => h, fun _ es h => ⟨es, h, rfl, List.Sublist.refl _⟩, fun _ _ => rfl,
    fun _ _ => rfl, Runtime.Updated.updated_refl ps w.rt⟩

theorem ShrinksOn.shrinks_mono {ps : List String} {P Q : String → Prop} {w w' : World}
    (hPQ : ∀ n, P n → Q n) (h : ShrinksOn ps P w w') : ShrinksOn ps Q w w' :=
  ⟨h.prefabSystem_eq, h.prefabHeap_eq, h.unregistered, h.stores,
    fun name hn => h.others name (fun hp => hn (hPQ name hp)),
    fun p hp => h.frame p (fun name es hn hs => hp name es (hPQ name hn) hs), h.heap⟩

theorem ShrinksOn.shrinks_trans {ps : List String} {P Q : String → Prop} {w w1 w2 : World}
    (h1 : ShrinksOn ps P w w1) (h2 : ShrinksOn ps Q w1 w2) :
    ShrinksOn ps (fun n => P n ∨ Q n) w w2 := by
  refine ⟨h2.prefabSystem_eq.trans h1.prefabSystem_eq, h2.prefabHeap_eq.trans h1.prefabHeap_eq,
    fun name h => h2.unregistered name (h1.unregistered name h), ?_, ?_, ?_,
    h1.heap.updated_trans h2.heap⟩
  · intro name es hs
    obtain ⟨es1, g1, m1, s1⟩ := h1.stores name es hs
    obtain ⟨es2, g2, m2, s2⟩ := h2.stores name es1 g1
    exact ⟨es2, g2, m2.trans m1, s2.trans s1⟩
  · intro name hn
    rw [h2.others name (fun hq => hn (Or.inr hq)), h1.others name (fun hp => hn (Or.inl hp))]
  · intro p hp
    rw [h2.frame p ?_, h1.frame p (fun name es hn hs => hp name es (Or.inl hn) hs)]
    intro name es1 hq hs1
    cases hs : w.getSystemByComponentClassName name with
    | none =>
      rw [h1.unregistered name hs] at hs1
      cases hs1
    | some es =>
      obtain ⟨es1', g1, _, s1⟩ := h1.stores name es hs
      rw [g1] at hs1
      cases hs1
      intro hmem
      exact hp name es (Or.inr hq) hs ((List.Sublist.map Prod.snd s1).subset hmem)

/-- The call `es->destroyComponent(id)` on the store registered as `cls`. -/
theorem shrinks_destroyComponentIn (ps : List String) (w : World) (cls : String)
    (es : SimpleEntitySystem) (id : EntityId)
    (hs : w.getSystemByComponentClassName cls = some es) :
    ShrinksOn ps (fun n => n = cls) w (w.destroyComponentIn cls es id).2 := by
  cases hg : es.getComponent id with
  | none =>
    have hw : (w.destroyComponentIn cls es id).2 = w := by
      simp only [destroyComponentIn, SimpleEntitySystem.destroyComponent_absent es w.rt id hg]
      unfold getSystemByComponentClassName at hs
      rw [QMap.replace_same _ _ _ hs]
    rw [hw]
    exact ShrinksOn.shrinks_refl ps _ w
  | some obj =>
    have hw : (w.destroyComponentIn cls es id).2
        = { w with
            systems := QMap.replace w.systems cls
              { es with components := QMap.erase es.components id },
            rt := (w.rt.emit
              (.componentAboutToDestruct es.componentMetaObject.className id obj)).delete obj } := by
      simp only [destroyComponentIn, SimpleEntitySystem.destroyComponent_live es w.rt id obj hg]
    rw [hw]
    unfold getSystemByComponentClassName at hs
    have hobj : obj ∈ QMap.values es.components :=
      List.mem_map.mpr ⟨(id, obj), QMap.mem_of_find _ id obj hg, rfl⟩
    refine ⟨rfl, rfl, ?_, ?_, ?_, ?_, Runtime.Updated.destroy ps w.rt _ id obj⟩
    · intro name hn
      simp only [getSystemByComponentClassName] at hn ⊢
      have hne : name ≠ cls := by
        intro e
        rw [e, hs] at hn
        cases hn
      rw [QMap.find_replace_ne _ _ _ _ hne]
      exact hn
    · intro name es0 hn
      simp only [getSystemByComponentClassName] at hn ⊢
      by_cases hne : name = cls
      · subst hne
        rw [hs] at hn
        cases hn
        exact ⟨_, QMap.find_replace_self _ _ _ _ hs, rfl, QMap.erase_sublist _ _⟩
      · rw [QMap.find_replace_ne _ _ _ _ hne]
        exact ⟨es0, hn, rfl, List.Sublist.refl _⟩
    · intro name hne
      simp only [getSystemByComponentClassName]
      exact QMap.find_replace_ne _ _ _ _ hne
    · intro p hp
      have hpo : p ≠ obj := fun e => hp cls es rfl hs (e ▸ hobj)
      simp only
      rw [Runtime.read_delete_ne _ _ _ hpo, Runtime.read_emit]

/-- Running the innermost loop of `updatePrefab` on a component of the store
registered as `cls`. -/
theorem shrinks_updateProperties (ps : List String) (newvals : QVariantMap) (w : World)
    (cls : String) (es : SimpleEntitySystem) (id : EntityId) (c : Ptr) (o : QObject)
    (hs : w.getSystemByComponentClassName cls = some es) (hg : es.getComponent id = some c)
    (hr : w.rt.read c = some o) :
    ShrinksOn ps (fun n => n = cls) w
      { w with rt := PrefabSystem.updateProperties ps newvals c o.metaObject.properties 0 w.rt } := by
  obtain ⟨hu, hf⟩ := PrefabSystem.updateProperties_updated ps newvals c o.metaObject.properties
    0 w.rt o hr rfl
  have hc : c ∈ QMap.values es.components :=
    List.mem_map.mpr ⟨(id, c), QMap.mem_of_find _ id c hg, rfl⟩
  refine ⟨rfl, rfl, fun _ h => h, fun _ es0 h => ⟨es0, h, rfl, List.Sublist.refl _⟩,
    fun _ _ => rfl, ?_, hu⟩
  intro p hp
  exact hf p (fun e => hp cls es rfl hs (e ▸ hc))

end World

namespace PrefabSystem

/-- The removal loop of `updatePrefab` for the class `cls`, whatever its outcome. -/
theorem shrinks_destroyOnInstances (ps : List String) (cls : String) (prefab : Ptr)
    (instances : List (EntityId × Ptr)) :
    ∀ (w : World),
      World.ShrinksOn ps (fun n => n = cls) w (destroyOnInstances cls prefab instances w).2 := by
  induction instances with
  | nil => intro w; exact World.ShrinksOn.shrinks_refl ps _ w
  | cons hd rest ih =>
    obtain ⟨id, pi⟩ := hd
    intro w
    cases hm : (w.rt.read pi).bind QObject.prefab with
    | none =>
      simp only [destroyOnInstances, hm]
      exact World.ShrinksOn.shrinks_refl ps _ w
    | some q =>
      by_cases hq : q = prefab
      · cases hs : w.getSystemByComponentClassName cls with
        | none =>
          simp only [destroyOnInstances, hm, hq, if_true, hs]
          exact ih w
        | some es =>
          simp only [destroyOnInstances, hm, hq, if_true, hs]
          exact ((World.shrinks_destroyComponentIn ps w cls es id hs).shrinks_trans (ih _)).shrinks_mono
            (fun n h => h.elim (fun x => x) (fun x => x))
      · simp only [destroyOnInstances, hm, hq, if_false]
        exact ih w

/-- The update loop of `updatePrefab` for the class `cls`, whatever its outcome. -/
theorem shrinks_updateOnInstances (ps : List String) (cls : String) (prefab : Ptr)
    (newvals : QVariantMap) (instances : List (EntityId × Ptr)) :
    ∀ (w : World),
      World.ShrinksOn ps (fun n => n = cls) w
        (updateOnInstances cls prefab ps newvals instances w).2 := by
  induction instances with
  | nil => intro w; exact World.ShrinksOn.shrinks_refl ps _ w
  | cons hd rest ih =>
    obtain ⟨id, pi⟩ := hd
    intro w
    cases hm : (w.rt.read pi).bind QObject.prefab with
    | none =>
      simp only [updateOnInstances, hm]
      exact World.ShrinksOn.shrinks_refl ps _ w
    | some q =>
      by_cases hq : q = prefab
      · cases hs : w.getSystemByComponentClassName cls with
        | none =>
          simp only [updateOnInstances, hm, hq, if_true, hs, Option.none_bind]
          exact ih w
        | some es =>
          cases hg : es.getComponent id with
          | none =>
            simp only [updateOnInstances, hm, hq, if_true, hs, Option.some_bind, hg]
            exact ih w
          | some c =>
            cases hr : w.rt.read c with
            | none =>
              simp only [updateOnInstances, hm, hq, if_true, hs, Option.some_bind, hg, hr]
              exact World.ShrinksOn.shrinks_refl ps _ w
            | some o =>
              simp only [updateOnInstances, hm, hq, if_true, hs, Option.some_bind, hg, hr]
              exact ((World.shrinks_updateProperties ps newvals w cls es id c o hs hg hr).shrinks_trans
                (ih _)).shrinks_mono (fun n h => h.elim (fun x => x) (fun x => x))
      · simp only [updateOnInstances, hm, hq, if_false]
        exact ih w

/-- The first loop of `updatePrefab`, whatever its outcome. -/
theorem shrinks_updateExisting (prefab : Ptr) (ps : List String) (newcomponents : QVariantMap)
    (instances : List (EntityId × Ptr)) (old : QVariantMap) :
    ∀ (w : World),
      World.ShrinksOn ps (fun n => n ∈ QMap.keys old) w
        (updateExisting prefab ps newcomponents instances old w).2 := by
  induction old with
  | nil => intro w; exact World.ShrinksOn.shrinks_refl ps _ w
  | cons hd rest ih =>
    obtain ⟨key, val⟩ := hd
    intro w
    have hrest : ∀ n, n ∈ QMap.keys rest → n ∈ QMap.keys ((key, val) :: rest) :=
      fun n h => List.mem_cons_of_mem _ h
    have hboth : ∀ n, n = key ∨ n ∈ QMap.keys rest → n ∈ QMap.keys ((key, val) :: rest) := by
      intro n h
      rcases h with h | h
      · subst h
        exact List.mem_cons_self _ _
      · exact hrest n h
    cases hs : w.getSystemByComponentClassName key with
    | none =>
      simp only [updateExisting, hs]
      exact (ih w).shrinks_mono hrest
    | some es =>
      cases hf : QMap.find newcomponents key with
      | none =>
        have hstep := shrinks_destroyOnInstances ps key prefab instances w
        cases hr : destroyOnInstances key prefab instances w with
        | mk o w1 =>
          rw [hr] at hstep
          cases o with
          | ok u =>
            simp only [updateExisting, hs, hf, hr]
            exact (hstep.shrinks_trans (ih w1)).shrinks_mono hboth
          | thrown e =>
            simp only [updateExisting, hs, hf, hr]
            exact hstep.shrinks_mono (fun n h => hboth n (Or.inl h))
          | crash =>
            simp only [updateExisting, hs, hf, hr]
            exact hstep.shrinks_mono (fun n h => hboth n (Or.inl h))
      | some newval =>
        have hstep := shrinks_updateOnInstances ps key prefab newval.toMap instances w
        cases hr : updateOnInstances key prefab ps newval.toMap instances w with
        | mk o w1 =>
          rw [hr] at hstep
          cases o with
          | ok u =>
            simp only [updateExisting, hs, hf, hr]
            exact (hstep.shrinks_trans (ih w1)).shrinks_mono hboth
          | thrown e =>
            simp only [updateExisting, hs, hf, hr]
            exact hstep.shrinks_mono (fun n h => hboth n (Or.inl h))
          | crash =>
            simp only [updateExisting, hs, hf, hr]
            exact hstep.shrinks_mono (fun n h => hboth n (Or.inl h))

end PrefabSystem

namespace Runtime

theorem writeProperty_trace (rt : Runtime) (obj : Ptr) (i : Nat) (prop : QMetaProperty)
    (v : QVariant) :
    ∃ ext, (rt.writeProperty obj i prop v).2.trace = rt.trace ++ ext ∧
      ∀ e ∈ ext, ∃ j v', e = Event.written obj j v' := by
  unfold writeProperty
  split
  · exact ⟨[], by simp, by simp⟩
  · split
    · rename_i o v' _ _
      exact ⟨[Event.written obj i v'], rfl, by simp⟩
    · exact ⟨[], by simp, by simp⟩

end Runtime

namespace SimpleEntitySystem

theorem applyParametersFrom_trace (m : QVariantMap) (obj : Ptr) (props : List QMetaProperty) :
    ∀ (i : Nat) (rt : Runtime),
      ∃ ext, (applyParametersFrom m obj props i rt).trace = rt.trace ++ ext ∧
        ∀ e ∈ ext, ∃ j v, e = Event.written obj j v := by
  induction props with
  | nil => intro i rt; exact ⟨[], by simp [applyParametersFrom], by simp⟩
  | cons prop rest ih =>
    intro i rt
    unfold applyParametersFrom
    split
    · exact ih (i + 1) rt
    · split
      · exact ih (i + 1) rt
      · rename_i var _
        obtain ⟨x1, t1, n1⟩ := Runtime.writeProperty_trace rt obj i prop var
        obtain ⟨x2, t2, n2⟩ := ih (i + 1) (rt.writeProperty obj i prop var).2
        refine ⟨x1 ++ x2, by rw [t2, t1, List.append_assoc], ?_⟩
        intro e he
        rcases List.mem_append.mp he with h | h
        · exact n1 e h
        · exact n2 e h

/-- The runtime `createObjectInstance` leaves for a class that can be constructed. -/
theorem createObjectInstance_invokable_eq (s : SimpleEntitySystem) (rt : Runtime)
    (id : EntityId) (m : QVariantMap) (hctor : s.componentMetaObject.invokable = true) :
    s.createObjectInstance rt id m
      = (.ok (some rt.heap.length),
          if m.isEmpty then (rt.alloc s.componentMetaObject.defaultObject).2
          else applyParametersFrom m rt.heap.length s.componentMetaObject.properties 0
            (rt.alloc s.componentMetaObject.defaultObject).2) := by
  have hnew : s.componentMetaObject.newInstance rt
      = (some rt.heap.length, (rt.alloc s.componentMetaObject.defaultObject).2) := by
    simp [QMetaObject.newInstance, hctor, Runtime.alloc]
  have hread := Runtime.read_alloc_new rt s.componentMetaObject.defaultObject
  cases m with
  | nil => simp [createObjectInstance, hnew, applyParameters]
  | cons e r =>
    have happly : applyParameters (rt.alloc s.componentMetaObject.defaultObject).2
        (some rt.heap.length) (e :: r)
        = (.ok (), applyParametersFrom (e :: r) rt.heap.length
            s.componentMetaObject.properties 0
            (rt.alloc s.componentMetaObject.defaultObject).2) := by
      simp only [applyParameters, List.isEmpty_cons, hread]
      rfl
    simp only [createObjectInstance, hnew, happly]
    rfl

/-- What `createComponent` appends to the trace, whatever its outcome: writes on the
object it allocates and the announcement of that object. -/
theorem createComponent_trace (s : SimpleEntitySystem) (rt : Runtime) (id : EntityId)
    (m : QVariantMap) :
    ∃ ext, (s.createComponent rt id m).2.2.trace = rt.trace ++ ext ∧
      ∀ e ∈ ext, (∃ j v, e = Event.written rt.heap.length j v) ∨
        ∃ c j, e = Event.componentCreated c j rt.heap.length := by
  cases hg : s.getComponent id with
  | some p => exact ⟨[], by simp [createComponent, hg], by simp⟩
  | none =>
    cases hc : s.componentMetaObject.invokable with
    | false =>
      cases m with
      | nil => rw [createComponent_no_ctor s rt id hg hc]; exact ⟨[], by simp, by simp⟩
      | cons e r =>
        rw [createComponent_null_deref s rt id e r hg hc]
        exact ⟨[], by simp, by simp⟩
    | true =>
      have h0 := createObjectInstance_invokable_eq s rt id m hc
      have hres : (s.createComponent rt id m).2.2
          = (if m.isEmpty then (rt.alloc s.componentMetaObject.defaultObject).2
              else applyParametersFrom m rt.heap.length s.componentMetaObject.properties 0
                (rt.alloc s.componentMetaObject.defaultObject).2).emit
              (.componentCreated s.componentMetaObject.className id rt.heap.length) := by
        simp [createComponent, hg, h0]
      rw [hres]
      by_cases hm : m.isEmpty = true
      · rw [if_pos hm]
        exact ⟨[.componentCreated s.componentMetaObject.className id rt.heap.length], rfl,
          by simp⟩
      · rw [if_neg hm]
        obtain ⟨x, t, n⟩ := applyParametersFrom_trace m rt.heap.length
          s.componentMetaObject.properties 0 (rt.alloc s.componentMetaObject.defaultObject).2
        refine ⟨x ++ [.componentCreated s.componentMetaObject.className id rt.heap.length],
          ?_, ?_⟩
        · simp only [Runtime.emit]
          rw [t, List.append_assoc]
          rfl
        · intro e he
          rcases List.mem_append.mp he with h | h
          · exact Or.inl (n e h)
          · simp only [List.mem_singleton] at h
            exact Or.inr ⟨_, _, h⟩

/-- What `createComponent` does to the store and the heap, whatever its outcome: the
class is kept, every component the store had is kept, no object that existed
changes. -/
theorem createComponent_grows (s : SimpleEntitySystem) (rt : Runtime) (id : EntityId)
    (m : QVariantMap) :
    (s.createComponent rt id m).2.1.componentMetaObject = s.componentMetaObject ∧
      (∀ j c, s.getComponent j = some c → (s.createComponent rt id m).2.1.getComponent j = some c) ∧
      rt.heap.length ≤ (s.createComponent rt id m).2.2.heap.length ∧
      ∀ p, p < rt.heap.length → (s.createComponent rt id m).2.2.read p = rt.read p := by
  cases hg : s.getComponent id with
  | some p =>
    have : s.createComponent rt id m = (.thrown duplicateError, s, rt) := by
      simp [createComponent, hg]
    rw [this]
    exact ⟨rfl, fun _ _ h => h, Nat.le_refl _, fun _ _ => rfl⟩
  | none =>
    cases hc : s.componentMetaObject.invokable with
    | false =>
      cases m with
      | nil =>
        rw [createComponent_no_ctor s rt id hg hc]
        exact ⟨rfl, fun _ _ h => h, Nat.le_refl _, fun _ _ => rfl⟩
      | cons e r =>
        rw [createComponent_null_deref s rt id e r hg hc]
        exact ⟨rfl, fun _ _ h => h, Nat.le_refl _, fun _ _ => rfl⟩
    | true =>
      obtain ⟨rt1, h0, _, h2, h3⟩ := createComponent_fresh s rt id m hg hc
      rw [h0]
      refine ⟨rfl, ?_, by simp only [h2]; omega, fun p hp => h3 p (Nat.ne_of_lt hp)⟩
      intro j c hj
      have hne : j ≠ id := by
        intro e
        rw [e, hg] at hj
        cases hj
      show QMap.find (QMap.insert s.components id rt.heap.length) j = some c
      rw [QMap.find_insert_ne _ _ _ _ hne]
      exact hj

end SimpleEntitySystem

namespace World

theorem GrowsOn.grows_refl (P : String → Prop) (w : World) : GrowsOn P w w :=
  ⟨rfl, rfl, fun _ h => h, fun _ es h => ⟨es, h, rfl, fun _ _ h => h⟩, fun _ _ => rfl,
    Nat.le_refl _, fun _ _ => rfl, ⟨[], by simp, by simp⟩⟩

theorem GrowsOn.grows_mono {P Q : String → Prop} {w w' : World} (hPQ : ∀ n, P n → Q n)
    (h : GrowsOn P w w') : GrowsOn Q w w' :=
  ⟨h.prefabSystem_eq, h.prefabHeap_eq, h.unregistered, h.stores,
    fun name hn => h.others name (fun hp => hn (hPQ name hp)), h.length_le, h.frame, h.trace⟩

theorem GrowsOn.grows_trans {P Q : String → Prop} {w w1 w2 : World} (h1 : GrowsOn P w w1)
    (h2 : GrowsOn Q w1 w2) : GrowsOn (fun n => P n ∨ Q n) w w2 := by
  refine ⟨h2.prefabSystem_eq.trans h1.prefabSystem_eq, h2.prefabHeap_eq.trans h1.prefabHeap_eq,
    fun name h => h2.unregistered name (h1.unregistered name h), ?_, ?_,
    Nat.le_trans h1.length_le h2.length_le, ?_, ?_⟩
  · intro name es hs
    obtain ⟨es1, g1, m1, s1⟩ := h1.stores name es hs
    obtain ⟨es2, g2, m2, s2⟩ := h2.stores name es1 g1
    exact ⟨es2, g2, m2.trans m1, fun j c hj => s2 j c (s1 j c hj)⟩
  · intro name hn
    rw [h2.others name (fun hq => hn (Or.inr hq)), h1.others name (fun hp => hn (Or.inl hp))]
  · intro p hp
    rw [h2.frame p (Nat.lt_of_lt_of_le hp h1.length_le), h1.frame p hp]
  · obtain ⟨x1, t1, n1⟩ := h1.trace
    obtain ⟨x2, t2, n2⟩ := h2.trace
    refine ⟨x1 ++ x2, by rw [t2, t1, List.append_assoc], ?_⟩
    intro e he
    rcases List.mem_append.mp he with h | h
    · exact n1 e h
    · refine ⟨(n2 e h).1, ?_⟩
      intro o i v hv
      exact Nat.le_trans h1.length_le ((n2 e h).2 o i v hv)

/-- The call `es->createComponent(id, m)` on the store registered as `cls`, whatever
its outcome. -/
theorem grows_createComponentIn (w : World) (cls : String) (es : SimpleEntitySystem)
    (id : EntityId) (m : QVariantMap) (hs : w.getSystemByComponentClassName cls = some es) :
    GrowsOn (fun n => n = cls) w (w.createComponentIn cls es id m).2 := by
  obtain ⟨g1, g2, g3, g4⟩ := SimpleEntitySystem.createComponent_grows es w.rt id m
  obtain ⟨x, t, n⟩ := SimpleEntitySystem.createComponent_trace es w.rt id m
  unfold getSystemByComponentClassName at hs
  refine ⟨rfl, rfl, ?_, ?_, ?_, g3, g4, ⟨x, t, ?_⟩⟩
  · intro name hn
    simp only [getSystemByComponentClassName, createComponentIn] at hn ⊢
    have hne : name ≠ cls := by
      intro e
      rw [e, hs] at hn
      cases hn
    rw [QMap.find_replace_ne _ _ _ _ hne]
    exact hn
  · intro name es0 hn
    simp only [getSystemByComponentClassName, createComponentIn] at hn ⊢
    by_cases hne : name = cls
    · subst hne
      rw [hs] at hn
      cases hn
      exact ⟨_, QMap.find_replace_self _ _ _ _ hs, g1, g2⟩
    · rw [QMap.find_replace_ne _ _ _ _ hne]
      exact ⟨es0, hn, rfl, fun _ _ h => h⟩
  · intro name hne
    simp only [getSystemByComponentClassName, createComponentIn]
    exact QMap.find_replace_ne _ _ _ _ hne
  · intro e he
    rcases n e he with ⟨j, v, h⟩ | ⟨c, j, h⟩
    · subst h
      refine ⟨by simp, ?_⟩
      intro o i v' hv
      cases hv
      exact Nat.le_refl _
    · subst h
      exact ⟨by simp, by simp⟩

end World

namespace PrefabSystem

/-- The addition loop of `updatePrefab` for the class `cls`, whatever its outcome. -/
theorem grows_createOnInstances (cls : String) (prefab : Ptr) (vals : QVariantMap)
    (instances : List (EntityId × Ptr)) :
    ∀ (w : World),
      World.GrowsOn (fun n => n = cls) w (createOnInstances cls prefab vals instances w).2 := by
  induction instances with
  | nil => intro w; exact World.GrowsOn.grows_refl _ w
  | cons hd rest ih =>
    obtain ⟨id, pi⟩ := hd
    intro w
    cases hm : (w.rt.read pi).bind QObject.prefab with
    | none =>
      simp only [createOnInstances, hm]
      exact World.GrowsOn.grows_refl _ w
    | some q =>
      by_cases hq : q = prefab
      · cases hs : w.getSystemByComponentClassName cls with
        | none =>
          simp only [createOnInstances, hm, hq, if_true, hs]
          exact ih w
        | some es =>
          have hstep := World.grows_createComponentIn w cls es id vals hs
          cases hr : w.createComponentIn cls es id vals with
          | mk o w1 =>
            rw [hr] at hstep
            cases o with
            | ok h =>
              simp only [createOnInstances, hm, hq, if_true, hs, hr]
              exact (hstep.grows_trans (ih w1)).grows_mono (fun n h => h.elim (fun x => x) (fun x => x))
            | thrown e =>
              simp only [createOnInstances, hm, hq, if_true, hs, hr]
              exact hstep
            | crash =>
              simp only [createOnInstances, hm, hq, if_true, hs, hr]
              exact hstep
      · simp only [createOnInstances, hm, hq, if_false]
        exact ih w

/-- The second loop of `updatePrefab`, whatever its outcome. -/
theorem grows_addMissing (prefab : Ptr) (old : QVariantMap)
    (instances : List (EntityId × Ptr)) (newcomponents : QVariantMap) :
    ∀ (w : World),
      World.GrowsOn (fun n => n ∈ QMap.keys newcomponents ∧ QMap.find old n = none) w
        (addMissing prefab old instances newcomponents w).2 := by
  induction newcomponents with
  | nil => intro w; exact World.GrowsOn.grows_refl _ w
  | cons hd rest ih =>
    obtain ⟨key, val⟩ := hd
    intro w
    have hrest : ∀ n, (n ∈ QMap.keys rest ∧ QMap.find old n = none) →
        (n ∈ QMap.keys ((key, val) :: rest) ∧ QMap.find old n = none) :=
      fun n h => ⟨List.mem_cons_of_mem _ h.1, h.2⟩
    cases hf : QMap.find old key with
    | some v =>
      simp only [addMissing, hf]
      exact (ih w).grows_mono hrest
    | none =>
      have hboth : ∀ n, (n = key ∨ (n ∈ QMap.keys rest ∧ QMap.find old n = none)) →
          (n ∈ QMap.keys ((key, val) :: rest) ∧ QMap.find old n = none) := by
        intro n h
        rcases h with h | h
        · subst h
          exact ⟨List.mem_cons_self _ _, hf⟩
        · exact hrest n h
      cases hs : w.getSystemByComponentClassName key with
      | none =>
        simp only [addMissing, hf, hs]
        exact (ih w).grows_mono hrest
      | some es =>
        have hstep := grows_createOnInstances key prefab val.toMap instances w
        cases hr : createOnInstances key prefab val.toMap instances w with
        | mk o w1 =>
          rw [hr] at hstep
          cases o with
          | ok u =>
            simp only [addMissing, hf, hs, hr]
            exact (hstep.grows_trans (ih w1)).grows_mono hboth
          | thrown e =>
            simp only [addMissing, hf, hs, hr]
            exact hstep.grows_mono (fun n h => hboth n (Or.inl h))
          | crash =>
            simp only [addMissing, hf, hs, hr]
            exact hstep.grows_mono (fun n h => hboth n (Or.inl h))

theorem setComponents_rt (w : World) (prefab : Ptr) (c : QVariantMap) :
    (w.setComponents prefab c).rt = w.rt := by
  unfold World.setComponents
  split <;> rfl

theorem setComponents_systems (w : World) (prefab : Ptr) (c : QVariantMap) :
    (w.setComponents prefab c).systems = w.systems := by
  unfold World.setComponents
  split <;> rfl

theorem setComponents_prefabSystem (w : World) (prefab : Ptr) (c : QVariantMap) :
    (w.setComponents prefab c).prefabSystem = w.prefabSystem := by
  unfold World.setComponents
  split <;> rfl

theorem setComponents_prefabHeap (w : World) (prefab : Ptr) (c : QVariantMap) (pf : Prefab)
    (hpf : w.prefabHeap[prefab]? = some pf) :
    (w.setComponents prefab c).prefabHeap = w.prefabHeap.set prefab { pf with components := c } := by
  simp [World.setComponents, hpf]

/-- The shape of a propagating `updatePrefab` on a known template, whatever its
outcome: the first loop leads to a world `w1`, the second from there to a world
`w2`, and the result is `w2`, with the component map of the template replaced when
the call returns. -/
theorem updatePrefab_propagate (w : World) (path : String) (newcomponents : QVariantMap)
    (prefab : Ptr) (pf : Prefab) (hT : QMap.find w.prefabSystem.prefabs path = some prefab)
    (hpf : w.prefabHeap[prefab]? = some pf) :
    ∃ w1 w2,
      World.ShrinksOn pf.parameters (fun n => n ∈ QMap.keys pf.components) w w1 ∧
      World.GrowsOn (fun n => n ∈ QMap.keys newcomponents ∧ QMap.find pf.components n = none)
        w1 w2 ∧
      (updatePrefab w path newcomponents true).2.rt = w2.rt ∧
      (updatePrefab w path newcomponents true).2.systems = w2.systems ∧
      (updatePrefab w path newcomponents true).2.prefabSystem = w2.prefabSystem ∧
      ((updatePrefab w path newcomponents true).1 ≠ .ok () →
        (updatePrefab w path newcomponents true).2 = w2) ∧
      ((updatePrefab w path newcomponents true).1 = .ok () →
        updateExisting prefab pf.parameters newcomponents w.prefabSystem.base.components
            pf.components w = (.ok (), w1) ∧
        addMissing prefab pf.components w.prefabSystem.base.components newcomponents w1
          = (.ok (), w2) ∧
        (updatePrefab w path newcomponents true).2 = w2.setComponents prefab newcomponents) := by
  have h1 := shrinks_updateExisting prefab pf.parameters newcomponents
    w.prefabSystem.base.components pf.components w
  cases hr1 : updateExisting prefab pf.parameters newcomponents
      w.prefabSystem.base.components pf.components w with
  | mk o1 w1 =>
    rw [hr1] at h1
    cases o1 with
    | thrown e =>
      refine ⟨w1, w1, h1, World.GrowsOn.grows_refl _ w1, ?_⟩
      simp [updatePrefab, hT, hpf, hr1]
    | crash =>
      refine ⟨w1, w1, h1, World.GrowsOn.grows_refl _ w1, ?_⟩
      simp [updatePrefab, hT, hpf, hr1]
    | ok u =>
      have h2 := grows_addMissing prefab pf.components w.prefabSystem.base.components
        newcomponents w1
      cases hr2 : addMissing prefab pf.components w.prefabSystem.base.components
          newcomponents w1 with
      | mk o2 w2 =>
        rw [hr2] at h2
        cases o2 with
        | thrown e =>
          refine ⟨w1, w2, h1, h2, ?_⟩
          simp [updatePrefab, hT, hpf, hr1, hr2]
        | crash =>
          refine ⟨w1, w2, h1, h2, ?_⟩
          simp [updatePrefab, hT, hpf, hr1, hr2]
        | ok u2 =>
          refine ⟨w1, w2, h1, h2, ?_⟩
          simp [updatePrefab, hT, hpf, hr1, hr2, setComponents_rt, setComponents_systems,
            setComponents_prefabSystem]

end PrefabSystem

/-! ## Propagating template updates -/

/-- Claim C13: for a template `T` and a field whose name is one of the parameter
names of `T` or is `objectName`, `updatePrefab` on `T` leaves the value of that field
unchanged on every object that is still there after the call (in particular on the
components of the instances of `T`; components of removed types are destroyed),
whatever value the new map gives it, with and without propagation and whatever the
outcome of the call. -/
theorem C13_parameters_are_not_overwritten (w : World) (path : String)
    (newcomponents : QVariantMap) (propagate : Bool) (prefab : Ptr) (pf : Prefab)
    (p : Ptr) (o o' : QObject) (k : Nat) (prop : QMetaProperty)
    (hT : QMap.find w.prefabSystem.prefabs path = some prefab)
    (hpf : w.prefabHeap[prefab]? = some pf)
    (hlive : w.rt.read p = some o)
    (hprop : o.metaObject.properties[k]? = some prop)
    (hexempt : PrefabSystem.exempt pf.parameters prop.name)
    (hafter : (PrefabSystem.updatePrefab w path newcomponents propagate).2.rt.read p = some o') :
    o'.values[k]? = o.values[k]? ∧
      (PrefabSystem.updatePrefab w path newcomponents propagate).2.rt.readProperty p k
        = w.rt.readProperty p k := by
  have hval : o'.values[k]? = o.values[k]? := by
    cases propagate with
    | false =>
      have : (PrefabSystem.updatePrefab w path newcomponents false).2.rt = w.rt := by
        simp [PrefabSystem.updatePrefab, hT, PrefabSystem.setComponents_rt]
      rw [this, hlive] at hafter
      cases hafter
      rfl
    | true =>
      obtain ⟨w1, w2, h1, h2, hrt, _⟩ :=
        PrefabSystem.updatePrefab_propagate w path newcomponents prefab pf hT hpf
      rw [hrt, h2.frame p (by rw [h1.heap.length_eq]; exact Runtime.read_lt _ _ _ hlive)]
        at hafter
      rcases h1.heap.shape p o hlive with hnone | ⟨o1, hr1, _, _, _, he⟩
      · rw [hnone] at hafter
        cases hafter
      · rw [hr1] at hafter
        cases hafter
        exact he k prop hprop hexempt
  refine ⟨hval, ?_⟩
  simp only [Runtime.readProperty, hafter, hlive, hval]

/-- Witness of C13: `x` is a parameter of the template and entity 1 has its `x` set to
99; the update changes `x` of the template to 5. -/
theorem C13_parameters_are_not_overwritten_witness :
    QMap.find parameterWorld.prefabSystem.prefabs "T" = some 0 ∧
    parameterWorld.prefabHeap[0]? = some { templateT with parameters := ["x"] } ∧
    parameterWorld.rt.read 0
      = some { metaObject := metaA, values := [.str "", .int 99], prefab := none } ∧
    metaA.properties[1]?
      = some { name := "x", writable := true, type := .int, init := .int 0 } ∧
    PrefabSystem.exempt ["x"] "x" ∧
    (PrefabSystem.updatePrefab parameterWorld "T"
        [("A", .map [("x", .int 5)]), ("B", .map [("y", .int 2)])] true).2.rt.read 0
      = some { metaObject := metaA, values := [.str "", .int 99], prefab := none } ∧
    ((some (QVariant.int 99) : Option QVariant) = some (QVariant.int 99) ∧
      (PrefabSystem.updatePrefab parameterWorld "T"
          [("A", .map [("x", .int 5)]), ("B", .map [("y", .int 2)])] true).2.rt.readProperty 0 1
        = parameterWorld.rt.readProperty 0 1) :=
  ⟨by decide, by decide, by decide, by decide, Or.inl (by decide), by decide,
    C13_parameters_are_not_overwritten parameterWorld "T"
      [("A", .map [("x", .int 5)]), ("B", .map [("y", .int 2)])] true 0
      { templateT with parameters := ["x"] } 0
      { metaObject := metaA, values := [.str "", .int 99], prefab := none }
      { metaObject := metaA, values := [.str "", .int 99], prefab := none } 1
      { name := "x", writable := true, type := .int, init := .int 0 }
      (by decide) (by decide) (by decide) (by decide) (Or.inl (by decide)) (by decide)⟩

/-- Counterexample to C15 as stated: the template declares `A` and `B`, the new map
keeps `A` with `x` 5 and drops `B`; the call writes the field `x` of the `A` component
first and destroys the `B` component afterwards, so a field update happens before a
removal. -/
theorem C15_counterexample :
    (PrefabSystem.updatePrefab instanceWorld "T" [("A", .map [("x", .int 5)])] true).1
        = Outcome.ok () ∧
      (PrefabSystem.updatePrefab instanceWorld "T" [("A", .map [("x", .int 5)])] true).2.rt.trace
        = [Event.written 0 1 (.int 5), Event.componentAboutToDestruct "B" 1 1] := by
  decide

/-- Claim C15, amended: the store operations of one propagating `updatePrefab` fall
into two consecutive runs.  The first holds every removal and every update of a field
of an existing component, in the key order of the old component map and not sorted
by kind, and creates nothing; the second holds every addition, destroys nothing and
writes only to the objects it allocates.  So every removal and every field update
happens before every addition. -/
theorem C15_removals_and_updates_before_additions (w : World) (path : String)
    (newcomponents : QVariantMap) (prefab : Ptr) (pf : Prefab)
    (hT : QMap.find w.prefabSystem.prefabs path = some prefab)
    (hpf : w.prefabHeap[prefab]? = some pf) :
    ∃ t1 t2,
      (PrefabSystem.updatePrefab w path newcomponents true).2.rt.trace
        = w.rt.trace ++ t1 ++ t2 ∧
      (∀ e ∈ t1, ∀ c i o, e ≠ Event.componentCreated c i o) ∧
      (∀ e ∈ t2, (∀ c i o, e ≠ Event.componentAboutToDestruct c i o) ∧
        ∀ o i v, e = Event.written o i v → w.rt.heap.length ≤ o) := by
  obtain ⟨w1, w2, h1, h2, hrt, _⟩ :=
    PrefabSystem.updatePrefab_propagate w path newcomponents prefab pf hT hpf
  obtain ⟨t1, e1, n1⟩ := h1.heap.trace
  obtain ⟨t2, e2, n2⟩ := h2.trace
  refine ⟨t1, t2, by rw [hrt, e2, e1], n1, ?_⟩
  intro e he
  refine ⟨(n2 e he).1, ?_⟩
  intro o i v hv
  have := (n2 e he).2 o i v hv
  rw [h1.heap.length_eq] at this
  exact this

/-- Witness of C15 (amended) on the instantiated scenario, with a new map that keeps
`A`, drops `B` and has nothing new. -/
theorem C15_removals_and_updates_before_additions_witness :
    QMap.find instanceWorld.prefabSystem.prefabs "T" = some 0 ∧
    instanceWorld.prefabHeap[0]? = some templateT ∧
    ∃ t1 t2,
      (PrefabSystem.updatePrefab instanceWorld "T"
          [("A", .map [("x", .int 5)])] true).2.rt.trace
        = instanceWorld.rt.trace ++ t1 ++ t2 ∧
      (∀ e ∈ t1, ∀ c i o, e ≠ Event.componentCreated c i o) ∧
      (∀ e ∈ t2, (∀ c i o, e ≠ Event.componentAboutToDestruct c i o) ∧
        ∀ o i v, e = Event.written o i v → instanceWorld.rt.heap.length ≤ o) :=
  ⟨by decide, by decide,
    C15_removals_and_updates_before_additions instanceWorld "T"
      [("A", .map [("x", .int 5)])] 0 templateT (by decide) (by decide)⟩

/-- Claim C16: when `updatePrefab` on a known template `T` returns normally, with or
without propagation, the template stored under `T` is the same object with its
component map replaced by the new one and its path and parameter names as before;
the table of templates and every other template are unchanged. -/
theorem C16_template_replaced (w : World) (path : String) (newcomponents : QVariantMap)
    (propagate : Bool) (prefab : Ptr) (pf : Prefab)
    (hT : QMap.find w.prefabSystem.prefabs path = some prefab)
    (hpf : w.prefabHeap[prefab]? = some pf)
    (hok : (PrefabSystem.updatePrefab w path newcomponents propagate).1 = .ok ()) :
    QMap.find (PrefabSystem.updatePrefab w path newcomponents propagate).2.prefabSystem.prefabs
        path = some prefab ∧
      (PrefabSystem.updatePrefab w path newcomponents propagate).2.prefabHeap[prefab]?
        = some { path := pf.path, components := newcomponents, parameters := pf.parameters } ∧
      (PrefabSystem.updatePrefab w path newcomponents propagate).2.prefabSystem.prefabs
        = w.prefabSystem.prefabs ∧
      ∀ q, q ≠ prefab →
        (PrefabSystem.updatePrefab w path newcomponents propagate).2.prefabHeap[q]?
          = w.prefabHeap[q]? := by
  have hlt : prefab < w.prefabHeap.length := by
    by_contra h
    rw [List.getElem?_eq_none (Nat.le_of_not_lt h)] at hpf
    cases hpf
  have key : ∀ w2 : World, w2.prefabSystem = w.prefabSystem → w2.prefabHeap = w.prefabHeap →
      QMap.find (w2.setComponents prefab newcomponents).prefabSystem.prefabs path
          = some prefab ∧
        (w2.setComponents prefab newcomponents).prefabHeap[prefab]?
          = some { path := pf.path, components := newcomponents,
                   parameters := pf.parameters } ∧
        (w2.setComponents prefab newcomponents).prefabSystem.prefabs
          = w.prefabSystem.prefabs ∧
        ∀ q, q ≠ prefab →
          (w2.setComponents prefab newcomponents).prefabHeap[q]? = w.prefabHeap[q]? := by
    intro w2 hs hh
    have hpf2 : w2.prefabHeap[prefab]? = some pf := by rw [hh]; exact hpf
    rw [PrefabSystem.setComponents_prefabSystem, PrefabSystem.setComponents_prefabHeap _ _ _ _ hpf2,
      hs, hh]
    refine ⟨hT, ?_, rfl, ?_⟩
    · rw [List.getElem?_set_self hlt]
    · intro q hq
      rw [List.getElem?_set_ne (fun e => hq e.symm)]
  cases propagate with
  | false =>
    have : PrefabSystem.updatePrefab w path newcomponents false
        = (.ok (), w.setComponents prefab newcomponents) := by
      simp [PrefabSystem.updatePrefab, hT]
    rw [this]
    exact key w rfl rfl
  | true =>
    obtain ⟨w1, w2, h1, h2, _, _, _, _, hfin⟩ :=
      PrefabSystem.updatePrefab_propagate w path newcomponents prefab pf hT hpf
    rw [(hfin hok).2.2]
    exact key w2 (h2.prefabSystem_eq.trans h1.prefabSystem_eq)
      (h2.prefabHeap_eq.trans h1.prefabHeap_eq)

/-- Witness of C16 on the instantiated scenario: the update to `{A: {x: 5}}` with
propagation returns normally. -/
theorem C16_template_replaced_witness :
    QMap.find instanceWorld.prefabSystem.prefabs "T" = some 0 ∧
    instanceWorld.prefabHeap[0]? = some templateT ∧
    (PrefabSystem.updatePrefab instanceWorld "T" [("A", .map [("x", .int 5)])] true).1
      = .ok () ∧
    (QMap.find (PrefabSystem.updatePrefab instanceWorld "T"
        [("A", .map [("x", .int 5)])] true).2.prefabSystem.prefabs "T" = some 0 ∧
      (PrefabSystem.updatePrefab instanceWorld "T"
          [("A", .map [("x", .int 5)])] true).2.prefabHeap[0]?
        = some { path := templateT.path, components := [("A", .map [("x", .int 5)])],
                 parameters := templateT.parameters } ∧
      (PrefabSystem.updatePrefab instanceWorld "T"
          [("A", .map [("x", .int 5)])] true).2.prefabSystem.prefabs
        = instanceWorld.prefabSystem.prefabs ∧
      ∀ q, q ≠ 0 →
        (PrefabSystem.updatePrefab instanceWorld "T"
            [("A", .map [("x", .int 5)])] true).2.prefabHeap[q]?
          = instanceWorld.prefabHeap[q]?) :=
  ⟨by decide, by decide, by decide,
    C16_template_replaced instanceWorld "T" [("A", .map [("x", .int 5)])] true 0 templateT
      (by decide) (by decide) (by decide)⟩

/-- Claim C17: `updatePrefab` on a known template without propagation returns and
changes the template record only: every component store, the instance store of the
`PrefabSystem`, the table of templates, the heap of objects and the trace are as
before the call. -/
theorem C17_no_propagation_changes_template_only (w : World) (path : String)
    (newcomponents : QVariantMap) (prefab : Ptr)
    (hT : QMap.find w.prefabSystem.prefabs path = some prefab) :
    PrefabSystem.updatePrefab w path newcomponents false
        = (.ok (), w.setComponents prefab newcomponents) ∧
      (PrefabSystem.updatePrefab w path newcomponents false).2.systems = w.systems ∧
      (PrefabSystem.updatePrefab w path newcomponents false).2.prefabSystem = w.prefabSystem ∧
      (PrefabSystem.updatePrefab w path newcomponents false).2.rt = w.rt := by
  have h : PrefabSystem.updatePrefab w path newcomponents false
      = (.ok (), w.setComponents prefab newcomponents) := by
    simp [PrefabSystem.updatePrefab, hT]
  rw [h]
  exact ⟨rfl, PrefabSystem.setComponents_systems _ _ _,
    PrefabSystem.setComponents_prefabSystem _ _ _, PrefabSystem.setComponents_rt _ _ _⟩

/-- Witness of C17 on the instantiated scenario: the update to `{A: {x: 5}}` without
propagation. -/
theorem C17_no_propagation_changes_template_only_witness :
    QMap.find instanceWorld.prefabSystem.prefabs "T" = some 0 ∧
    (PrefabSystem.updatePrefab instanceWorld "T" [("A", .map [("x", .int 5)])] false
        = (.ok (), instanceWorld.setComponents 0 [("A", .map [("x", .int 5)])]) ∧
      (PrefabSystem.updatePrefab instanceWorld "T"
          [("A", .map [("x", .int 5)])] false).2.systems = instanceWorld.systems ∧
      (PrefabSystem.updatePrefab instanceWorld "T"
          [("A", .map [("x", .int 5)])] false).2.prefabSystem = instanceWorld.prefabSystem ∧
      (PrefabSystem.updatePrefab instanceWorld "T"
          [("A", .map [("x", .int 5)])] false).2.rt = instanceWorld.rt) :=
  ⟨by decide,
    C17_no_propagation_changes_template_only instanceWorld "T" [("A", .map [("x", .int 5)])] 0
      (by decide)⟩

/-- Claim C20: after `addPrefab(name, c, p)` the template registered under `name` has
the path `name`, the component map `c` and the parameter names `p`, whether or not
`name` was registered before (nothing of an earlier template is merged in); every
other name is bound as before, to a template that is unchanged. -/
theorem C20_addPrefab_registers (w : World) (name : String) (c : QVariantMap)
    (p : List String) :
    QMap.find (PrefabSystem.addPrefab w name c p).prefabSystem.prefabs name
        = some w.prefabHeap.length ∧
      (PrefabSystem.addPrefab w name c p).prefabHeap[w.prefabHeap.length]?
        = some { path := name, components := c, parameters := p } ∧
      ∀ other, other ≠ name →
        QMap.find (PrefabSystem.addPrefab w name c p).prefabSystem.prefabs other
          = QMap.find w.prefabSystem.prefabs other ∧
        ∀ q pf, QMap.find w.prefabSystem.prefabs other = some q →
          w.prefabHeap[q]? = some pf →
          (PrefabSystem.addPrefab w name c p).prefabHeap[q]? = some pf := by
  refine ⟨QMap.find_insert_self _ _ _, by simp [PrefabSystem.addPrefab], ?_⟩
  intro other hne
  refine ⟨QMap.find_insert_ne _ _ _ _ hne, ?_⟩
  intro q pf _ hq
  have hlt : q < w.prefabHeap.length := by
    by_contra h
    rw [List.getElem?_eq_none (Nat.le_of_not_lt h)] at hq
    cases hq
  simp only [PrefabSystem.addPrefab]
  rw [List.getElem?_append_left hlt]
  exact hq

/-! ## Facts about the representation invariant of the world -/

namespace QMap

theorem find_none_of_sublist {κ ν : Type} [DecidableEq κ] (m m' : QMap κ ν) (k : κ)
    (hs : List.Sublist m' m) (h : find m k = none) : find m' k = none := by
  rw [find_eq_none_iff] at h ⊢
  intro hmem
  exact h ((List.Sublist.map Prod.fst hs).subset hmem)

theorem find_inj_of_values_nodup {κ ν : Type} [DecidableEq κ] (m : QMap κ ν) (k k' : κ) (v : ν)
    (hv : (values m).Nodup) (h : find m k = some v) (h' : find m k' = some v) : k = k' := by
  induction m with
  | nil => simp [find] at h
  | cons hd tl ih =>
    obtain ⟨a, b⟩ := hd
    simp only [values, List.map_cons, List.nodup_cons] at hv
    by_cases h1 : a = k
    · by_cases h2 : a = k'
      · exact h1.symm.trans h2
      · simp only [find, h1, if_true, Option.some.injEq] at h
        simp only [find, h2, if_false] at h'
        exact absurd (List.mem_map.mpr ⟨(k', v), mem_of_find tl k' v h', rfl⟩) (h ▸ hv.1)
    · by_cases h2 : a = k'
      · simp only [find, h2, if_true, Option.some.injEq] at h'
        simp only [find, h1, if_false] at h
        exact absurd (List.mem_map.mpr ⟨(k, v), mem_of_find tl k v h, rfl⟩) (h' ▸ hv.1)
      · simp only [find, h1, if_false] at h
        simp only [find, h2, if_false] at h'
        exact ih hv.2 h h'

end QMap

namespace World

theorem values_sublist_storePointers (systems : QMap String SimpleEntitySystem) (name : String)
    (es : SimpleEntitySystem) (h : QMap.find systems name = some es) :
    List.Sublist (QMap.values es.components) (storePointers systems) := by
  induction systems with
  | nil => simp [QMap.find] at h
  | cons hd tl ih =>
    obtain ⟨n, e⟩ := hd
    by_cases hn : n = name
    · simp only [QMap.find, hn, if_true, Option.some.injEq] at h
      subst h
      exact List.sublist_append_left _ _
    · simp only [QMap.find, hn, if_false] at h
      exact (ih h).trans (List.sublist_append_right _ _)

theorem disjoint_stores (systems : QMap String SimpleEntitySystem) (n1 n2 : String)
    (e1 e2 : SimpleEntitySystem) (p : Ptr) (hnd : (storePointers systems).Nodup)
    (h1 : QMap.find systems n1 = some e1) (h2 : QMap.find systems n2 = some e2)
    (hne : n1 ≠ n2) (hp : p ∈ QMap.values e1.components) : p ∉ QMap.values e2.components := by
  induction systems with
  | nil => simp [QMap.find] at h1
  | cons hd tl ih =>
    obtain ⟨n, e⟩ := hd
    simp only [storePointers] at hnd
    obtain ⟨_, hnt, hdis⟩ := List.nodup_append.mp hnd
    by_cases ha : n = n1
    · have hb : ¬ n = n2 := fun e => hne (ha.symm.trans e)
      simp only [QMap.find, ha, if_true, Option.some.injEq] at h1
      simp only [QMap.find, hb, if_false] at h2
      subst h1
      intro hp2
      exact hdis hp ((values_sublist_storePointers tl n2 e2 h2).subset hp2)
    · simp only [QMap.find, ha, if_false] at h1
      by_cases hb : n = n2
      · simp only [QMap.find, hb, if_true, Option.some.injEq] at h2
        subst h2
        intro hp2
        exact hdis hp2 ((values_sublist_storePointers tl n1 e1 h1).subset hp)
      · simp only [QMap.find, hb, if_false] at h2
        exact ih hnt h1 h2

theorem WF.values_nodup {w : World} (hwf : w.WF) (name : String) (es : SimpleEntitySystem)
    (h : w.getSystemByComponentClassName name = some es) :
    (QMap.values es.components).Nodup :=
  (values_sublist_storePointers w.systems name es h).nodup
    (List.nodup_append.mp hwf.pointers_nodup).1

theorem WF.store_keys_nodup {w : World} (hwf : w.WF) (name : String) (es : SimpleEntitySystem)
    (h : w.getSystemByComponentClassName name = some es) :
    (QMap.keys es.components).Nodup :=
  hwf.keys_nodup (name, es) (QMap.mem_of_find w.systems name es h)

theorem WF.disjoint_instances {w : World} (hwf : w.WF) (id : EntityId) (pi : Ptr)
    (hm : (id, pi) ∈ w.prefabSystem.base.components) (name : String) (es : SimpleEntitySystem)
    (h : w.getSystemByComponentClassName name = some es) :
    pi ∉ QMap.values es.components := by
  intro hp
  have h1 : pi ∈ storePointers w.systems :=
    (values_sublist_storePointers w.systems name es h).subset hp
  have h2 : pi ∈ QMap.values w.prefabSystem.base.components :=
    List.mem_map.mpr ⟨(id, pi), hm, rfl⟩
  exact (List.nodup_append.mp hwf.pointers_nodup).2.2 h1 h2

theorem WF.live {w : World} (hwf : w.WF) (p : Ptr)
    (hp : p ∈ storePointers w.systems ++ QMap.values w.prefabSystem.base.components) :
    ∃ o, w.rt.read p = some o ∧ o.values.length = o.metaObject.properties.length := by
  have := hwf.typed p hp
  cases hr : w.rt.read p with
  | none => simp [hr] at this
  | some o =>
    refine ⟨o, rfl, ?_⟩
    simpa [hr] using this

/-- Objects that are no component of any store stay so while stores only shrink. -/
theorem ShrinksOn.disjoint {ps : List String} {P : String → Prop} {w w1 : World}
    (h : ShrinksOn ps P w w1) (p : Ptr)
    (hp : ∀ name es, w.getSystemByComponentClassName name = some es →
      p ∉ QMap.values es.components) :
    ∀ name es1, w1.getSystemByComponentClassName name = some es1 →
      p ∉ QMap.values es1.components := by
  intro name es1 hs1
  cases hs : w.getSystemByComponentClassName name with
  | none =>
    rw [h.unregistered name hs] at hs1
    cases hs1
  | some es =>
    obtain ⟨es1', g1, _, s1⟩ := h.stores name es hs
    rw [g1] at hs1
    cases hs1
    intro hmem
    exact hp name es hs ((List.Sublist.map Prod.snd s1).subset hmem)

/-- The first loop of `updatePrefab` leaves an object alone that is no component of
any store. -/
theorem ShrinksOn.read_outside {ps : List String} {P : String → Prop} {w w1 : World}
    (h : ShrinksOn ps P w w1) (p : Ptr)
    (hp : ∀ name es, w.getSystemByComponentClassName name = some es →
      p ∉ QMap.values es.components) : w1.rt.read p = w.rt.read p :=
  h.frame p (fun name es _ hs => hp name es hs)

end World

/-! ## Facts about the additions of `updatePrefab` -/

namespace PrefabSystem

/-- The addition loop for the class `cls`, when it returns: every instance of the
prefab in the walked list has a component in the store of `cls`, built from `vals`. -/
theorem createOnInstances_ok_effect (cls : String) (prefab : Ptr) (vals : QVariantMap)
    (instances : List (EntityId × Ptr)) :
    ∀ (w w' : World) (es : SimpleEntitySystem),
      createOnInstances cls prefab vals instances w = (.ok (), w') →
      w.getSystemByComponentClassName cls = some es →
      ∀ id pi, (id, pi) ∈ instances → (w.rt.read pi).bind QObject.prefab = some prefab →
        ∃ es' c, w'.getSystemByComponentClassName cls = some es' ∧
          es'.getComponent id = some c ∧
          w'.rt.read c = some
            { metaObject := es.componentMetaObject,
              values := es.componentMetaObject.properties.map (fun q => q.valueAfter vals),
              prefab := none } := by
  induction instances with
  | nil => intro w w' es _ _ id pi hm; exact absurd hm (List.not_mem_nil _)
  | cons hd rest ih =>
    obtain ⟨id0, pi0⟩ := hd
    intro w w' es hres hs id pi hm hmatch
    cases hm0 : (w.rt.read pi0).bind QObject.prefab with
    | none => simp [createOnInstances, hm0] at hres
    | some q =>
      by_cases hq : q = prefab
      · cases hcr : es.createComponent w.rt id0 vals with
        | mk o rest2 =>
          obtain ⟨s1, rt1⟩ := rest2
          cases o with
          | thrown e =>
            simp [createOnInstances, hm0, hq, hs, World.createComponentIn, hcr] at hres
          | crash =>
            simp [createOnInstances, hm0, hq, hs, World.createComponentIn, hcr] at hres
          | ok h =>
            obtain ⟨habs, hctor⟩ :=
              SimpleEntitySystem.createComponent_ok_inv es s1 w.rt rt1 id0 vals h hcr
            obtain ⟨rt2, h0, hb, hlen, hframe⟩ :=
              SimpleEntitySystem.createComponent_fresh es w.rt id0 vals habs hctor
            rw [h0] at hcr
            simp only [Prod.mk.injEq, Outcome.ok.injEq] at hcr
            obtain ⟨hh, hs1, hrt1⟩ := hcr
            subst hh hs1 hrt1
            simp only [createOnInstances, hm0, hq, if_true, hs, World.createComponentIn, h0]
              at hres
            have hgrow := grows_createOnInstances cls prefab vals rest
              { w with
                systems := QMap.replace w.systems cls
                  { es with components := QMap.insert es.components id0 w.rt.heap.length },
                rt := rt2 }
            rw [hres] at hgrow
            have hs1 : World.getSystemByComponentClassName
                { w with
                  systems := QMap.replace w.systems cls
                    { es with components := QMap.insert es.components id0 w.rt.heap.length },
                  rt := rt2 } cls
                = some { es with components := QMap.insert es.components id0 w.rt.heap.length } :=
              QMap.find_replace_self _ _ _ _ hs
            rcases List.mem_cons.mp hm with he | hm'
            · cases he
              obtain ⟨es', g1, _, g3⟩ := hgrow.stores cls _ hs1
              refine ⟨es', w.rt.heap.length, g1, g3 id0 w.rt.heap.length
                (QMap.find_insert_self _ _ _), ?_⟩
              rw [hgrow.frame _ (by simp only [hlen]; omega)]
              exact hb
            · have hlive : pi < w.rt.heap.length := by
                cases hr : w.rt.read pi with
                | none => simp [hr] at hmatch
                | some o => exact Runtime.read_lt _ _ _ hr
              have hmatch1 : (rt2.read pi).bind QObject.prefab = some prefab := by
                rw [hframe pi (Nat.ne_of_lt hlive)]
                exact hmatch
              exact ih _ w' _ hres hs1 id pi hm' hmatch1
      · simp only [createOnInstances, hm0, hq, if_false] at hres
        rcases List.mem_cons.mp hm with he | hm'
        · cases he
          rw [hm0] at hmatch
          cases hmatch
          exact absurd rfl hq
        · exact ih w w' es hres hs id pi hm' hmatch

/-- The second loop of `updatePrefab`, when it returns: for every entry of the new map
whose class is not in the old map and has a registered store, every instance of the
prefab has a component in that store, built from the entry. -/
theorem addMissing_ok_effect (prefab : Ptr) (old : QVariantMap)
    (instances : List (EntityId × Ptr)) (newcomponents : QVariantMap) :
    ∀ (w w' : World) (es : SimpleEntitySystem),
      addMissing prefab old instances newcomponents w = (.ok (), w') →
      ∀ cls val, (cls, val) ∈ newcomponents → QMap.find old cls = none →
      w.getSystemByComponentClassName cls = some es →
      ∀ id pi, (id, pi) ∈ instances → (w.rt.read pi).bind QObject.prefab = some prefab →
        ∃ es' c, w'.getSystemByComponentClassName cls = some es' ∧
          es'.getComponent id = some c ∧ w'.rt.read c = some (builtObject es val) := by
  induction newcomponents with
  | nil => intro w w' es _ cls val hm; exact absurd hm (List.not_mem_nil _)
  | cons hd rest ih =>
    obtain ⟨key, v⟩ := hd
    intro w w' es hres cls val hm hold hs id pi hmi hmatch
    have hlive : pi < w.rt.heap.length := by
      cases hr : w.rt.read pi with
      | none => simp [hr] at hmatch
      | some o => exact Runtime.read_lt _ _ _ hr
    cases hf : QMap.find old key with
    | some x =>
      simp only [addMissing, hf] at hres
      rcases List.mem_cons.mp hm with he | hm'
      · cases he
        rw [hf] at hold
        cases hold
      · exact ih w w' es hres cls val hm' hold hs id pi hmi hmatch
    | none =>
      cases hs0 : w.getSystemByComponentClassName key with
      | none =>
        simp only [addMissing, hf, hs0] at hres
        rcases List.mem_cons.mp hm with he | hm'
        · cases he
          rw [hs0] at hs
          cases hs
        · exact ih w w' es hres cls val hm' hold hs id pi hmi hmatch
      | some es0 =>
        have hstep := grows_createOnInstances key prefab v.toMap instances w
        cases hr : createOnInstances key prefab v.toMap instances w with
        | mk o w1 =>
          rw [hr] at hstep
          cases o with
          | thrown e => simp [addMissing, hf, hs0, hr] at hres
          | crash => simp [addMissing, hf, hs0, hr] at hres
          | ok u =>
            simp only [addMissing, hf, hs0, hr] at hres
            have hgrow := grows_addMissing prefab old instances rest w1
            rw [hres] at hgrow
            rcases List.mem_cons.mp hm with he | hm'
            · cases he
              rw [hs0] at hs
              cases hs
              obtain ⟨es1, c, g1, g2, g3⟩ :=
                createOnInstances_ok_effect key prefab v.toMap instances w w1 es hr hs0
                  id pi hmi hmatch
              obtain ⟨es', k1, _, k3⟩ := hgrow.stores key es1 g1
              refine ⟨es', c, k1, k3 id c g2, ?_⟩
              rw [hgrow.frame c (Runtime.read_lt _ _ _ g3)]
              exact g3
            · obtain ⟨es1, g1, gm, _⟩ := hstep.stores cls es hs
              have hmatch1 : (w1.rt.read pi).bind QObject.prefab = some prefab := by
                rw [hstep.frame pi hlive]
                exact hmatch
              obtain ⟨es', c, k1, k2, k3⟩ :=
                ih w1 w' es1 hres cls val hm' hold g1 id pi hmi hmatch1
              refine ⟨es', c, k1, k2, ?_⟩
              rw [k3]
              simp only [builtObject, gm]

end PrefabSystem

/-- Claim C14: after a propagating `updatePrefab` on a known template has returned,
for every component type that is in the new map and not in the old one and whose
store is registered, every entity holding a live `PrefabInstance` that references
the template has a component in that store, built from the property map the new map
gives for the type. -/
theorem C14_added_types_are_created (w : World) (path : String) (newcomponents : QVariantMap)
    (prefab : Ptr) (pf : Prefab) (cls : String) (val : QVariant) (es : SimpleEntitySystem)
    (id : EntityId) (pi : Ptr)
    (hwf : w.WF)
    (hT : QMap.find w.prefabSystem.prefabs path = some prefab)
    (hpf : w.prefabHeap[prefab]? = some pf)
    (hok : (PrefabSystem.updatePrefab w path newcomponents true).1 = .ok ())
    (hnew : (cls, val) ∈ newcomponents)
    (hold : QMap.find pf.components cls = none)
    (hreg : w.getSystemByComponentClassName cls = some es)
    (hinst : (id, pi) ∈
      (PrefabSystem.updatePrefab w path newcomponents true).2.prefabSystem.base.components)
    (href : ((PrefabSystem.updatePrefab w path newcomponents true).2.rt.read pi).bind
      QObject.prefab = some prefab) :
    ∃ es' c,
      (PrefabSystem.updatePrefab w path newcomponents true).2.getSystemByComponentClassName cls
        = some es' ∧
      es'.getComponent id = some c ∧
      (PrefabSystem.updatePrefab w path newcomponents true).2.rt.read c
        = some (PrefabSystem.builtObject es val) := by
  obtain ⟨w1, w2, h1, h2, hrt, hsys, hps, _, hfin⟩ :=
    PrefabSystem.updatePrefab_propagate w path newcomponents prefab pf hT hpf
  obtain ⟨_, hadd, _⟩ := hfin hok
  have hbase : w.prefabSystem.base.components = w1.prefabSystem.base.components := by
    rw [h1.prefabSystem_eq]
  rw [hps, h2.prefabSystem_eq, h1.prefabSystem_eq] at hinst
  have hdis := hwf.disjoint_instances id pi hinst
  obtain ⟨o, hlive, _⟩ := hwf.live pi
    (List.mem_append_right _ (List.mem_map.mpr ⟨(id, pi), hinst, rfl⟩))
  have hr1 : w1.rt.read pi = w.rt.read pi := h1.read_outside pi hdis
  have hlt : pi < w1.rt.heap.length := by
    rw [h1.heap.length_eq]
    exact Runtime.read_lt _ _ _ hlive
  rw [hrt, h2.frame pi hlt] at href
  have hs1 : w1.getSystemByComponentClassName cls = some es := by
    rw [h1.others cls (fun hmem => (QMap.find_eq_none_iff _ _).mp hold hmem)]
    exact hreg
  obtain ⟨es', c, g1, g2, g3⟩ :=
    PrefabSystem.addMissing_ok_effect prefab pf.components w.prefabSystem.base.components
      newcomponents w1 w2 es hadd cls val hnew hold hs1 id pi hinst href
  refine ⟨es', c, ?_, g2, ?_⟩
  · show QMap.find (PrefabSystem.updatePrefab w path newcomponents true).2.systems cls = _
    rw [hsys]
    exact g1
  · rw [hrt]
    exact g3

/-- Witness of C14: the template declares `A` only and the new map adds
`B: {y: 5}`; entity 1, an instance, gains a `B` component with `y` 5. -/
theorem C14_added_types_are_created_witness :
    singleWorld.WF ∧
    QMap.find singleWorld.prefabSystem.prefabs "T" = some 0 ∧
    singleWorld.prefabHeap[0]?
      = some { path := "T", components := [("A", .map [("x", .int 1)])], parameters := [] } ∧
    (PrefabSystem.updatePrefab singleWorld "T"
      [("A", .map [("x", .int 1)]), ("B", .map [("y", .int 5)])] true).1 = .ok () ∧
    singleWorld.getSystemByComponentClassName "B"
      = some { componentMetaObject := metaB, components := [] } ∧
    ∃ es' c,
      (PrefabSystem.updatePrefab singleWorld "T"
        [("A", .map [("x", .int 1)]), ("B", .map [("y", .int 5)])]
        true).2.getSystemByComponentClassName "B" = some es' ∧
      es'.getComponent 1 = some c ∧
      (PrefabSystem.updatePrefab singleWorld "T"
        [("A", .map [("x", .int 1)]), ("B", .map [("y", .int 5)])] true).2.rt.read c
        = some (PrefabSystem.builtObject { componentMetaObject := metaB, components := [] }
            (.map [("y", .int 5)])) :=
  ⟨⟨by decide, by decide, by decide, by decide, by decide⟩, by decide, by decide, by decide,
    by decide,
    C14_added_types_are_created singleWorld "T"
      [("A", .map [("x", .int 1)]), ("B", .map [("y", .int 5)])] 0
      { path := "T", components := [("A", .map [("x", .int 1)])], parameters := [] }
      "B" (.map [("y", .int 5)]) { componentMetaObject := metaB, components := [] } 1 1
      ⟨by decide, by decide, by decide, by decide, by decide⟩ (by decide) (by decide)
      (by decide) (by decide) (by decide) (by decide) (by decide) (by decide)⟩

/-! ## Facts about the removals of `updatePrefab` -/

namespace PrefabSystem

/-- The removal loop for the class `cls`, when it returns: no instance of the prefab
in the walked list has a component in the store of `cls` any more. -/
theorem destroyOnInstances_ok_effect (ps : List String) (cls : String) (prefab : Ptr)
    (instances : List (EntityId × Ptr)) :
    ∀ (w w' : World) (es : SimpleEntitySystem),
      destroyOnInstances cls prefab instances w = (.ok (), w') →
      w.getSystemByComponentClassName cls = some es →
      (QMap.keys es.components).Nodup →
      (∀ id pi, (id, pi) ∈ instances → pi ∉ QMap.values es.components) →
      ∀ id pi, (id, pi) ∈ instances → (w.rt.read pi).bind QObject.prefab = some prefab →
        ∃ es', w'.getSystemByComponentClassName cls = some es' ∧
          es'.getComponent id = none := by
  induction instances with
  | nil => intro w w' es _ _ _ _ id pi hm; exact absurd hm (List.not_mem_nil _)
  | cons hd rest ih =>
    obtain ⟨id0, pi0⟩ := hd
    intro w w' es hres hs hk hdis id pi hm hmatch
    cases hm0 : (w.rt.read pi0).bind QObject.prefab with
    | none => simp [destroyOnInstances, hm0] at hres
    | some q =>
      by_cases hq : q = prefab
      · simp only [destroyOnInstances, hm0, hq, if_true, hs] at hres
        have hstep := World.shrinks_destroyComponentIn ps w cls es id0 hs
        have hrest := shrinks_destroyOnInstances ps cls prefab rest
          (w.destroyComponentIn cls es id0).2
        rw [hres] at hrest
        obtain ⟨es1, g1, _, gsub⟩ := hstep.stores cls es hs
        have hk1 : (QMap.keys es1.components).Nodup :=
          (List.Sublist.map Prod.fst gsub).nodup hk
        have hdis1 : ∀ id pi, (id, pi) ∈ rest → pi ∉ QMap.values es1.components :=
          fun i p hmem hp => hdis i p (List.mem_cons_of_mem _ hmem)
            ((List.Sublist.map Prod.snd gsub).subset hp)
        rcases List.mem_cons.mp hm with he | hm'
        · cases he
          have habs : es1.getComponent id0 = none := by
            have hes1 : es1 = (es.destroyComponent w.rt id0).2.1 := by
              have : (w.destroyComponentIn cls es id0).2.getSystemByComponentClassName cls
                  = some (es.destroyComponent w.rt id0).2.1 :=
                QMap.find_replace_self _ _ _ _ hs
              rw [g1] at this
              exact Option.some.inj this
            rw [hes1]
            cases hg : es.getComponent id0 with
            | none =>
              rw [SimpleEntitySystem.destroyComponent_absent es w.rt id0 hg]
              exact hg
            | some obj =>
              rw [SimpleEntitySystem.destroyComponent_live es w.rt id0 obj hg]
              exact QMap.find_erase_self es.components id0 hk
          obtain ⟨es', k1, _, ksub⟩ := hrest.stores cls es1 g1
          exact ⟨es', k1, QMap.find_none_of_sublist _ _ _ ksub habs⟩
        · have hmatch1 : ((w.destroyComponentIn cls es id0).2.rt.read pi).bind QObject.prefab
              = some prefab := by
            rw [hstep.frame pi (fun name es0 hn hs0 => by
              subst hn
              rw [hs] at hs0
              cases hs0
              exact hdis id pi hm)]
            exact hmatch
          exact ih _ w' es1 hres g1 hk1 hdis1 id pi hm' hmatch1
      · simp only [destroyOnInstances, hm0, hq, if_false] at hres
        rcases List.mem_cons.mp hm with he | hm'
        · cases he
          rw [hm0] at hmatch
          cases hmatch
          exact absurd rfl hq
        · exact ih w w' es hres hs hk
            (fun i p hmem => hdis i p (List.mem_cons_of_mem _ hmem)) id pi hm' hmatch

/-- The first loop of `updatePrefab`, when it returns: for a class of the old map that
the new map does not name and whose store is registered, no instance of the prefab
has a component in that store any more. -/
theorem updateExisting_removed (prefab : Ptr) (ps : List String) (newcomponents : QVariantMap)
    (instances : List (EntityId × Ptr)) (old : QVariantMap) :
    ∀ (w w' : World) (es : SimpleEntitySystem),
      updateExisting prefab ps newcomponents instances old w = (.ok (), w') →
      ∀ cls, cls ∈ QMap.keys old → QMap.find newcomponents cls = none →
      w.getSystemByComponentClassName cls = some es →
      (QMap.keys es.components).Nodup →
      (∀ id pi, (id, pi) ∈ instances → ∀ name es0,
        w.getSystemByComponentClassName name = some es0 → pi ∉ QMap.values es0.components) →
      ∀ id pi, (id, pi) ∈ instances → (w.rt.read pi).bind QObject.prefab = some prefab →
        ∃ es', w'.getSystemByComponentClassName cls = some es' ∧
          es'.getComponent id = none := by
  induction old with
  | nil => intro w w' es _ cls hm; exact absurd hm (List.not_mem_nil _)
  | cons hd rest ih =>
    obtain ⟨key, v⟩ := hd
    intro w w' es hres cls hcls hnew hs hk hdis id pi hm hmatch
    cases hs0 : w.getSystemByComponentClassName key with
    | none =>
      simp only [updateExisting, hs0] at hres
      rcases List.mem_cons.mp hcls with he | hcls'
      · subst he
        rw [hs0] at hs
        cases hs
      · exact ih w w' es hres cls hcls' hnew hs hk hdis id pi hm hmatch
    | some es0 =>
      by_cases hkey : cls = key
      · subst hkey
        simp only [updateExisting, hs0, hnew] at hres
        cases hr : destroyOnInstances cls prefab instances w with
        | mk o w1 =>
          cases o with
          | thrown e => simp [hr] at hres
          | crash => simp [hr] at hres
          | ok u =>
            simp only [hr] at hres
            obtain ⟨es1, g1, g2⟩ :=
              destroyOnInstances_ok_effect ps cls prefab instances w w1 es hr hs hk
                (fun i p hmem => hdis i p hmem cls es hs) id pi hm hmatch
            have hrest := shrinks_updateExisting prefab ps newcomponents instances rest w1
            rw [hres] at hrest
            obtain ⟨es', k1, _, ksub⟩ := hrest.stores cls es1 g1
            exact ⟨es', k1, QMap.find_none_of_sublist _ _ _ ksub g2⟩
      · have hcls' : cls ∈ QMap.keys rest := by
          rcases List.mem_cons.mp hcls with he | h
          · exact absurd he hkey
          · exact h
        have hfinish : ∀ (o : Outcome Unit) (w1 : World),
            World.ShrinksOn ps (fun n => n = key) w w1 →
            updateExisting prefab ps newcomponents instances rest w1 = (.ok (), w') →
            ∃ es', w'.getSystemByComponentClassName cls = some es' ∧
              es'.getComponent id = none := by
          intro _ w1 hstep hres1
          have hs1 : w1.getSystemByComponentClassName cls = some es := by
            rw [hstep.others cls hkey]
            exact hs
          have hdis1 : ∀ id pi, (id, pi) ∈ instances → ∀ name es1,
              w1.getSystemByComponentClassName name = some es1 →
              pi ∉ QMap.values es1.components :=
            fun i p hmem => hstep.disjoint p (hdis i p hmem)
          have hmatch1 : (w1.rt.read pi).bind QObject.prefab = some prefab := by
            rw [hstep.read_outside pi (hdis id pi hm)]
            exact hmatch
          exact ih w1 w' es hres1 cls hcls' hnew hs1 hk hdis1 id pi hm hmatch1
        cases hf : QMap.find newcomponents key with
        | none =>
          have hstep := shrinks_destroyOnInstances ps key prefab instances w
          cases hr : destroyOnInstances key prefab instances w with
          | mk o w1 =>
            rw [hr] at hstep
            cases o with
            | thrown e => simp [updateExisting, hs0, hf, hr] at hres
            | crash => simp [updateExisting, hs0, hf, hr] at hres
            | ok u =>
              simp only [updateExisting, hs0, hf, hr] at hres
              exact hfinish (.ok u) w1 hstep hres
        | some newval =>
          have hstep := shrinks_updateOnInstances ps key prefab newval.toMap instances w
          cases hr : updateOnInstances key prefab ps newval.toMap instances w with
          | mk o w1 =>
            rw [hr] at hstep
            cases o with
            | thrown e => simp [updateExisting, hs0, hf, hr] at hres
            | crash => simp [updateExisting, hs0, hf, hr] at hres
            | ok u =>
              simp only [updateExisting, hs0, hf, hr] at hres
              exact hfinish (.ok u) w1 hstep hres

end PrefabSystem

/-- Claim C11: after a propagating `updatePrefab` on a known template has returned,
for every component type that is in the old component map and not in the new one
and whose store is registered, no entity holding a live `PrefabInstance` that
references the template has a component in that store any more. -/
theorem C11_removed_types_are_destroyed (w : World) (path : String)
    (newcomponents : QVariantMap) (prefab : Ptr) (pf : Prefab) (cls : String)
    (es : SimpleEntitySystem) (id : EntityId) (pi : Ptr)
    (hwf : w.WF)
    (hT : QMap.find w.prefabSystem.prefabs path = some prefab)
    (hpf : w.prefabHeap[prefab]? = some pf)
    (hok : (PrefabSystem.updatePrefab w path newcomponents true).1 = .ok ())
    (hold : cls ∈ QMap.keys pf.components)
    (hnew : QMap.find newcomponents cls = none)
    (hreg : w.getSystemByComponentClassName cls = some es)
    (hinst : (id, pi) ∈
      (PrefabSystem.updatePrefab w path newcomponents true).2.prefabSystem.base.components)
    (href : ((PrefabSystem.updatePrefab w path newcomponents true).2.rt.read pi).bind
      QObject.prefab = some prefab) :
    ∃ es',
      (PrefabSystem.updatePrefab w path newcomponents true).2.getSystemByComponentClassName cls
        = some es' ∧
      es'.getComponent id = none := by
  obtain ⟨w1, w2, h1, h2, hrt, hsys, hps, _, hfin⟩ :=
    PrefabSystem.updatePrefab_propagate w path newcomponents prefab pf hT hpf
  obtain ⟨hupd, _, _⟩ := hfin hok
  rw [hps, h2.prefabSystem_eq, h1.prefabSystem_eq] at hinst
  have hdis := hwf.disjoint_instances id pi hinst
  obtain ⟨o, hlive, _⟩ := hwf.live pi
    (List.mem_append_right _ (List.mem_map.mpr ⟨(id, pi), hinst, rfl⟩))
  have hlt : pi < w1.rt.heap.length := by
    rw [h1.heap.length_eq]
    exact Runtime.read_lt _ _ _ hlive
  rw [hrt, h2.frame pi hlt, h1.read_outside pi hdis] at href
  obtain ⟨es1, g1, g2⟩ :=
    PrefabSystem.updateExisting_removed prefab pf.parameters newcomponents
      w.prefabSystem.base.components pf.components w w1 es hupd cls hold hnew hreg
      (hwf.store_keys_nodup cls es hreg)
      (fun i p hmem => hwf.disjoint_instances i p hmem) id pi hinst href
  refine ⟨es1, ?_, g2⟩
  show QMap.find (PrefabSystem.updatePrefab w path newcomponents true).2.systems cls = _
  rw [hsys]
  have : w2.getSystemByComponentClassName cls = w1.getSystemByComponentClassName cls :=
    h2.others cls (fun hn => by
      have := (QMap.find_eq_none_iff pf.components cls).mp hn.2
      exact this hold)
  exact this.trans g1

/-- Witness of C11: the template declares `A` and `B`, the new map keeps `A` only;
the `B` component of entity 1 is destroyed. -/
theorem C11_removed_types_are_destroyed_witness :
    instanceWorld.WF ∧
    QMap.find instanceWorld.prefabSystem.prefabs "T" = some 0 ∧
    instanceWorld.prefabHeap[0]? = some templateT ∧
    (PrefabSystem.updatePrefab instanceWorld "T" [("A", .map [("x", .int 1)])] true).1
      = .ok () ∧
    instanceWorld.getSystemByComponentClassName "B"
      = some { componentMetaObject := metaB, components := [(1, 1)] } ∧
    ∃ es',
      (PrefabSystem.updatePrefab instanceWorld "T"
        [("A", .map [("x", .int 1)])] true).2.getSystemByComponentClassName "B" = some es' ∧
      es'.getComponent 1 = none :=
  ⟨⟨by decide, by decide, by decide, by decide, by decide⟩, by decide, by decide, by decide,
    by decide,
    C11_removed_types_are_destroyed instanceWorld "T" [("A", .map [("x", .int 1)])] 0 templateT
      "B" { componentMetaObject := metaB, components := [(1, 1)] } 1 2
      ⟨by decide, by decide, by decide, by decide, by decide⟩ (by decide) (by decide)
      (by decide) (by decide) (by decide) (by decide) (by decide) (by decide)⟩

/-! ## Facts about the field updates of `updatePrefab` -/

namespace PrefabSystem

/-- What the innermost loop of `updatePrefab` leaves in the component it runs on: the
values before index `i` are kept and every later property holds what
`fieldAfterUpdate` computes from its value. -/
theorem updateProperties_spec (ps : List String) (newvals : QVariantMap) (c : Ptr)
    (props : List QMetaProperty) :
    ∀ (i : Nat) (rt : Runtime) (o : QObject) (pre suf : List QVariant),
      rt.read c = some o → o.values = pre ++ suf → pre.length = i →
      suf.length = props.length →
      (updateProperties ps newvals c props i rt).read c
        = some { o with
            values := pre ++ List.zipWith (fieldAfterUpdate ps newvals) props suf } := by
  induction props with
  | nil =>
    intro i rt o pre suf hr hv _ hl
    have : suf = [] := List.length_eq_zero.mp hl
    subst this
    simp only [updateProperties, List.zipWith_nil_left, List.append_nil] at hv ⊢
    rw [hr, ← hv]
  | cons prop rest ih =>
    intro i rt o pre suf hr hv hi hl
    cases suf with
    | nil => simp at hl
    | cons v suf' =>
      have hl' : suf'.length = rest.length := by simpa using hl
      have hget : (pre ++ v :: suf')[pre.length]? = some v := by
        rw [List.getElem?_append_right (Nat.le_refl _)]
        simp
      have hcur : rt.readProperty c i = v := by
        simp only [Runtime.readProperty, hr, hv, ← hi, hget]
        rfl
      have hkeep : ∀ (rt1 : Runtime), rt1.read c = some o →
          (updateProperties ps newvals c rest (i + 1) rt1).read c
            = some { o with
                values := pre ++ v :: List.zipWith (fieldAfterUpdate ps newvals) rest suf' } := by
        intro rt1 hr1
        have := ih (i + 1) rt1 o (pre ++ [v]) suf' hr1 (by simp [hv]) (by simp [hi]) hl'
        simpa using this
      by_cases hex : (ps.contains prop.name || decide (prop.name = "objectName")) = true
      · have hF : fieldAfterUpdate ps newvals prop v = v := by
          simp only [fieldAfterUpdate, hex, if_true]
        rw [updateProperties, if_pos hex, List.zipWith_cons_cons, hF]
        exact hkeep rt hr
      · cases hf : QMap.find newvals prop.name with
        | none =>
          have hF : fieldAfterUpdate ps newvals prop v = v := by
            simp only [fieldAfterUpdate, hex, hf]
            rfl
          rw [updateProperties, if_neg hex, List.zipWith_cons_cons, hF]
          simp only [hf]
          exact hkeep rt hr
        | some newval =>
          by_cases hcmp : newval.cmp v = true
          · have hF : fieldAfterUpdate ps newvals prop v = v := by
              simp only [fieldAfterUpdate, hex, hf, hcmp]
              rfl
            rw [updateProperties, if_neg hex, List.zipWith_cons_cons, hF]
            simp only [hf, hcur, hcmp]
            exact hkeep rt hr
          · have hcmp' : newval.cmp v = false := by simpa using hcmp
            have hunf : updateProperties ps newvals c (prop :: rest) i rt
                = updateProperties ps newvals c rest (i + 1)
                    (rt.writeProperty c i prop newval).2 := by
              rw [updateProperties, if_neg hex]
              simp only [hf, hcur, hcmp']
              rfl
            rw [hunf, List.zipWith_cons_cons]
            by_cases hw : prop.writable = true
            · cases hc : QVariant.convert prop.type newval with
              | none =>
                have hF : fieldAfterUpdate ps newvals prop v = v := by
                  simp only [fieldAfterUpdate, hex, hf, hcmp', hw, hc]
                  rfl
                rw [hF, Runtime.writeProperty_fail rt c i prop newval hc]
                exact hkeep rt hr
              | some v' =>
                have hF : fieldAfterUpdate ps newvals prop v = v' := by
                  simp only [fieldAfterUpdate, hex, hf, hcmp', hw, hc]
                  rfl
                have hr1 := Runtime.writeProperty_read_self rt c i prop newval v' o hw hr hc
                have hset : o.values.set i v' = (pre ++ [v']) ++ suf' := by
                  rw [hv, ← hi]
                  simp
                have := ih (i + 1) (rt.writeProperty c i prop newval).2
                  { o with values := o.values.set i v' } (pre ++ [v']) suf' hr1 hset
                  (by simp [hi]) hl'
                rw [hF, this]
                simp
            · have hF : fieldAfterUpdate ps newvals prop v = v := by
                simp only [fieldAfterUpdate, hex, hf, hcmp', hw]
                rfl
              have hsame : (rt.writeProperty c i prop newval).2 = rt := by
                simp [Runtime.writeProperty, hw]
              rw [hF, hsame]
              exact hkeep rt hr

/-- The update loop of `updatePrefab` leaves the directory of stores as it is. -/
theorem updateOnInstances_systems (cls : String) (prefab : Ptr) (ps : List String)
    (newvals : QVariantMap) (instances : List (EntityId × Ptr)) :
    ∀ (w : World), (updateOnInstances cls prefab ps newvals instances w).2.systems = w.systems := by
  induction instances with
  | nil => intro w; rfl
  | cons hd rest ih =>
    obtain ⟨id, pi⟩ := hd
    intro w
    unfold updateOnInstances
    split
    · rfl
    · split
      · split
        · exact ih w
        · split
          · rfl
          · rw [ih]
      · exact ih w

/-- The update loop of `updatePrefab` for the class `cls` touches only the components
that the store of `cls` holds for the ids of the walked instances. -/
theorem updateOnInstances_frame (cls : String) (prefab : Ptr) (ps : List String)
    (newvals : QVariantMap) (instances : List (EntityId × Ptr)) :
    ∀ (w : World) (p : Ptr),
      (∀ id pi es, (id, pi) ∈ instances → w.getSystemByComponentClassName cls = some es →
        es.getComponent id ≠ some p) →
      (updateOnInstances cls prefab ps newvals instances w).2.rt.read p = w.rt.read p := by
  induction instances with
  | nil => intro w p _; rfl
  | cons hd rest ih =>
    obtain ⟨id0, pi0⟩ := hd
    intro w p hp
    have hp' : ∀ id pi es, (id, pi) ∈ rest → w.getSystemByComponentClassName cls = some es →
        es.getComponent id ≠ some p :=
      fun i q es hm hs => hp i q es (List.mem_cons_of_mem _ hm) hs
    cases hm0 : (w.rt.read pi0).bind QObject.prefab with
    | none => simp only [updateOnInstances, hm0]
    | some q =>
      by_cases hq : q = prefab
      · cases hs : w.getSystemByComponentClassName cls with
        | none =>
          simp only [updateOnInstances, hm0, hq, if_true, hs, Option.none_bind]
          exact ih w p hp'
        | some es =>
          cases hg : es.getComponent id0 with
          | none =>
            simp only [updateOnInstances, hm0, hq, if_true, hs, Option.some_bind, hg]
            exact ih w p hp'
          | some c =>
            cases hr : w.rt.read c with
            | none =>
              simp only [updateOnInstances, hm0, hq, if_true, hs, Option.some_bind, hg, hr]
            | some o =>
              simp only [updateOnInstances, hm0, hq, if_true, hs, Option.some_bind, hg, hr]
              have hpc : p ≠ c := by
                intro e
                exact hp id0 pi0 es (List.mem_cons_self _ _) hs (e ▸ hg)
              have hrec := ih
                { w with rt := updateProperties ps newvals c o.metaObject.properties 0 w.rt } p
                (fun i q es' hm hs' => hp' i q es' hm hs')
              rw [hrec]
              exact (updateProperties_updated ps newvals c o.metaObject.properties 0 w.rt o hr
                rfl).2 p hpc
      · simp only [updateOnInstances, hm0, hq, if_false]
        exact ih w p hp'

/-- The update loop of `updatePrefab` for the class `cls`, when it returns: the
component of an instance of the prefab holds in every property what
`fieldAfterUpdate` computes from its previous value. -/
theorem updateOnInstances_effect (cls : String) (prefab : Ptr) (ps : List String)
    (newvals : QVariantMap) (instances : List (EntityId × Ptr)) :
    ∀ (w w' : World) (es : SimpleEntitySystem),
      updateOnInstances cls prefab ps newvals instances w = (.ok (), w') →
      w.getSystemByComponentClassName cls = some es →
      (instances.map Prod.fst).Nodup →
      (QMap.values es.components).Nodup →
      (∀ id pi, (id, pi) ∈ instances → pi ∉ QMap.values es.components) →
      ∀ id pi c o, (id, pi) ∈ instances →
        (w.rt.read pi).bind QObject.prefab = some prefab →
        es.getComponent id = some c → w.rt.read c = some o →
        o.values.length = o.metaObject.properties.length →
        w'.rt.read c = some
          { o with
            values :=
              List.zipWith (fieldAfterUpdate ps newvals) o.metaObject.properties o.values } := by
  induction instances with
  | nil => intro w w' es _ _ _ _ _ id pi c o hm; exact absurd hm (List.not_mem_nil _)
  | cons hd rest ih =>
    obtain ⟨id0, pi0⟩ := hd
    intro w w' es hres hs hnd hvals hdis id pi c o hm hmatch hg hr hty
    simp only [List.map_cons, List.nodup_cons] at hnd
    obtain ⟨hid0, hnd'⟩ := hnd
    have hdis' : ∀ id pi, (id, pi) ∈ rest → pi ∉ QMap.values es.components :=
      fun i q hmem => hdis i q (List.mem_cons_of_mem _ hmem)
    cases hm0 : (w.rt.read pi0).bind QObject.prefab with
    | none => simp [updateOnInstances, hm0] at hres
    | some q =>
      by_cases hq : q = prefab
      · cases hg0 : es.getComponent id0 with
        | none =>
          simp only [updateOnInstances, hm0, hq, if_true, hs, Option.some_bind, hg0] at hres
          rcases List.mem_cons.mp hm with he | hm'
          · cases he
            rw [hg0] at hg
            cases hg
          · exact ih w w' es hres hs hnd' hvals hdis' id pi c o hm' hmatch hg hr hty
        | some c0 =>
          cases hr0 : w.rt.read c0 with
          | none =>
            simp [updateOnInstances, hm0, hq, hs, hg0, hr0] at hres
          | some o0 =>
            simp only [updateOnInstances, hm0, hq, if_true, hs, Option.some_bind, hg0, hr0]
              at hres
            have hupd := updateProperties_updated ps newvals c0 o0.metaObject.properties 0
              w.rt o0 hr0 rfl
            rcases List.mem_cons.mp hm with he | hm'
            · cases he
              rw [hg0] at hg
              cases hg
              rw [hr0] at hr
              cases hr
              have hspec := updateProperties_spec ps newvals c o.metaObject.properties 0 w.rt o
                [] o.values hr0 rfl rfl hty
              have hlater := updateOnInstances_frame cls prefab ps newvals rest
                { w with rt := updateProperties ps newvals c o.metaObject.properties 0 w.rt } c
                (by
                  intro i q es' hmem hs' hgi
                  have hes : es' = es := by
                    have : some es' = some es := hs'.symm.trans hs
                    exact Option.some.inj this
                  subst hes
                  have hi0 : i = id0 := QMap.find_inj_of_values_nodup _ i id0 c hvals hgi hg0
                  exact hid0 (hi0 ▸ List.mem_map.mpr ⟨(i, q), hmem, rfl⟩))
              rw [hres] at hlater
              rw [hlater]
              simpa using hspec
            · have hne : id ≠ id0 := by
                intro e
                subst e
                exact hid0 (List.mem_map.mpr ⟨(id, pi), hm', rfl⟩)
              have hc : c ≠ c0 := by
                intro e
                subst e
                exact hne (QMap.find_inj_of_values_nodup _ id id0 c hvals hg hg0)
              have hpi : pi ≠ c0 := by
                intro e
                subst e
                exact hdis id pi hm
                  (List.mem_map.mpr ⟨(id0, pi), QMap.mem_of_find _ id0 pi hg0, rfl⟩)
              exact ih _ w' es hres hs hnd' hvals hdis' id pi c o hm'
                (by
                  show ((updateProperties ps newvals c0 o0.metaObject.properties 0 w.rt).read
                    pi).bind QObject.prefab = some prefab
                  rw [hupd.2 pi hpi]
                  exact hmatch)
                hg
                (by
                  show (updateProperties ps newvals c0 o0.metaObject.properties 0 w.rt).read c
                    = some o
                  rw [hupd.2 c hc]
                  exact hr)
                hty
      · simp only [updateOnInstances, hm0, hq, if_false] at hres
        rcases List.mem_cons.mp hm with he | hm'
        · cases he
          rw [hm0] at hmatch
          cases hmatch
          exact absurd rfl hq
        · exact ih w w' es hres hs hnd' hvals hdis' id pi c o hm' hmatch hg hr hty

/-- The first loop of `updatePrefab`, when it returns: for a class that the old and the
new map both name, the store is as before and the component of an instance of the
prefab holds in every property what `fieldAfterUpdate` computes from its previous
value. -/
theorem updateExisting_updated (prefab : Ptr) (ps : List String) (newcomponents : QVariantMap)
    (instances : List (EntityId × Ptr)) (cls : String) (newval : QVariant)
    (id : EntityId) (pi c : Ptr) (o : QObject) (es : SimpleEntitySystem)
    (old : QVariantMap) :
    ∀ (w w' : World),
      updateExisting prefab ps newcomponents instances old w = (.ok (), w') →
      (QMap.keys old).Nodup → cls ∈ QMap.keys old →
      QMap.find newcomponents cls = some newval →
      w.getSystemByComponentClassName cls = some es →
      (instances.map Prod.fst).Nodup →
      (QMap.values es.components).Nodup →
      (∀ i q, (i, q) ∈ instances → ∀ name es0,
        w.getSystemByComponentClassName name = some es0 → q ∉ QMap.values es0.components) →
      (∀ name es0, name ≠ cls → w.getSystemByComponentClassName name = some es0 →
        c ∉ QMap.values es0.components) →
      (id, pi) ∈ instances → (w.rt.read pi).bind QObject.prefab = some prefab →
      es.getComponent id = some c → w.rt.read c = some o →
      o.values.length = o.metaObject.properties.length →
      w'.getSystemByComponentClassName cls = some es ∧
        w'.rt.read c = some
          { o with
            values := List.zipWith (fieldAfterUpdate ps newval.toMap) o.metaObject.properties
              o.values } := by
  induction old with
  | nil => intro w w' _ _ hm; exact absurd hm (List.not_mem_nil _)
  | cons hd rest ih =>
    obtain ⟨key, v⟩ := hd
    intro w w' hres hkeys hcls hnew hs hnd hvals hdis hother hm hmatch hg hr hty
    simp only [QMap.keys, List.map_cons, List.nodup_cons] at hkeys
    obtain ⟨hknot, hkeys'⟩ := hkeys
    cases hs0 : w.getSystemByComponentClassName key with
    | none =>
      simp only [updateExisting, hs0] at hres
      rcases List.mem_cons.mp hcls with he | hcls'
      · subst he
        rw [hs0] at hs
        cases hs
      · exact ih w w' hres hkeys' hcls' hnew hs hnd hvals hdis hother hm hmatch hg hr hty
    | some es0 =>
      by_cases hkey : cls = key
      · subst hkey
        rw [hs] at hs0
        cases hs0
        simp only [updateExisting, hs, hnew] at hres
        cases hr1 : updateOnInstances cls prefab ps newval.toMap instances w with
        | mk o1 w1 =>
          cases o1 with
          | thrown e => simp [hr1] at hres
          | crash => simp [hr1] at hres
          | ok u =>
            simp only [hr1] at hres
            have heff := updateOnInstances_effect cls prefab ps newval.toMap instances w w1 es
              hr1 hs hnd hvals (fun i q hmem => hdis i q hmem cls es hs) id pi c o hm hmatch
              hg hr hty
            have hsys : w1.systems = w.systems := by
              have := updateOnInstances_systems cls prefab ps newval.toMap instances w
              rw [hr1] at this
              exact this
            have hrest := shrinks_updateExisting prefab ps newcomponents instances rest w1
            rw [hres] at hrest
            refine ⟨?_, ?_⟩
            · rw [hrest.others cls hknot]
              show QMap.find w1.systems cls = some es
              rw [hsys]
              exact hs
            · rw [hrest.frame c ?_]
              · exact heff
              · intro name es1 hname hs1
                have hne : name ≠ cls := by
                  intro e
                  subst e
                  exact hknot hname
                have hs1' : w.getSystemByComponentClassName name = some es1 := by
                  show QMap.find w.systems name = some es1
                  rw [← hsys]
                  exact hs1
                exact hother name es1 hne hs1'
      · have hcls' : cls ∈ QMap.keys rest := by
          rcases List.mem_cons.mp hcls with he | h
          · exact absurd he hkey
          · exact h
        have hfinish : ∀ (w1 : World),
            World.ShrinksOn ps (fun n => n = key) w w1 →
            updateExisting prefab ps newcomponents instances rest w1 = (.ok (), w') →
            w'.getSystemByComponentClassName cls = some es ∧
              w'.rt.read c = some
                { o with
                  values := List.zipWith (fieldAfterUpdate ps newval.toMap)
                    o.metaObject.properties o.values } := by
          intro w1 hstep hres1
          have hs1 : w1.getSystemByComponentClassName cls = some es := by
            rw [hstep.others cls hkey]
            exact hs
          have hdis1 : ∀ i q, (i, q) ∈ instances → ∀ name es1,
              w1.getSystemByComponentClassName name = some es1 →
              q ∉ QMap.values es1.components :=
            fun i q hmem => hstep.disjoint q (hdis i q hmem)
          have hother1 : ∀ name es1, name ≠ cls →
              w1.getSystemByComponentClassName name = some es1 →
              c ∉ QMap.values es1.components := by
            intro name es1 hne hs1'
            cases hsn : w.getSystemByComponentClassName name with
            | none =>
              rw [hstep.unregistered name hsn] at hs1'
              cases hs1'
            | some esn =>
              obtain ⟨es1', g1, _, s1⟩ := hstep.stores name esn hsn
              rw [g1] at hs1'
              cases hs1'
              intro hmem
              exact hother name esn hne hsn ((List.Sublist.map Prod.snd s1).subset hmem)
          have hmatch1 : (w1.rt.read pi).bind QObject.prefab = some prefab := by
            rw [hstep.read_outside pi (hdis id pi hm)]
            exact hmatch
          have hr1 : w1.rt.read c = some o := by
            rw [hstep.frame c (fun name es1 hn hs1' => by
              subst hn
              exact hother name es1 (fun e => hkey e.symm) hs1')]
            exact hr
          exact ih w1 w' hres1 hkeys' hcls' hnew hs1 hnd hvals hdis1 hother1 hm hmatch1 hg hr1
            hty
        cases hf : QMap.find newcomponents key with
        | none =>
          have hstep := shrinks_destroyOnInstances ps key prefab instances w
          cases hrr : destroyOnInstances key prefab instances w with
          | mk o1 w1 =>
            rw [hrr] at hstep
            cases o1 with
            | thrown e => simp [updateExisting, hs0, hf, hrr] at hres
            | crash => simp [updateExisting, hs0, hf, hrr] at hres
            | ok u =>
              simp only [updateExisting, hs0, hf, hrr] at hres
              exact hfinish w1 hstep hres
        | some nv =>
          have hstep := shrinks_updateOnInstances ps key prefab nv.toMap instances w
          cases hrr : updateOnInstances key prefab ps nv.toMap instances w with
          | mk o1 w1 =>
            rw [hrr] at hstep
            cases o1 with
            | thrown e => simp [updateExisting, hs0, hf, hrr] at hres
            | crash => simp [updateExisting, hs0, hf, hrr] at hres
            | ok u =>
              simp only [updateExisting, hs0, hf, hrr] at hres
              exact hfinish w1 hstep hres

end PrefabSystem

/-- Counterexample to C12 as stated: `A` is in the old and in the new map, entity 1 is
an instance with an `A` component, the new map names the field `x`, which is neither
a parameter nor `objectName`, with the string `abc`; the call returns and the integer
field `x` still holds 1. -/
theorem C12_counterexample :
    (PrefabSystem.updatePrefab instanceWorld "T"
        [("A", .map [("x", .str "abc")]), ("B", .map [("y", .int 2)])] true).1
        = Outcome.ok () ∧
      templateT.parameters = [] ∧
      (instanceWorld.getSystemByComponentClassName "A").bind (fun es => es.getComponent 1)
        = some 0 ∧
      (metaA.properties.map (fun q => q.name))[1]? = some "x" ∧
      (PrefabSystem.updatePrefab instanceWorld "T"
        [("A", .map [("x", .str "abc")]), ("B", .map [("y", .int 2)])]
        true).2.rt.readProperty 0 1 = QVariant.int 1 ∧
      (PrefabSystem.updatePrefab instanceWorld "T"
        [("A", .map [("x", .str "abc")]), ("B", .map [("y", .int 2)])]
        true).2.rt.readProperty 0 1 ≠ QVariant.str "abc" := by
  decide

/-- Claim C12, amended: after a propagating `updatePrefab` on a known template has
returned, for every component type in the old and in the new map, every instance of
the template that has that component keeps it, and every field of it that is neither
a parameter of the template nor `objectName` and that the new map names holds the new
value converted to the type of the field when the write succeeds, and its previous
value when the new value compares equal to it or the write is refused (no setter, no
conversion); fields the new map does not name keep their previous value. -/
theorem C12_common_types_are_updated (w : World) (path : String)
    (newcomponents : QVariantMap) (prefab : Ptr) (pf : Prefab) (cls : String)
    (newval : QVariant) (es : SimpleEntitySystem) (id : EntityId) (pi c : Ptr) (o : QObject)
    (hwf : w.WF)
    (hT : QMap.find w.prefabSystem.prefabs path = some prefab)
    (hpf : w.prefabHeap[prefab]? = some pf)
    (hkeys : (QMap.keys pf.components).Nodup)
    (hok : (PrefabSystem.updatePrefab w path newcomponents true).1 = .ok ())
    (hold : cls ∈ QMap.keys pf.components)
    (hnew : QMap.find newcomponents cls = some newval)
    (hreg : w.getSystemByComponentClassName cls = some es)
    (hinst : (id, pi) ∈ w.prefabSystem.base.components)
    (href : (w.rt.read pi).bind QObject.prefab = some prefab)
    (hcomp : es.getComponent id = some c)
    (hobj : w.rt.read c = some o) :
    (∃ es',
      (PrefabSystem.updatePrefab w path newcomponents true).2.getSystemByComponentClassName cls
        = some es' ∧ es'.getComponent id = some c) ∧
    ∀ (k : Nat) (prop : QMetaProperty), o.metaObject.properties[k]? = some prop →
      (PrefabSystem.updatePrefab w path newcomponents true).2.rt.readProperty c k
        = PrefabSystem.fieldAfterUpdate pf.parameters newval.toMap prop (w.rt.readProperty c k) ∧
      (QMap.find newval.toMap prop.name = none →
        (PrefabSystem.updatePrefab w path newcomponents true).2.rt.readProperty c k
          = w.rt.readProperty c k) ∧
      (∀ v v', ¬ PrefabSystem.exempt pf.parameters prop.name →
        QMap.find newval.toMap prop.name = some v → v.cmp (w.rt.readProperty c k) = false →
        prop.writable = true → QVariant.convert prop.type v = some v' →
        (PrefabSystem.updatePrefab w path newcomponents true).2.rt.readProperty c k = v') ∧
      (∀ v, QMap.find newval.toMap prop.name = some v →
        v.cmp (w.rt.readProperty c k) = true →
        (PrefabSystem.updatePrefab w path newcomponents true).2.rt.readProperty c k
          = w.rt.readProperty c k) := by
  obtain ⟨w1, w2, h1, h2, hrt, hsys, _, _, hfin⟩ :=
    PrefabSystem.updatePrefab_propagate w path newcomponents prefab pf hT hpf
  obtain ⟨hupd, _, _⟩ := hfin hok
  have hcmem : c ∈ QMap.values es.components :=
    List.mem_map.mpr ⟨(id, c), QMap.mem_of_find _ id c hcomp, rfl⟩
  obtain ⟨o0, hlive, hty0⟩ := hwf.live c
    (List.mem_append_left _ ((World.values_sublist_storePointers w.systems cls es hreg).subset
      hcmem))
  rw [hobj] at hlive
  cases hlive
  obtain ⟨g1, g2⟩ := PrefabSystem.updateExisting_updated prefab pf.parameters newcomponents
    w.prefabSystem.base.components cls newval id pi c o es pf.components w w1 hupd hkeys hold
    hnew hreg hwf.instances_nodup (hwf.values_nodup cls es hreg)
    (fun i q hmem => hwf.disjoint_instances i q hmem)
    (fun name es0 hne hs0 => World.disjoint_stores w.systems cls name es es0 c
      (List.nodup_append.mp hwf.pointers_nodup).1 hreg hs0 (fun e => hne e.symm) hcmem)
    hinst href hcomp hobj hty0
  have hfinal : (PrefabSystem.updatePrefab w path newcomponents true).2.rt.read c
      = some { o with
          values := List.zipWith (PrefabSystem.fieldAfterUpdate pf.parameters newval.toMap)
            o.metaObject.properties o.values } := by
    rw [hrt, h2.frame c (Runtime.read_lt _ _ _ g2)]
    exact g2
  refine ⟨?_, ?_⟩
  · obtain ⟨es2, k1, _, k3⟩ := h2.stores cls es g1
    refine ⟨es2, ?_, k3 id c hcomp⟩
    show QMap.find (PrefabSystem.updatePrefab w path newcomponents true).2.systems cls = _
    rw [hsys]
    exact k1
  · intro k prop hk
    have hklt : k < o.values.length := by
      rw [hty0]
      by_contra hlt
      rw [List.getElem?_eq_none (Nat.le_of_not_lt hlt)] at hk
      cases hk
    have hvk : o.values[k]? = some (o.values[k]) := List.getElem?_eq_getElem hklt
    have hbefore : w.rt.readProperty c k = o.values[k] := by
      simp only [Runtime.readProperty, hobj, hvk]
      rfl
    have hafter : (PrefabSystem.updatePrefab w path newcomponents true).2.rt.readProperty c k
        = PrefabSystem.fieldAfterUpdate pf.parameters newval.toMap prop (o.values[k]) := by
      simp only [Runtime.readProperty, hfinal, List.getElem?_zipWith, hk, hvk]
      rfl
    rw [hafter, hbefore]
    refine ⟨rfl, ?_, ?_, ?_⟩
    · intro hf
      unfold PrefabSystem.fieldAfterUpdate
      split
      · rfl
      · simp only [hf]
    · intro v v' hex hf hcmp hw hc
      have hex' : ¬ ((pf.parameters.contains prop.name
          || decide (prop.name = "objectName")) = true) :=
        fun h => hex ((PrefabSystem.exempt_iff _ _).mp h)
      unfold PrefabSystem.fieldAfterUpdate
      rw [if_neg hex']
      simp only [hf, hcmp, hw, hc]
      rfl
    · intro v hf hcmp
      unfold PrefabSystem.fieldAfterUpdate
      split
      · rfl
      · simp only [hf, hcmp]
        rfl

/-- Witness of C12 (amended) on the propagation scenario of the spec: the new map
`{A: {x: 1}, B: {y: 3}}`, looked at on the `B` component of entity 1. -/
theorem C12_common_types_are_updated_witness :
    instanceWorld.WF ∧
    QMap.find instanceWorld.prefabSystem.prefabs "T" = some 0 ∧
    instanceWorld.prefabHeap[0]? = some templateT ∧
    (QMap.keys templateT.components).Nodup ∧
    (PrefabSystem.updatePrefab instanceWorld "T"
      [("A", .map [("x", .int 1)]), ("B", .map [("y", .int 3)])] true).1 = .ok () ∧
    instanceWorld.getSystemByComponentClassName "B"
      = some { componentMetaObject := metaB, components := [(1, 1)] } ∧
    (instanceWorld.rt.read 2).bind QObject.prefab = some 0 ∧
    instanceWorld.rt.read 1
      = some { metaObject := metaB, values := [.str "", .int 2], prefab := none } ∧
    ((∃ es',
      (PrefabSystem.updatePrefab instanceWorld "T"
        [("A", .map [("x", .int 1)]), ("B", .map [("y", .int 3)])]
        true).2.getSystemByComponentClassName "B" = some es' ∧ es'.getComponent 1 = some 1) ∧
    ∀ (k : Nat) (prop : QMetaProperty), metaB.properties[k]? = some prop →
      (PrefabSystem.updatePrefab instanceWorld "T"
        [("A", .map [("x", .int 1)]), ("B", .map [("y", .int 3)])] true).2.rt.readProperty 1 k
        = PrefabSystem.fieldAfterUpdate templateT.parameters
            (QVariant.map [("y", .int 3)]).toMap prop (instanceWorld.rt.readProperty 1 k) ∧
      (QMap.find (QVariant.map [("y", .int 3)]).toMap prop.name = none →
        (PrefabSystem.updatePrefab instanceWorld "T"
          [("A", .map [("x", .int 1)]), ("B", .map [("y", .int 3)])] true).2.rt.readProperty 1 k
          = instanceWorld.rt.readProperty 1 k) ∧
      (∀ v v', ¬ PrefabSystem.exempt templateT.parameters prop.name →
        QMap.find (QVariant.map [("y", .int 3)]).toMap prop.name = some v →
        v.cmp (instanceWorld.rt.readProperty 1 k) = false →
        prop.writable = true → QVariant.convert prop.type v = some v' →
        (PrefabSystem.updatePrefab instanceWorld "T"
          [("A", .map [("x", .int 1)]), ("B", .map [("y", .int 3)])] true).2.rt.readProperty 1 k
          = v') ∧
      (∀ v, QMap.find (QVariant.map [("y", .int 3)]).toMap prop.name = some v →
        v.cmp (instanceWorld.rt.readProperty 1 k) = true →
        (PrefabSystem.updatePrefab instanceWorld "T"
          [("A", .map [("x", .int 1)]), ("B", .map [("y", .int 3)])] true).2.rt.readProperty 1 k
          = instanceWorld.rt.readProperty 1 k)) :=
  ⟨⟨by decide, by decide, by decide, by decide, by decide⟩, by decide, by decide, by decide,
    by decide, by decide, by decide, by decide,
    C12_common_types_are_updated instanceWorld "T"
      [("A", .map [("x", .int 1)]), ("B", .map [("y", .int 3)])] 0 templateT "B"
      (.map [("y", .int 3)]) { componentMetaObject := metaB, components := [(1, 1)] } 1 2 1
      { metaObject := metaB, values := [.str "", .int 2], prefab := none }
      ⟨by decide, by decide, by decide, by decide, by decide⟩ (by decide) (by decide)
      (by decide) (by decide) (by decide) (by decide) (by decide) (by decide) (by decide)
      (by decide) (by decide)⟩

/-! ## What the loops of `updatePrefab` depend on -/

namespace QMap

end QMap

namespace PrefabSystem

/-- A propagating `updatePrefab` on a known template in terms of `propagate`. -/
theorem updatePrefab_eq_propagate (w : World) (path : String) (newcomponents : QVariantMap)
    (prefab : Ptr) (pf : Prefab) (hT : QMap.find w.prefabSystem.prefabs path = some prefab)
    (hpf : w.prefabHeap[prefab]? = some pf) :
    updatePrefab w path newcomponents true
      = match propagate prefab pf.parameters newcomponents w.prefabSystem.base.components
          pf.components w with
        | (.ok _, w2) => (.ok (), w2.setComponents prefab newcomponents)
        | (.thrown e, w2) => (.thrown e, w2)
        | (.crash, w2) => (.crash, w2) := by
  simp only [updatePrefab, hT, hpf, if_true, propagate]
  cases hr1 : updateExisting prefab pf.parameters newcomponents
      w.prefabSystem.base.components pf.components w with
  | mk o1 w1 =>
    cases o1 with
    | thrown e => rfl
    | crash => rfl
    | ok u =>
      cases hr2 : addMissing prefab pf.components w.prefabSystem.base.components
          newcomponents w1 with
      | mk o2 w2 => cases o2 <;> rfl

theorem destroyOnInstances_withHeap (cls : String) (prefab : Ptr)
    (instances : List (EntityId × Ptr)) :
    ∀ (w : World) (h : List Prefab),
      destroyOnInstances cls prefab instances (w.withHeap h)
        = ((destroyOnInstances cls prefab instances w).1,
            (destroyOnInstances cls prefab instances w).2.withHeap h) := by
  induction instances with
  | nil => intro w h; rfl
  | cons hd rest ih =>
    obtain ⟨id, pi⟩ := hd
    intro w h
    have e1 : (w.withHeap h).rt = w.rt := rfl
    have e2 : (w.withHeap h).getSystemByComponentClassName cls
        = w.getSystemByComponentClassName cls := rfl
    cases hm : (w.rt.read pi).bind QObject.prefab with
    | none => simp only [destroyOnInstances, e1, hm]
    | some q =>
      by_cases hq : q = prefab
      · cases hs : w.getSystemByComponentClassName cls with
        | none =>
          simp only [destroyOnInstances, e1, e2, hm, hq, if_true, hs]
          exact ih w h
        | some es =>
          simp only [destroyOnInstances, e1, e2, hm, hq, if_true, hs]
          exact ih (w.destroyComponentIn cls es id).2 h
      · simp only [destroyOnInstances, e1, hm, hq, if_false]
        exact ih w h

theorem updateOnInstances_withHeap (cls : String) (prefab : Ptr) (ps : List String)
    (newvals : QVariantMap) (instances : List (EntityId × Ptr)) :
    ∀ (w : World) (h : List Prefab),
      updateOnInstances cls prefab ps newvals instances (w.withHeap h)
        = ((updateOnInstances cls prefab ps newvals instances w).1,
            (updateOnInstances cls prefab ps newvals instances w).2.withHeap h) := by
  induction instances with
  | nil => intro w h; rfl
  | cons hd rest ih =>
    obtain ⟨id, pi⟩ := hd
    intro w h
    have e1 : (w.withHeap h).rt = w.rt := rfl
    have e2 : (w.withHeap h).getSystemByComponentClassName cls
        = w.getSystemByComponentClassName cls := rfl
    cases hm : (w.rt.read pi).bind QObject.prefab with
    | none => simp only [updateOnInstances, e1, hm]
    | some q =>
      by_cases hq : q = prefab
      · cases hc : (w.getSystemByComponentClassName cls).bind (fun es => es.getComponent id) with
        | none =>
          simp only [updateOnInstances, e1, e2, hm, hq, if_true, hc]
          exact ih w h
        | some c =>
          cases hr : w.rt.read c with
          | none => simp only [updateOnInstances, e1, e2, hm, hq, if_true, hc, hr]
          | some o =>
            simp only [updateOnInstances, e1, e2, hm, hq, if_true, hc, hr]
            exact ih
              { w with rt := updateProperties ps newvals c o.metaObject.properties 0 w.rt } h
      · simp only [updateOnInstances, e1, hm, hq, if_false]
        exact ih w h

theorem createOnInstances_withHeap (cls : String) (prefab : Ptr) (vals : QVariantMap)
    (instances : List (EntityId × Ptr)) :
    ∀ (w : World) (h : List Prefab),
      createOnInstances cls prefab vals instances (w.withHeap h)
        = ((createOnInstances cls prefab vals instances w).1,
            (createOnInstances cls prefab vals instances w).2.withHeap h) := by
  induction instances with
  | nil => intro w h; rfl
  | cons hd rest ih =>
    obtain ⟨id, pi⟩ := hd
    intro w h
    have e1 : (w.withHeap h).rt = w.rt := rfl
    have e2 : (w.withHeap h).getSystemByComponentClassName cls
        = w.getSystemByComponentClassName cls := rfl
    cases hm : (w.rt.read pi).bind QObject.prefab with
    | none => simp only [createOnInstances, e1, hm]
    | some q =>
      by_cases hq : q = prefab
      · cases hs : w.getSystemByComponentClassName cls with
        | none =>
          simp only [createOnInstances, e1, e2, hm, hq, if_true, hs]
          exact ih w h
        | some es =>
          have e3 : (w.withHeap h).createComponentIn cls es id vals
              = ((w.createComponentIn cls es id vals).1,
                  (w.createComponentIn cls es id vals).2.withHeap h) := rfl
          cases hr : w.createComponentIn cls es id vals with
          | mk o w1 =>
            rw [hr] at e3
            cases o with
            | ok p =>
              simp only [createOnInstances, e1, e2, hm, hq, if_true, hs, e3, hr]
              exact ih w1 h
            | thrown e => simp only [createOnInstances, e1, e2, hm, hq, if_true, hs, e3, hr]
            | crash => simp only [createOnInstances, e1, e2, hm, hq, if_true, hs, e3, hr]
      · simp only [createOnInstances, e1, hm, hq, if_false]
        exact ih w h

theorem updateExisting_withHeap (prefab : Ptr) (ps : List String) (newcomponents : QVariantMap)
    (instances : List (EntityId × Ptr)) (old : QVariantMap) :
    ∀ (w : World) (h : List Prefab),
      updateExisting prefab ps newcomponents instances old (w.withHeap h)
        = ((updateExisting prefab ps newcomponents instances old w).1,
            (updateExisting prefab ps newcomponents instances old w).2.withHeap h) := by
  induction old with
  | nil => intro w h; rfl
  | cons hd rest ih =>
    obtain ⟨key, v⟩ := hd
    intro w h
    have e2 : (w.withHeap h).getSystemByComponentClassName key
        = w.getSystemByComponentClassName key := rfl
    cases hs : w.getSystemByComponentClassName key with
    | none =>
      simp only [updateExisting, e2, hs]
      exact ih w h
    | some es =>
      cases hf : QMap.find newcomponents key with
      | none =>
        have e3 := destroyOnInstances_withHeap key prefab instances w h
        cases hr : destroyOnInstances key prefab instances w with
        | mk o w1 =>
          rw [hr] at e3
          cases o with
          | ok u =>
            simp only [updateExisting, e2, hs, hf, e3, hr]
            exact ih w1 h
          | thrown e => simp only [updateExisting, e2, hs, hf, e3, hr]
          | crash => simp only [updateExisting, e2, hs, hf, e3, hr]
      | some nv =>
        have e3 := updateOnInstances_withHeap key prefab ps nv.toMap instances w h
        cases hr : updateOnInstances key prefab ps nv.toMap instances w with
        | mk o w1 =>
          rw [hr] at e3
          cases o with
          | ok u =>
            simp only [updateExisting, e2, hs, hf, e3, hr]
            exact ih w1 h
          | thrown e => simp only [updateExisting, e2, hs, hf, e3, hr]
          | crash => simp only [updateExisting, e2, hs, hf, e3, hr]

theorem addMissing_withHeap (prefab : Ptr) (old : QVariantMap)
    (instances : List (EntityId × Ptr)) (newcomponents : QVariantMap) :
    ∀ (w : World) (h : List Prefab),
      addMissing prefab old instances newcomponents (w.withHeap h)
        = ((addMissing prefab old instances newcomponents w).1,
            (addMissing prefab old instances newcomponents w).2.withHeap h) := by
  induction newcomponents with
  | nil => intro w h; rfl
  | cons hd rest ih =>
    obtain ⟨key, v⟩ := hd
    intro w h
    have e2 : (w.withHeap h).getSystemByComponentClassName key
        = w.getSystemByComponentClassName key := rfl
    cases hf : QMap.find old key with
    | some x =>
      simp only [addMissing, hf]
      exact ih w h
    | none =>
      cases hs : w.getSystemByComponentClassName key with
      | none =>
        simp only [addMissing, hf, e2, hs]
        exact ih w h
      | some es =>
        have e3 := createOnInstances_withHeap key prefab v.toMap instances w h
        cases hr : createOnInstances key prefab v.toMap instances w with
        | mk o w1 =>
          rw [hr] at e3
          cases o with
          | ok u =>
            simp only [addMissing, hf, e2, hs, e3, hr]
            exact ih w1 h
          | thrown e => simp only [addMissing, hf, e2, hs, e3, hr]
          | crash => simp only [addMissing, hf, e2, hs, e3, hr]

/-- The two loops of `updatePrefab` neither read nor write the `Prefab` objects. -/
theorem propagate_withHeap (prefab : Ptr) (ps : List String) (newcomponents : QVariantMap)
    (instances : List (EntityId × Ptr)) (old : QVariantMap) (w : World) (h : List Prefab) :
    propagate prefab ps newcomponents instances old (w.withHeap h)
      = ((propagate prefab ps newcomponents instances old w).1,
          (propagate prefab ps newcomponents instances old w).2.withHeap h) := by
  have e1 := updateExisting_withHeap prefab ps newcomponents instances old w h
  cases hr : updateExisting prefab ps newcomponents instances old w with
  | mk o w1 =>
    rw [hr] at e1
    cases o with
    | ok u =>
      simp only [propagate, e1, hr]
      exact addMissing_withHeap prefab old instances newcomponents w1 h
    | thrown e => simp only [propagate, e1, hr]
    | crash => simp only [propagate, e1, hr]

/-- The first loop of `updatePrefab` uses of the old component map its keys only. -/
theorem updateExisting_congr (prefab : Ptr) (ps : List String) (newcomponents : QVariantMap)
    (instances : List (EntityId × Ptr)) (old : QVariantMap) :
    ∀ (old' : QVariantMap) (w : World), QMap.keys old = QMap.keys old' →
      updateExisting prefab ps newcomponents instances old w
        = updateExisting prefab ps newcomponents instances old' w := by
  induction old with
  | nil =>
    intro old' w hk
    cases old' with
    | nil => rfl
    | cons hd tl => simp [QMap.keys] at hk
  | cons hd rest ih =>
    obtain ⟨key, v⟩ := hd
    intro old' w hk
    cases old' with
    | nil => simp [QMap.keys] at hk
    | cons hd' rest' =>
      obtain ⟨key', v'⟩ := hd'
      simp only [QMap.keys, List.map_cons, List.cons.injEq] at hk
      obtain ⟨hkey, hrest⟩ := hk
      subst hkey
      have ihr : ∀ w, updateExisting prefab ps newcomponents instances rest w
          = updateExisting prefab ps newcomponents instances rest' w :=
        fun w => ih rest' w hrest
      simp only [updateExisting, ihr]

/-- The second loop of `updatePrefab` uses of the old component map only which keys
it binds. -/
theorem addMissing_congr (prefab : Ptr) (old old' : QVariantMap)
    (instances : List (EntityId × Ptr))
    (hfind : ∀ k, QMap.find old k = none ↔ QMap.find old' k = none)
    (newcomponents : QVariantMap) :
    ∀ (w : World), addMissing prefab old instances newcomponents w
      = addMissing prefab old' instances newcomponents w := by
  induction newcomponents with
  | nil => intro w; rfl
  | cons hd rest ih =>
    obtain ⟨key, v⟩ := hd
    intro w
    cases hf : QMap.find old key with
    | none =>
      have hf' : QMap.find old' key = none := (hfind key).mp hf
      simp only [addMissing, hf, hf', ih]
    | some x =>
      cases hf' : QMap.find old' key with
      | none => rw [(hfind key).mpr hf'] at hf; cases hf
      | some x' => simp only [addMissing, hf, hf', ih]

/-- The two loops of `updatePrefab` use of the old component map its keys only. -/
theorem propagate_congr (prefab : Ptr) (ps : List String) (newcomponents : QVariantMap)
    (instances : List (EntityId × Ptr)) (old old' : QVariantMap) (w : World)
    (hk : QMap.keys old = QMap.keys old') :
    propagate prefab ps newcomponents instances old w
      = propagate prefab ps newcomponents instances old' w := by
  have hfind : ∀ k, QMap.find old k = none ↔ QMap.find old' k = none := by
    intro k
    rw [QMap.find_eq_none_iff, QMap.find_eq_none_iff, hk]
  simp only [propagate, updateExisting_congr prefab ps newcomponents instances old old' w hk,
    addMissing_congr prefab old old' instances hfind newcomponents]

/-- When the new map names every class of the old one, the first loop of
`updatePrefab` only updates: the directory of stores is left as it is. -/
theorem updateExisting_systems (prefab : Ptr) (ps : List String) (newcomponents : QVariantMap)
    (instances : List (EntityId × Ptr)) (old : QVariantMap) :
    ∀ (w : World), (∀ key, key ∈ QMap.keys old → QMap.find newcomponents key ≠ none) →
      (updateExisting prefab ps newcomponents instances old w).2.systems = w.systems := by
  induction old with
  | nil => intro w _; rfl
  | cons hd rest ih =>
    obtain ⟨key, v⟩ := hd
    intro w hall
    have hall' : ∀ k, k ∈ QMap.keys rest → QMap.find newcomponents k ≠ none :=
      fun k hk => hall k (List.mem_cons_of_mem _ hk)
    cases hs : w.getSystemByComponentClassName key with
    | none =>
      simp only [updateExisting, hs]
      exact ih w hall'
    | some es =>
      cases hf : QMap.find newcomponents key with
      | none => exact absurd hf (hall key (List.mem_cons_self _ _))
      | some nv =>
        have hsys := updateOnInstances_systems key prefab ps nv.toMap instances w
        cases hr : updateOnInstances key prefab ps nv.toMap instances w with
        | mk o w1 =>
          rw [hr] at hsys
          cases o with
          | ok u =>
            simp only [updateExisting, hs, hf, hr]
            rw [ih w1 hall']
            exact hsys
          | thrown e =>
            simp only [updateExisting, hs, hf, hr]
            exact hsys
          | crash =>
            simp only [updateExisting, hs, hf, hr]
            exact hsys

/-- When the old map names every class of the new one, the second loop of
`updatePrefab` does nothing. -/
theorem addMissing_nothing (prefab : Ptr) (old : QVariantMap)
    (instances : List (EntityId × Ptr)) (newcomponents : QVariantMap) :
    ∀ (w : World), (∀ key, key ∈ QMap.keys newcomponents → QMap.find old key ≠ none) →
      addMissing prefab old instances newcomponents w = (.ok (), w) := by
  induction newcomponents with
  | nil => intro w _; rfl
  | cons hd rest ih =>
    obtain ⟨key, v⟩ := hd
    intro w hall
    cases hf : QMap.find old key with
    | none => exact absurd hf (hall key (List.mem_cons_self _ _))
    | some x =>
      simp only [addMissing, hf]
      exact ih w (fun k hk => hall k (List.mem_cons_of_mem _ hk))

/-- The two loops of `updatePrefab` leave the `Prefab` objects and the `PrefabSystem`
as they are, whatever their outcome. -/
theorem propagate_frame (prefab : Ptr) (ps : List String) (newcomponents : QVariantMap)
    (instances : List (EntityId × Ptr)) (old : QVariantMap) (w : World) :
    (propagate prefab ps newcomponents instances old w).2.prefabHeap = w.prefabHeap ∧
      (propagate prefab ps newcomponents instances old w).2.prefabSystem = w.prefabSystem := by
  have h1 := shrinks_updateExisting prefab ps newcomponents instances old w
  cases hr : updateExisting prefab ps newcomponents instances old w with
  | mk o w1 =>
    rw [hr] at h1
    cases o with
    | ok u =>
      have h2 := grows_addMissing prefab old instances newcomponents w1
      simp only [propagate, hr]
      exact ⟨h2.prefabHeap_eq.trans h1.prefabHeap_eq,
        h2.prefabSystem_eq.trans h1.prefabSystem_eq⟩
    | thrown e =>
      simp only [propagate, hr]
      exact ⟨h1.prefabHeap_eq, h1.prefabSystem_eq⟩
    | crash =>
      simp only [propagate, hr]
      exact ⟨h1.prefabHeap_eq, h1.prefabSystem_eq⟩

/-- With the same map as old and as new component map, the two loops of `updatePrefab`
destroy and create nothing. -/
theorem propagate_same_systems (prefab : Ptr) (ps : List String) (c : QVariantMap)
    (instances : List (EntityId × Ptr)) (w : World) :
    (propagate prefab ps c instances c w).2.systems = w.systems := by
  have hall : ∀ key, key ∈ QMap.keys c → QMap.find c key ≠ none :=
    fun key hk hn => (QMap.find_eq_none_iff c key).mp hn hk
  have h1 := updateExisting_systems prefab ps c instances c w hall
  cases hr : updateExisting prefab ps c instances c w with
  | mk o w1 =>
    rw [hr] at h1
    cases o with
    | ok u =>
      simp only [propagate, hr, addMissing_nothing prefab c instances c w1 hall]
      exact h1
    | thrown e =>
      simp only [propagate, hr]
      exact h1
    | crash =>
      simp only [propagate, hr]
      exact h1

/-- The world after `setComponents` on a valid `Prefab` pointer. -/
theorem setComponents_eq_withHeap (w : World) (prefab : Ptr) (c : QVariantMap) (pf : Prefab)
    (hpf : w.prefabHeap[prefab]? = some pf) :
    w.setComponents prefab c
      = w.withHeap (w.prefabHeap.set prefab { pf with components := c }) := by
  simp [World.setComponents, hpf, World.withHeap]

end PrefabSystem

/-- Counterexample to C18 as stated: the template declares `A` and `B` and the new map
is `{A: {x: 5}}`.  Updating without propagation and then with propagation leaves the
`B` component of entity 1 in place, while the propagating update alone destroys it. -/
theorem C18_counterexample :
    ((PrefabSystem.updatePrefab
        (PrefabSystem.updatePrefab instanceWorld "T" [("A", .map [("x", .int 5)])] false).2
        "T" [("A", .map [("x", .int 5)])] true).2.getSystemByComponentClassName "B").bind
        (fun es => es.getComponent 1) = some 1 ∧
      ((PrefabSystem.updatePrefab instanceWorld "T"
        [("A", .map [("x", .int 5)])] true).2.getSystemByComponentClassName "B").bind
        (fun es => es.getComponent 1) = none := by
  decide

/-- Claim C18, amended: for a known template `T` and a new component map `c` that
declares the same component types as the current map of `T`, `updatePrefab(T, c,
false)` followed by `updatePrefab(T, c, true)` has the same outcome and leaves the
same stores, objects, trace and instance store as `updatePrefab(T, c, true)` alone,
and the same world when the call returns.  For every `c` the later propagating pass
destroys and creates no component: types removed or added by the deferred update are
not propagated by it. -/
theorem C18_deferred_values_only (w : World) (path : String) (c : QVariantMap)
    (prefab : Ptr) (pf : Prefab)
    (hT : QMap.find w.prefabSystem.prefabs path = some prefab)
    (hpf : w.prefabHeap[prefab]? = some pf) :
    (PrefabSystem.updatePrefab (PrefabSystem.updatePrefab w path c false).2 path c true).2.systems
        = w.systems ∧
      (QMap.keys pf.components = QMap.keys c →
        (PrefabSystem.updatePrefab (PrefabSystem.updatePrefab w path c false).2 path c true).1
          = (PrefabSystem.updatePrefab w path c true).1 ∧
        (PrefabSystem.updatePrefab (PrefabSystem.updatePrefab w path c false).2 path c
          true).2.systems = (PrefabSystem.updatePrefab w path c true).2.systems ∧
        (PrefabSystem.updatePrefab (PrefabSystem.updatePrefab w path c false).2 path c
          true).2.rt = (PrefabSystem.updatePrefab w path c true).2.rt ∧
        (PrefabSystem.updatePrefab (PrefabSystem.updatePrefab w path c false).2 path c
          true).2.prefabSystem = (PrefabSystem.updatePrefab w path c true).2.prefabSystem ∧
        ((PrefabSystem.updatePrefab w path c true).1 = .ok () →
          (PrefabSystem.updatePrefab (PrefabSystem.updatePrefab w path c false).2 path c true).2
            = (PrefabSystem.updatePrefab w path c true).2)) := by
  have hlt : prefab < w.prefabHeap.length := by
    by_contra h
    rw [List.getElem?_eq_none (Nat.le_of_not_lt h)] at hpf
    cases hpf
  have hfirst : (PrefabSystem.updatePrefab w path c false).2
      = w.withHeap (w.prefabHeap.set prefab { pf with components := c }) := by
    have : PrefabSystem.updatePrefab w path c false = (.ok (), w.setComponents prefab c) := by
      simp [PrefabSystem.updatePrefab, hT]
    rw [this]
    exact PrefabSystem.setComponents_eq_withHeap w prefab c pf hpf
  have hT1 : QMap.find (w.withHeap
      (w.prefabHeap.set prefab { pf with components := c })).prefabSystem.prefabs path
      = some prefab := hT
  have hpf1 : (w.withHeap (w.prefabHeap.set prefab { pf with components := c })).prefabHeap[prefab]?
      = some { pf with components := c } := by
    show (w.prefabHeap.set prefab { pf with components := c })[prefab]? = _
    rw [List.getElem?_set_self hlt]
  have hseq := PrefabSystem.updatePrefab_eq_propagate _ path c prefab _ hT1 hpf1
  have hind := PrefabSystem.propagate_withHeap prefab pf.parameters c
    w.prefabSystem.base.components c w (w.prefabHeap.set prefab { pf with components := c })
  have hsame := PrefabSystem.propagate_same_systems prefab pf.parameters c
    w.prefabSystem.base.components w
  have hframe := PrefabSystem.propagate_frame prefab pf.parameters c
    w.prefabSystem.base.components c w
  rw [hfirst, hseq]
  have hind' : PrefabSystem.propagate prefab pf.parameters c
      (w.withHeap (w.prefabHeap.set prefab { pf with components := c })).prefabSystem.base.components
      c (w.withHeap (w.prefabHeap.set prefab { pf with components := c }))
      = ((PrefabSystem.propagate prefab pf.parameters c w.prefabSystem.base.components c w).1,
          (PrefabSystem.propagate prefab pf.parameters c w.prefabSystem.base.components c
            w).2.withHeap (w.prefabHeap.set prefab { pf with components := c })) := hind
  simp only [hind']
  refine ⟨?_, ?_⟩
  · cases hP : PrefabSystem.propagate prefab pf.parameters c w.prefabSystem.base.components c w with
    | mk o w2 =>
      rw [hP] at hsame
      cases o with
      | ok u =>
        simp only [PrefabSystem.setComponents_systems]
        exact hsame
      | thrown e => exact hsame
      | crash => exact hsame
  · intro hk
    have hcongr := PrefabSystem.propagate_congr prefab pf.parameters c
      w.prefabSystem.base.components pf.components c w hk
    rw [PrefabSystem.updatePrefab_eq_propagate w path c prefab pf hT hpf, hcongr]
    cases hP : PrefabSystem.propagate prefab pf.parameters c w.prefabSystem.base.components c w with
    | mk o w2 =>
      rw [hP] at hframe
      cases o with
      | thrown e => exact ⟨rfl, rfl, rfl, rfl, fun h => by cases h⟩
      | crash => exact ⟨rfl, rfl, rfl, rfl, fun h => by cases h⟩
      | ok u =>
        have hw2 : w2.prefabHeap[prefab]? = some pf := by
          rw [hframe.1]
          exact hpf
        have hw2' : (w2.withHeap (w.prefabHeap.set prefab
            { pf with components := c })).prefabHeap[prefab]?
            = some { pf with components := c } := hpf1
        have heq : (w2.withHeap (w.prefabHeap.set prefab
            { pf with components := c })).setComponents prefab c
            = w2.setComponents prefab c := by
          rw [PrefabSystem.setComponents_eq_withHeap _ prefab c _ hw2',
            PrefabSystem.setComponents_eq_withHeap _ prefab c _ hw2]
          have hh : w2.prefabHeap = w.prefabHeap := hframe.1
          simp only [World.withHeap, hh, List.set_set]
        simp [heq]

/-- Witness of C18 (amended): the new map `{A: {x: 5}, B: {y: 2}}` declares the same
types as the template of the instantiated scenario. -/
theorem C18_deferred_values_only_witness :
    QMap.find instanceWorld.prefabSystem.prefabs "T" = some 0 ∧
    instanceWorld.prefabHeap[0]? = some templateT ∧
    QMap.keys templateT.components
      = QMap.keys [("A", QVariant.map [("x", .int 5)]), ("B", QVariant.map [("y", .int 2)])] ∧
    (PrefabSystem.updatePrefab instanceWorld "T"
      [("A", .map [("x", .int 5)]), ("B", .map [("y", .int 2)])] true).1 = .ok () ∧
    ((PrefabSystem.updatePrefab (PrefabSystem.updatePrefab instanceWorld "T"
        [("A", .map [("x", .int 5)]), ("B", .map [("y", .int 2)])] false).2 "T"
        [("A", .map [("x", .int 5)]), ("B", .map [("y", .int 2)])] true).2.systems
        = instanceWorld.systems ∧
      (QMap.keys templateT.components
          = QMap.keys [("A", QVariant.map [("x", .int 5)]), ("B", QVariant.map [("y", .int 2)])] →
        (PrefabSystem.updatePrefab (PrefabSystem.updatePrefab instanceWorld "T"
          [("A", .map [("x", .int 5)]), ("B", .map [("y", .int 2)])] false).2 "T"
          [("A", .map [("x", .int 5)]), ("B", .map [("y", .int 2)])] true).1
          = (PrefabSystem.updatePrefab instanceWorld "T"
              [("A", .map [("x", .int 5)]), ("B", .map [("y", .int 2)])] true).1 ∧
        (PrefabSystem.updatePrefab (PrefabSystem.updatePrefab instanceWorld "T"
          [("A", .map [("x", .int 5)]), ("B", .map [("y", .int 2)])] false).2 "T"
          [("A", .map [("x", .int 5)]), ("B", .map [("y", .int 2)])] true).2.systems
          = (PrefabSystem.updatePrefab instanceWorld "T"
              [("A", .map [("x", .int 5)]), ("B", .map [("y", .int 2)])] true).2.systems ∧
        (PrefabSystem.updatePrefab (PrefabSystem.updatePrefab instanceWorld "T"
          [("A", .map [("x", .int 5)]), ("B", .map [("y", .int 2)])] false).2 "T"
          [("A", .map [("x", .int 5)]), ("B", .map [("y", .int 2)])] true).2.rt
          = (PrefabSystem.updatePrefab instanceWorld "T"
              [("A", .map [("x", .int 5)]), ("B", .map [("y", .int 2)])] true).2.rt ∧
        (PrefabSystem.updatePrefab (PrefabSystem.updatePrefab instanceWorld "T"
          [("A", .map [("x", .int 5)]), ("B", .map [("y", .int 2)])] false).2 "T"
          [("A", .map [("x", .int 5)]), ("B", .map [("y", .int 2)])] true).2.prefabSystem
          = (PrefabSystem.updatePrefab instanceWorld "T"
              [("A", .map [("x", .int 5)]), ("B", .map [("y", .int 2)])] true).2.prefabSystem ∧
        ((PrefabSystem.updatePrefab instanceWorld "T"
            [("A", .map [("x", .int 5)]), ("B", .map [("y", .int 2)])] true).1 = .ok () →
          (PrefabSystem.updatePrefab (PrefabSystem.updatePrefab instanceWorld "T"
            [("A", .map [("x", .int 5)]), ("B", .map [("y", .int 2)])] false).2 "T"
            [("A", .map [("x", .int 5)]), ("B", .map [("y", .int 2)])] true).2
            = (PrefabSystem.updatePrefab instanceWorld "T"
                [("A", .map [("x", .int 5)]), ("B", .map [("y", .int 2)])] true).2))) :=
  ⟨by decide, by decide, by decide, by decide,
    C18_deferred_values_only instanceWorld "T"
      [("A", .map [("x", .int 5)]), ("B", .map [("y", .int 2)])] 0 templateT
      (by decide) (by decide)⟩

/-! ## Facts about a class without a store in `updatePrefab` -/

namespace PrefabSystem

end PrefabSystem

namespace PooledEntitySystem

theorem entriesFrom_append (l1 l2 : List (Option (EntityId × QObject))) (p : Nat) :
    entriesFrom (l1 ++ l2) p = entriesFrom l1 p ++ entriesFrom l2 (p + l1.length) := by
  induction l1 generalizing p with
  | nil => simp [entriesFrom]
  | cons x r ih =>
    have e : p + 1 + r.length = p + (r.length + 1) := by omega
    cases x with
    | none =>
      show entriesFrom (r ++ l2) (p + 1) = entriesFrom r (p + 1) ++ _
      rw [ih, List.length_cons, e]
    | some kv =>
      obtain ⟨i, o⟩ := kv
      show (i, p) :: entriesFrom (r ++ l2) (p + 1) = (i, p) :: entriesFrom r (p + 1) ++ _
      rw [ih, List.length_cons, e]
      rfl

theorem entriesFrom_replicate (n p : Nat) :
    entriesFrom (List.replicate n (none : Option (EntityId × QObject))) p = [] := by
  induction n generalizing p with
  | zero => rfl
  | succ n ih =>
    show entriesFrom (List.replicate n none) (p + 1) = []
    exact ih (p + 1)

theorem map_fst_entriesFrom (l : List (Option (EntityId × QObject))) (p q : Nat) :
    (entriesFrom l p).map Prod.fst = (entriesFrom l q).map Prod.fst := by
  induction l generalizing p q with
  | nil => rfl
  | cons x r ih =>
    cases x with
    | none => exact ih (p + 1) (q + 1)
    | some kv =>
      obtain ⟨i, o⟩ := kv
      show i :: (entriesFrom r (p + 1)).map Prod.fst = i :: (entriesFrom r (q + 1)).map Prod.fst
      rw [ih (p + 1) (q + 1)]

/-- A list of slots around the address `a`. -/
theorem slots_split (l : List (Option (EntityId × QObject))) (a : Nat)
    (x : Option (EntityId × QObject)) (h : l[a]? = some x) :
    l = l.take a ++ x :: l.drop (a + 1) ∧ (l.take a).length = a ∧
      ∀ y, l.set a y = l.take a ++ y :: l.drop (a + 1) := by
  obtain ⟨hlt, hx⟩ := List.getElem?_eq_some.mp h
  refine ⟨?_, ?_, ?_⟩
  · rw [← hx, ← List.drop_eq_getElem_cons hlt, List.take_append_drop]
  · rw [List.length_take]; omega
  · intro y
    exact List.set_eq_take_cons_drop y hlt

theorem entriesFrom_split (l : List (Option (EntityId × QObject))) (a : Nat)
    (x : Option (EntityId × QObject)) (h : l[a]? = some x) (y : Option (EntityId × QObject)) :
    entriesFrom (l.set a y) 0
      = entriesFrom (l.take a) 0 ++ entriesFrom (y :: l.drop (a + 1)) a := by
  obtain ⟨_, h2, h3⟩ := slots_split l a x h
  rw [h3 y, entriesFrom_append, h2, Nat.zero_add]

theorem entriesFrom_split_self (l : List (Option (EntityId × QObject))) (a : Nat)
    (x : Option (EntityId × QObject)) (h : l[a]? = some x) :
    entriesFrom l 0 = entriesFrom (l.take a) 0 ++ entriesFrom (x :: l.drop (a + 1)) a := by
  obtain ⟨h1, h2, _⟩ := slots_split l a x h
  conv => lhs; rw [h1]
  rw [entriesFrom_append, h2, Nat.zero_add]

theorem slotOf_eq_none_iff (l : List (Option (EntityId × QObject))) (id : EntityId) (p : Nat) :
    slotOf l id = none ↔ id ∉ (entriesFrom l p).map Prod.fst := by
  induction l generalizing p with
  | nil => simp [slotOf, entriesFrom]
  | cons x r ih =>
    cases x with
    | none =>
      show (slotOf r id).map _ = none ↔ id ∉ (entriesFrom r (p + 1)).map Prod.fst
      rw [Option.map_eq_none']
      exact ih (p + 1)
    | some kv =>
      obtain ⟨i, o⟩ := kv
      show (if i = id then some 0 else (slotOf r id).map _) = none
        ↔ id ∉ i :: (entriesFrom r (p + 1)).map Prod.fst
      by_cases hi : i = id
      · simp [hi]
      · rw [if_neg hi, Option.map_eq_none', List.mem_cons, not_or]
        exact ⟨fun h => ⟨fun e => hi e.symm, (ih (p + 1)).mp h⟩, fun h => (ih (p + 1)).mpr h.2⟩

theorem slotOf_some (l : List (Option (EntityId × QObject))) (id : EntityId) (a : Nat)
    (h : slotOf l id = some a) : ∃ o, l[a]? = some (some (id, o)) := by
  induction l generalizing a with
  | nil => cases h
  | cons x r ih =>
    cases x with
    | none =>
      have h' : (slotOf r id).map (fun a => a + 1) = some a := h
      obtain ⟨b, hb, rfl⟩ := Option.map_eq_some'.mp h'
      obtain ⟨o', ho'⟩ := ih b hb
      exact ⟨o', by simpa using ho'⟩
    | some kv =>
      obtain ⟨i, o⟩ := kv
      have h' : (if i = id then some 0 else (slotOf r id).map (fun a => a + 1)) = some a := h
      by_cases hi : i = id
      · rw [if_pos hi] at h'
        cases h'
        exact ⟨o, by simp [hi]⟩
      · rw [if_neg hi] at h'
        obtain ⟨b, hb, rfl⟩ := Option.map_eq_some'.mp h'
        obtain ⟨o', ho'⟩ := ih b hb
        exact ⟨o', by simpa using ho'⟩

/-- Occupying an unoccupied slot adds one live component, with a new id at some place
of the iteration order. -/
theorem occupy_spec (l : List (Option (EntityId × QObject))) (a : Nat) (x : EntityId × QObject)
    (h : l[a]? = some none) :
    (l.set a (some x)).countP (fun sl => sl.isSome) = l.countP (fun sl => sl.isSome) + 1 ∧
      List.Perm ((entriesFrom (l.set a (some x)) 0).map Prod.fst)
        (x.1 :: (entriesFrom l 0).map Prod.fst) := by
  obtain ⟨hlt, hx⟩ := List.getElem?_eq_some.mp h
  refine ⟨?_, ?_⟩
  · rw [List.countP_set _ _ _ _ hlt, hx]
    simp
  · rw [entriesFrom_split l a none h (some x), entriesFrom_split_self l a none h]
    obtain ⟨i, o⟩ := x
    show List.Perm ((entriesFrom (l.take a) 0 ++ (i, a) :: entriesFrom (l.drop (a + 1)) (a + 1)).map
        Prod.fst)
      (i :: (entriesFrom (l.take a) 0 ++ entriesFrom (l.drop (a + 1)) (a + 1)).map Prod.fst)
    rw [List.map_append, List.map_append, List.map_cons]
    exact List.perm_middle

/-- Vacating an occupied slot removes one live component and its id. -/
theorem vacate_spec (l : List (Option (EntityId × QObject))) (a : Nat) (x : EntityId × QObject)
    (h : l[a]? = some (some x)) :
    (l.set a none).countP (fun sl => sl.isSome) + 1 = l.countP (fun sl => sl.isSome) ∧
      List.Perm (x.1 :: (entriesFrom (l.set a none) 0).map Prod.fst)
        ((entriesFrom l 0).map Prod.fst) := by
  obtain ⟨hlt, hx⟩ := List.getElem?_eq_some.mp h
  refine ⟨?_, ?_⟩
  · have hle := List.boole_getElem_le_countP (fun sl : Option (EntityId × QObject) => sl.isSome)
      l a hlt
    have e := List.countP_set (fun sl : Option (EntityId × QObject) => sl.isSome) l a none hlt
    rw [hx] at hle e
    simp only [Option.isSome_some, Option.isSome_none, if_true, Bool.false_eq_true, if_false,
      Nat.add_zero] at hle e
    omega
  · rw [entriesFrom_split l a (some x) h none, entriesFrom_split_self l a (some x) h]
    obtain ⟨i, o⟩ := x
    show List.Perm (i :: (entriesFrom (l.take a) 0 ++ entriesFrom (l.drop (a + 1)) (a + 1)).map
        Prod.fst)
      ((entriesFrom (l.take a) 0 ++ (i, a) :: entriesFrom (l.drop (a + 1)) (a + 1)).map Prod.fst)
    rw [List.map_append, List.map_append, List.map_cons]
    exact List.perm_middle.symm

end PooledEntitySystem
namespace PooledEntitySystem

theorem pool_WF_empty (mo : QMetaObject) (c : Nat) : WF (empty mo c) where
  chunks := ⟨0, rfl⟩
  used_le := Nat.le_refl _
  tight := Or.inr rfl
  balance := rfl
  free_nodup := List.nodup_nil
  free_unoccupied := fun a ha => by cases ha
  fresh_unoccupied := fun sl hsl => by cases hsl
  ids_nodup := List.nodup_nil
  constructible := fun h => absurd rfl h

theorem count_le_used (s : PooledEntitySystem) (h : WF s) : s.count ≤ s.used := by
  have := h.balance
  omega

theorem not_mem_ids_of_component_none (s : PooledEntitySystem) (id : EntityId)
    (h : ¬ (s.component id).isSome = true) : id ∉ (entriesFrom s.slots 0).map Prod.fst := by
  apply (slotOf_eq_none_iff s.slots id 0).mp
  cases hc : s.component id with
  | none => exact hc
  | some a => rw [hc] at h; exact absurd rfl h

/-- The invariant is kept by `createComponent`, and the number of slots handed out
so far stays the largest number of live components seen. -/
theorem createComponent_inv (s : PooledEntitySystem) (id : EntityId) (m : QVariantMap)
    (h : WF s) :
    WF (s.createComponent id m).2 ∧
      (s.createComponent id m).2.used = max s.used (s.createComponent id m).2.count ∧
      (s.createComponent id m).2.chunkSize = s.chunkSize ∧
      (s.createComponent id m).2.componentMetaObject = s.componentMetaObject := by
  have hcu := count_le_used s h
  have same : WF s ∧ s.used = max s.used s.count ∧ s.chunkSize = s.chunkSize ∧
      s.componentMetaObject = s.componentMetaObject :=
    ⟨h, by omega, rfl, rfl⟩
  unfold createComponent
  by_cases hd : (s.component id).isSome = true
  · rw [if_pos hd]; exact same
  rw [if_neg hd]
  by_cases hi : (!s.componentMetaObject.invokable) = true
  · rw [if_pos hi]; exact same
  rw [if_neg hi]
  have hinv : s.componentMetaObject.invokable = true := by simpa using hi
  have hfresh := not_mem_ids_of_component_none s id hd
  have hbal := h.balance
  cases hf : s.freeList with
  | cons a rest =>
    have ha := h.free_unoccupied a (by rw [hf]; exact List.mem_cons_self _ _)
    obtain ⟨hcount, hperm⟩ :=
      occupy_spec s.slots a (id, construct s.componentMetaObject m) ha.2
    have hnd := h.free_nodup
    rw [hf] at hnd hbal
    rw [List.length_cons] at hbal
    have hc1 : s.slots.countP (fun sl => sl.isSome) = s.count := rfl
    refine ⟨⟨?_, ?_, ?_, ?_, ?_, ?_, ?_, ?_, ?_⟩, ?_, rfl, rfl⟩
    · show s.chunkSize ∣ (s.slots.set a _).length
      rw [List.length_set]; exact h.chunks
    · show s.used ≤ (s.slots.set a _).length
      rw [List.length_set]; exact h.used_le
    · show (s.slots.set a _).length < s.used + s.chunkSize ∨ (s.slots.set a _).length = 0
      rw [List.length_set]; exact h.tight
    · show (s.slots.set a _).countP (fun sl => sl.isSome) + rest.length = s.used
      rw [hcount, hc1]; omega
    · exact (List.nodup_cons.mp hnd).2
    · intro b hb
      have hb' := h.free_unoccupied b (by rw [hf]; exact List.mem_cons_of_mem _ hb)
      refine ⟨hb'.1, ?_⟩
      show (s.slots.set a _)[b]? = some none
      have hne : a ≠ b := fun e => (List.nodup_cons.mp hnd).1 (e ▸ hb)
      rw [List.getElem?_set_ne hne]; exact hb'.2
    · show ∀ sl ∈ (s.slots.set a _).drop s.used, sl = none
      rw [List.drop_set_of_lt _ _ ha.1]; exact h.fresh_unoccupied
    · exact hperm.nodup_iff.mpr (List.nodup_cons.mpr ⟨hfresh, h.ids_nodup⟩)
    · exact fun _ => hinv
    · show s.used = max s.used ((s.slots.set a _).countP (fun sl => sl.isSome))
      rw [hcount, hc1]; omega
  | nil =>
    rw [hf, List.length_nil] at hbal
    have hc1 : s.slots.countP (fun sl => sl.isSome) = s.count := rfl
    dsimp only
    by_cases hu : s.used < s.slots.length
    · rw [if_pos hu]
      have hslot : s.slots[s.used]? = some none := by
        rw [List.getElem?_eq_getElem hu]
        congr 1
        exact h.fresh_unoccupied _ (List.mem_drop_iff_getElem.mpr ⟨0, by omega, by simp⟩)
      obtain ⟨hcount, hperm⟩ :=
        occupy_spec s.slots s.used (id, construct s.componentMetaObject m) hslot
      refine ⟨⟨?_, ?_, ?_, ?_, ?_, ?_, ?_, ?_, ?_⟩, ?_, rfl, rfl⟩
      · show s.chunkSize ∣ (s.slots.set s.used _).length
        rw [List.length_set]; exact h.chunks
      · show s.used + 1 ≤ (s.slots.set s.used _).length
        rw [List.length_set]; exact hu
      · show (s.slots.set s.used _).length < s.used + 1 + s.chunkSize ∨ _
        rw [List.length_set]
        rcases h.tight with ht | ht
        · left; omega
        · omega
      · show (s.slots.set s.used _).countP (fun sl => sl.isSome) + ([] : List Nat).length
          = s.used + 1
        rw [hcount, hc1, List.length_nil]; omega
      · exact List.nodup_nil
      · intro b hb
        cases hb
      · show ∀ sl ∈ (s.slots.set s.used _).drop (s.used + 1), sl = none
        rw [List.drop_set_of_lt _ _ (Nat.lt_succ_self _)]
        intro sl hsl
        exact h.fresh_unoccupied sl ((List.drop_sublist_drop_left s.slots (Nat.le_succ _)).mem hsl)
      · exact hperm.nodup_iff.mpr (List.nodup_cons.mpr ⟨hfresh, h.ids_nodup⟩)
      · exact fun _ => hinv
      · show s.used + 1 = max s.used ((s.slots.set s.used _).countP (fun sl => sl.isSome))
        rw [hcount, hc1]; omega
    · rw [if_neg hu]
      by_cases hroom : s.used < s.slots.length + s.chunkSize
      · rw [if_pos hroom]
        have hul : s.used = s.slots.length := Nat.le_antisymm h.used_le (Nat.le_of_not_lt hu)
        have hslot : (s.slots ++ List.replicate s.chunkSize none)[s.used]? = some none := by
          rw [hul, List.getElem?_append_right (Nat.le_refl _), Nat.sub_self]
          have : 0 < s.chunkSize := by omega
          rw [List.getElem?_replicate, if_pos this]
        obtain ⟨hcount, hperm⟩ := occupy_spec (s.slots ++ List.replicate s.chunkSize none)
          s.used (id, construct s.componentMetaObject m) hslot
        have hcnt : (s.slots ++ List.replicate s.chunkSize none).countP
            (fun sl : Option (EntityId × QObject) => sl.isSome) = s.count := by
          rw [List.countP_append, List.countP_replicate]
          simp [count]
        have hids : entriesFrom (s.slots ++ List.replicate s.chunkSize none) 0
            = entriesFrom s.slots 0 := by
          rw [entriesFrom_append, entriesFrom_replicate, List.append_nil]
        rw [hcnt] at hcount
        rw [hids] at hperm
        refine ⟨⟨?_, ?_, ?_, ?_, ?_, ?_, ?_, ?_, ?_⟩, ?_, rfl, rfl⟩
        · show s.chunkSize ∣ ((s.slots ++ List.replicate s.chunkSize none).set s.used _).length
          rw [List.length_set, List.length_append, List.length_replicate]
          exact Nat.dvd_add h.chunks (Nat.dvd_refl _)
        · show s.used + 1 ≤ ((s.slots ++ List.replicate s.chunkSize none).set s.used _).length
          rw [List.length_set, List.length_append, List.length_replicate]; omega
        · show ((s.slots ++ List.replicate s.chunkSize none).set s.used _).length
            < s.used + 1 + s.chunkSize ∨ _
          rw [List.length_set, List.length_append, List.length_replicate]
          left; omega
        · show ((s.slots ++ List.replicate s.chunkSize none).set s.used _).countP
            (fun sl : Option (EntityId × QObject) => sl.isSome) + ([] : List Nat).length
            = s.used + 1
          rw [hcount, List.length_nil]; omega
        · exact List.nodup_nil
        · intro b hb
          cases hb
        · show ∀ sl ∈ List.drop (s.used + 1)
            ((s.slots ++ List.replicate s.chunkSize none).set s.used
              (some (id, construct s.componentMetaObject m))), sl = none
          rw [List.drop_set_of_lt _ _ (Nat.lt_succ_self _)]
          intro sl hsl
          obtain ⟨i, hi', hget⟩ := List.mem_drop_iff_getElem.mp hsl
          rw [List.getElem_append_right (by omega)] at hget
          rw [← hget]
          exact List.getElem_replicate _ _
        · exact hperm.nodup_iff.mpr (List.nodup_cons.mpr ⟨hfresh, h.ids_nodup⟩)
        · exact fun _ => hinv
        · show s.used + 1 = max s.used (((s.slots ++ List.replicate s.chunkSize none).set
            s.used _).countP (fun sl : Option (EntityId × QObject) => sl.isSome))
          rw [hcount]; omega
      · rw [if_neg hroom]
        exact same

end PooledEntitySystem
namespace PooledEntitySystem

/-- The invariant is kept by `destroyComponent`, which hands out no slot. -/
theorem destroyComponent_inv (s : PooledEntitySystem) (id : EntityId) (h : WF s) :
    WF (s.destroyComponent id).2 ∧
      (s.destroyComponent id).2.used = max s.used (s.destroyComponent id).2.count ∧
      (s.destroyComponent id).2.chunkSize = s.chunkSize ∧
      (s.destroyComponent id).2.componentMetaObject = s.componentMetaObject := by
  have hcu := count_le_used s h
  unfold destroyComponent
  cases hc : s.component id with
  | none =>
    show WF s ∧ s.used = max s.used s.count ∧ _ ∧ _
    exact ⟨h, by omega, rfl, rfl⟩
  | some a =>
    obtain ⟨o, ho⟩ := slotOf_some s.slots id a hc
    obtain ⟨hcount, hperm⟩ := vacate_spec s.slots a (id, o) ho
    have hlt := (List.getElem?_eq_some.mp ho).1
    have hau : a < s.used := by
      by_contra hge
      have hmem : some (id, o) ∈ s.slots.drop s.used :=
        List.mem_iff_getElem?.mpr ⟨a - s.used, by
          rw [List.getElem?_drop, Nat.add_sub_cancel' (Nat.le_of_not_lt hge)]; exact ho⟩
      cases h.fresh_unoccupied _ hmem
    have hnf : a ∉ s.freeList := by
      intro hmem
      have := (h.free_unoccupied a hmem).2
      rw [ho] at this
      cases this
    have hbal := h.balance
    have hc1 : s.slots.countP (fun sl => sl.isSome) = s.count := rfl
    refine ⟨⟨?_, ?_, ?_, ?_, ?_, ?_, ?_, ?_, ?_⟩, ?_, rfl, rfl⟩
    · show s.chunkSize ∣ (s.slots.set a none).length
      rw [List.length_set]; exact h.chunks
    · show s.used ≤ (s.slots.set a none).length
      rw [List.length_set]; exact h.used_le
    · show (s.slots.set a none).length < s.used + s.chunkSize ∨ (s.slots.set a none).length = 0
      rw [List.length_set]; exact h.tight
    · show (s.slots.set a none).countP (fun sl => sl.isSome) + (a :: s.freeList).length = s.used
      rw [List.length_cons]; omega
    · exact List.nodup_cons.mpr ⟨hnf, h.free_nodup⟩
    · intro b hb
      show b < s.used ∧ (s.slots.set a none)[b]? = some none
      rcases List.mem_cons.mp hb with rfl | hb'
      · exact ⟨hau, by rw [List.getElem?_set_self hlt]⟩
      · have hb2 := h.free_unoccupied b hb'
        have hne : a ≠ b := fun e => hnf (e ▸ hb')
        exact ⟨hb2.1, by rw [List.getElem?_set_ne hne]; exact hb2.2⟩
    · show ∀ sl ∈ (s.slots.set a none).drop s.used, sl = none
      rw [List.drop_set_of_lt _ _ hau]; exact h.fresh_unoccupied
    · exact (List.nodup_cons.mp (hperm.nodup_iff.mpr h.ids_nodup)).2
    · intro hne
      apply h.constructible
      intro he
      apply hne
      show s.slots.set a none = []
      rw [he]; rfl
    · show s.used = max s.used ((s.slots.set a none).countP (fun sl => sl.isSome))
      omega

theorem step_inv (s : PooledEntitySystem) (op : PoolOp) (h : WF s) :
    WF (s.step op) ∧ (s.step op).used = max s.used (s.step op).count ∧
      (s.step op).chunkSize = s.chunkSize ∧
      (s.step op).componentMetaObject = s.componentMetaObject := by
  cases op with
  | create id m => exact createComponent_inv s id m h
  | destroy id => exact destroyComponent_inv s id h

/-- Along every sequence of calls the invariant is kept and the number of slots handed
out by appending is the peak number of live components. -/
theorem run_inv (ops : List PoolOp) (s : PooledEntitySystem) (h : WF s) :
    WF (run ops s) ∧ (run ops s).used = max s.used (peak ops s) ∧
      (run ops s).chunkSize = s.chunkSize ∧
      (run ops s).componentMetaObject = s.componentMetaObject := by
  induction ops generalizing s with
  | nil =>
    have := count_le_used s h
    exact ⟨h, by show s.used = max s.used s.count; omega, rfl, rfl⟩
  | cons op ops ih =>
    obtain ⟨h1, hu1, hc1, hm1⟩ := step_inv s op h
    obtain ⟨h2, hu2, hc2, hm2⟩ := ih (s.step op) h1
    have hcs := count_le_used s h
    have hpk : (s.step op).count ≤ peak ops (s.step op) := by
      cases ops with
      | nil => exact Nat.le_refl _
      | cons op2 ops2 => exact Nat.le_max_left _ _
    refine ⟨h2, ?_, hc2.trans hc1, hm2.trans hm1⟩
    show (run ops (s.step op)).used = max s.used (max s.count (peak ops (s.step op)))
    omega

theorem capacity_le_createComponent (s : PooledEntitySystem) (id : EntityId) (m : QVariantMap) :
    s.capacity ≤ (s.createComponent id m).2.capacity := by
  unfold createComponent capacity
  split
  · exact Nat.le_refl _
  split
  · exact Nat.le_refl _
  split
  · show _ ≤ (s.slots.set _ _).length
    rw [List.length_set]
  · split
    · show _ ≤ (s.slots.set _ _).length
      rw [List.length_set]
    · split
      · show _ ≤ ((s.slots ++ List.replicate s.chunkSize none).set _ _).length
        rw [List.length_set, List.length_append]
        exact Nat.le_add_right _ _
      · exact Nat.le_refl _

theorem capacity_destroyComponent (s : PooledEntitySystem) (id : EntityId) :
    (s.destroyComponent id).2.capacity = s.capacity := by
  unfold destroyComponent capacity
  split
  · rfl
  · show (s.slots.set _ none).length = _
    rw [List.length_set]

theorem capacity_le_step (s : PooledEntitySystem) (op : PoolOp) :
    s.capacity ≤ (s.step op).capacity := by
  cases op with
  | create id m => exact capacity_le_createComponent s id m
  | destroy id => exact Nat.le_of_eq (capacity_destroyComponent s id).symm

end PooledEntitySystem

/-- Claim C21: for a pooled store built with initial capacity 0 and chunk size
`c > 0`, after every sequence of `createComponent` and `destroyComponent` calls
`capacity()` is a multiple of `c`, `count()` is at most `capacity()`, and
`capacity()` is the smallest multiple of `c` that is at least the peak number of
simultaneously live components so far, which it exceeds by less than one chunk; a
further `destroyComponent` leaves the capacity as it is and no call lowers it. -/
theorem C21_capacity_tracks_peak (mo : QMetaObject) (c : Nat) (hc : 0 < c)
    (ops : List PoolOp) :
    c ∣ (PooledEntitySystem.run ops (PooledEntitySystem.empty mo c)).capacity ∧
      (PooledEntitySystem.run ops (PooledEntitySystem.empty mo c)).count
        ≤ (PooledEntitySystem.run ops (PooledEntitySystem.empty mo c)).capacity ∧
      PooledEntitySystem.peak ops (PooledEntitySystem.empty mo c)
        ≤ (PooledEntitySystem.run ops (PooledEntitySystem.empty mo c)).capacity ∧
      (∀ n, c ∣ n → PooledEntitySystem.peak ops (PooledEntitySystem.empty mo c) ≤ n →
        (PooledEntitySystem.run ops (PooledEntitySystem.empty mo c)).capacity ≤ n) ∧
      (PooledEntitySystem.run ops (PooledEntitySystem.empty mo c)).capacity
        < PooledEntitySystem.peak ops (PooledEntitySystem.empty mo c) + c ∧
      (∀ id, ((PooledEntitySystem.run ops
          (PooledEntitySystem.empty mo c)).destroyComponent id).2.capacity
        = (PooledEntitySystem.run ops (PooledEntitySystem.empty mo c)).capacity) ∧
      ∀ op, (PooledEntitySystem.run ops (PooledEntitySystem.empty mo c)).capacity
        ≤ ((PooledEntitySystem.run ops (PooledEntitySystem.empty mo c)).step op).capacity := by
  obtain ⟨hwf, hused, hcs, _⟩ :=
    PooledEntitySystem.run_inv ops _ (PooledEntitySystem.pool_WF_empty mo c)
  have hcs' : (PooledEntitySystem.run ops (PooledEntitySystem.empty mo c)).chunkSize = c := hcs
  have hpeak : (PooledEntitySystem.run ops (PooledEntitySystem.empty mo c)).used
      = PooledEntitySystem.peak ops (PooledEntitySystem.empty mo c) := by
    rw [hused]
    show max 0 _ = _
    exact Nat.zero_max _
  have hdvd := hwf.chunks
  have hle := hwf.used_le
  have htight := hwf.tight
  rw [hcs'] at hdvd htight
  rw [hpeak] at hle htight
  have hlt : (PooledEntitySystem.run ops (PooledEntitySystem.empty mo c)).slots.length
      < PooledEntitySystem.peak ops (PooledEntitySystem.empty mo c) + c := by
    rcases htight with ht | ht
    · exact ht
    · rw [ht]; omega
  refine ⟨hdvd, List.countP_le_length _, hle, ?_, hlt,
    fun id => PooledEntitySystem.capacity_destroyComponent _ id,
    fun op => PooledEntitySystem.capacity_le_step _ op⟩
  intro n hn hp
  exact Nat.le_of_lt_add_of_dvd (Nat.lt_of_lt_of_le hlt (Nat.add_le_add_right hp c)) hdvd hn

/-- Witness of C21 with chunk size 2: three creates give count 3 and capacity 4, and
one create followed by its destroy gives count 0 and capacity 2. -/
theorem C21_capacity_tracks_peak_witness :
    0 < 2 ∧
    ((PooledEntitySystem.run [.create 1 [], .create 2 [], .create 3 []]
        (PooledEntitySystem.empty testingMetaObject 2)).count = 3 ∧
      (PooledEntitySystem.run [.create 1 [], .create 2 [], .create 3 []]
        (PooledEntitySystem.empty testingMetaObject 2)).capacity = 4 ∧
      (PooledEntitySystem.run [.create 1 [], .destroy 1]
        (PooledEntitySystem.empty testingMetaObject 2)).count = 0 ∧
      (PooledEntitySystem.run [.create 1 [], .destroy 1]
        (PooledEntitySystem.empty testingMetaObject 2)).capacity = 2 ∧
      PooledEntitySystem.peak [.create 1 [], .destroy 1]
        (PooledEntitySystem.empty testingMetaObject 2) = 1) ∧
    (2 ∣ (PooledEntitySystem.run [.create 1 [], .destroy 1]
        (PooledEntitySystem.empty testingMetaObject 2)).capacity ∧
      (PooledEntitySystem.run [.create 1 [], .destroy 1]
          (PooledEntitySystem.empty testingMetaObject 2)).count
        ≤ (PooledEntitySystem.run [.create 1 [], .destroy 1]
            (PooledEntitySystem.empty testingMetaObject 2)).capacity ∧
      PooledEntitySystem.peak [.create 1 [], .destroy 1]
          (PooledEntitySystem.empty testingMetaObject 2)
        ≤ (PooledEntitySystem.run [.create 1 [], .destroy 1]
            (PooledEntitySystem.empty testingMetaObject 2)).capacity ∧
      (∀ n, 2 ∣ n → PooledEntitySystem.peak [.create 1 [], .destroy 1]
          (PooledEntitySystem.empty testingMetaObject 2) ≤ n →
        (PooledEntitySystem.run [.create 1 [], .destroy 1]
          (PooledEntitySystem.empty testingMetaObject 2)).capacity ≤ n) ∧
      (PooledEntitySystem.run [.create 1 [], .destroy 1]
          (PooledEntitySystem.empty testingMetaObject 2)).capacity
        < PooledEntitySystem.peak [.create 1 [], .destroy 1]
            (PooledEntitySystem.empty testingMetaObject 2) + 2 ∧
      (∀ id, ((PooledEntitySystem.run [.create 1 [], .destroy 1]
          (PooledEntitySystem.empty testingMetaObject 2)).destroyComponent id).2.capacity
        = (PooledEntitySystem.run [.create 1 [], .destroy 1]
            (PooledEntitySystem.empty testingMetaObject 2)).capacity) ∧
      ∀ op, (PooledEntitySystem.run [.create 1 [], .destroy 1]
          (PooledEntitySystem.empty testingMetaObject 2)).capacity
        ≤ ((PooledEntitySystem.run [.create 1 [], .destroy 1]
            (PooledEntitySystem.empty testingMetaObject 2)).step op).capacity) :=
  ⟨by decide, by decide,
    C21_capacity_tracks_peak testingMetaObject 2 (by decide) [.create 1 [], .destroy 1]⟩
namespace PooledEntitySystem

theorem skip_of_suffix (s : PooledEntitySystem) (pre l : List (Option (EntityId × QObject)))
    (hs : s.slots = pre ++ l) :
    s.skip pre.length
      = min s.slots.length (pre.length + (l.takeWhile (fun sl => sl.isNone)).length) := by
  unfold skip
  rw [hs, List.drop_left']
  rfl

/-- The walk from the first live component at or after an address visits the live
components of the slots from that address on, in slot order. -/
theorem walk_skip (s : PooledEntitySystem) (l : List (Option (EntityId × QObject))) :
    ∀ (pre : List (Option (EntityId × QObject))) (fuel : Nat), s.slots = pre ++ l →
      l.length < fuel → s.walk fuel (s.skip pre.length) = some (entriesFrom l pre.length) := by
  induction l with
  | nil =>
    intro pre fuel hs hf
    have hlen : s.slots.length = pre.length := by rw [hs]; simp
    have hsk : s.skip pre.length = s.end_ := by
      rw [skip_of_suffix s pre [] hs, hlen]
      simp [end_, hlen]
    cases fuel with
    | zero => cases hf
    | succ f =>
      rw [hsk]
      show (if s.end_ = s.end_ then some [] else _) = _
      rw [if_pos rfl]
      rfl
  | cons x r ih =>
    intro pre fuel hs hf
    have hs' : s.slots = (pre ++ [x]) ++ r := by rw [hs]; simp
    have hlen : s.slots.length = pre.length + (r.length + 1) := by rw [hs]; simp
    have hpl : (pre ++ [x]).length = pre.length + 1 := by simp
    cases x with
    | none =>
      have hsk : s.skip pre.length = s.skip (pre ++ [none]).length := by
        rw [skip_of_suffix s pre _ hs, skip_of_suffix s _ r hs', hpl]
        simp only [List.takeWhile_cons, Option.isNone_none, if_true, List.length_cons]
        congr 1
        omega
      rw [hsk, ih (pre ++ [none]) fuel hs' (Nat.lt_of_succ_lt hf), hpl]
      rfl
    | some kv =>
      obtain ⟨i, o⟩ := kv
      have hsk : s.skip pre.length = pre.length := by
        rw [skip_of_suffix s pre _ hs, hlen]
        simp
      have hget : s.slots[pre.length]? = some (some (i, o)) := by
        rw [hs, List.getElem?_append_right (Nat.le_refl _), Nat.sub_self]
        simp
      cases fuel with
      | zero => cases hf
      | succ f =>
        have hne : pre.length ≠ s.end_ := by
          show pre.length ≠ s.slots.length
          omega
        have hd : s.deref pre.length = some (i, pre.length) := by
          unfold deref
          rw [hget]
        have hrec := ih (pre ++ [some (i, o)]) f hs' (Nat.lt_of_succ_lt_succ hf)
        rw [hpl] at hrec
        rw [hsk]
        show (if pre.length = s.end_ then some [] else
          match s.deref pre.length with
          | none => none
          | some e => (walk s f (s.increment pre.length)).map (fun l => e :: l)) = _
        rw [if_neg hne, hd]
        show (walk s f (s.skip (pre.length + 1))).map _ = _
        rw [hrec]
        rfl

/-- The whole walk visits the live components in slot order. -/
theorem walk_begin (s : PooledEntitySystem) (fuel : Nat) (hf : s.capacity < fuel) :
    s.walk fuel s.begin = some (entriesFrom s.slots 0) :=
  walk_skip s s.slots [] fuel rfl hf

/-- Where a walk that succeeds starts: on its first component, or at the end when it
visits none. -/
theorem walk_head (s : PooledEntitySystem) (fuel q : Nat) (l : List (EntityId × Nat))
    (h : s.walk fuel q = some l) : s.deref q = l.head? ∧ (l = [] → q = s.end_) := by
  cases fuel with
  | zero => cases h
  | succ f =>
    have h' : (if q = s.end_ then some [] else
        match s.deref q with
        | none => none
        | some e => (walk s f (s.increment q)).map (fun l => e :: l)) = some l := h
    by_cases hq : q = s.end_
    · rw [if_pos hq] at h'
      cases h'
      refine ⟨?_, fun _ => hq⟩
      unfold deref
      rw [hq, show s.end_ = s.slots.length from rfl, List.getElem?_eq_none (Nat.le_refl _)]
      rfl
    · rw [if_neg hq] at h'
      cases hd : s.deref q with
      | none => rw [hd] at h'; cases h'
      | some e =>
        rw [hd] at h'
        obtain ⟨l', _, rfl⟩ := Option.map_eq_some'.mp h'
        exact ⟨rfl, fun e' => by cases e'⟩

theorem deref_some (s : PooledEntitySystem) (p : Nat) (i : EntityId) (a : Nat)
    (h : s.deref p = some (i, a)) : a = p ∧ ∃ o, s.slots[p]? = some (some (i, o)) := by
  unfold deref at h
  cases hg : s.slots[p]? with
  | none => rw [hg] at h; cases h
  | some sl =>
    cases sl with
    | none => rw [hg] at h; cases h
    | some kv =>
      obtain ⟨j, o⟩ := kv
      rw [hg] at h
      cases h
      exact ⟨rfl, o, rfl⟩

theorem slotOf_replicate (n : Nat) (id : EntityId) :
    slotOf (List.replicate n none) id = none := by
  induction n with
  | zero => rfl
  | succ n ih =>
    show (slotOf (List.replicate n none) id).map _ = none
    rw [ih]
    rfl

end PooledEntitySystem

/-- Claim C22: in a pooled store that satisfies its representation invariant, for an
iterator `p` that stands on the live component of id `i`, `erase(p)` removes that
component (`component(i)` is absent afterwards) and returns an iterator `q` from
which the walk visits exactly the components the walk of the store would have visited
after `p`, in the same order: `q` stands on the first of them, or is `end()` when
there is none.  The components visited before `p` together with those visited from
`q` on are the components of the store after the erase, each id once. -/
theorem C22_erase_returns_next (s : PooledEntitySystem) (p : Nat) (i : EntityId) (fuel : Nat)
    (hwf : s.WF) (hp : s.deref p = some (i, p)) (hfuel : s.capacity < fuel) :
    ∃ q before after,
      (s.erase p).1 = .ok q ∧
      (s.erase p).2.component i = none ∧
      s.walk fuel s.begin = some (before ++ (i, p) :: after) ∧
      (s.erase p).2.walk fuel q = some after ∧
      (s.erase p).2.walk fuel (s.erase p).2.begin = some (before ++ after) ∧
      (s.erase p).2.deref q = after.head? ∧
      (after = [] → q = (s.erase p).2.end_) ∧
      ((before ++ after).map Prod.fst).Nodup ∧
      (s.erase p).2.count + 1 = s.count := by
  obtain ⟨_, o, ho⟩ := PooledEntitySystem.deref_some s p i p hp
  have herase : s.erase p = (.ok ((s.release p i).skip (p + 1)), s.release p i) := by
    unfold PooledEntitySystem.erase
    rw [hp]
  obtain ⟨hsplit, htake, hset⟩ := PooledEntitySystem.slots_split s.slots p _ ho
  have hslots : (s.release p i).slots = s.slots.take p ++ none :: s.slots.drop (p + 1) :=
    hset none
  have hslots' : (s.release p i).slots = (s.slots.take p ++ [none]) ++ s.slots.drop (p + 1) := by
    rw [hslots]; simp
  have hcap : (s.release p i).capacity = s.capacity := by
    show (s.slots.set p none).length = s.slots.length
    rw [List.length_set]
  have hlt := (List.getElem?_eq_some.mp ho).1
  have hdrop : (s.slots.drop (p + 1)).length < fuel := by
    rw [List.length_drop]
    exact Nat.lt_of_le_of_lt (Nat.sub_le _ _) hfuel
  have hafter := PooledEntitySystem.walk_skip (s.release p i) (s.slots.drop (p + 1))
    (s.slots.take p ++ [none]) fuel hslots' hdrop
  have hpl : (s.slots.take p ++ [none]).length = p + 1 := by
    rw [List.length_append, htake]; rfl
  rw [hpl] at hafter
  have hall := PooledEntitySystem.walk_begin (s.release p i) fuel (by rw [hcap]; exact hfuel)
  have hentries : PooledEntitySystem.entriesFrom (s.release p i).slots 0
      = PooledEntitySystem.entriesFrom (s.slots.take p) 0
        ++ PooledEntitySystem.entriesFrom (s.slots.drop (p + 1)) (p + 1) :=
    PooledEntitySystem.entriesFrom_split s.slots p _ ho none
  have hold : PooledEntitySystem.entriesFrom s.slots 0
      = PooledEntitySystem.entriesFrom (s.slots.take p) 0
        ++ (i, p) :: PooledEntitySystem.entriesFrom (s.slots.drop (p + 1)) (p + 1) :=
    PooledEntitySystem.entriesFrom_split_self s.slots p _ ho
  have hnd := hwf.ids_nodup
  rw [hold, List.map_append, List.map_cons] at hnd
  have hnd' : ((PooledEntitySystem.entriesFrom (s.slots.take p) 0
      ++ PooledEntitySystem.entriesFrom (s.slots.drop (p + 1)) (p + 1)).map Prod.fst).Nodup := by
    rw [List.map_append]
    exact (List.perm_middle.nodup_iff.mp hnd).of_cons
  have hni : i ∉ (PooledEntitySystem.entriesFrom (s.slots.take p) 0
      ++ PooledEntitySystem.entriesFrom (s.slots.drop (p + 1)) (p + 1)).map Prod.fst := by
    rw [List.map_append]
    exact (List.nodup_cons.mp (List.perm_middle.nodup_iff.mp hnd)).1
  have hhead := PooledEntitySystem.walk_head _ _ _ _ hafter
  refine ⟨(s.release p i).skip (p + 1), PooledEntitySystem.entriesFrom (s.slots.take p) 0,
    PooledEntitySystem.entriesFrom (s.slots.drop (p + 1)) (p + 1), ?_⟩
  rw [herase]
  refine ⟨rfl, ?_, ?_, hafter, ?_, hhead.1, hhead.2, hnd', ?_⟩
  · apply (PooledEntitySystem.slotOf_eq_none_iff _ i 0).mpr
    rw [hentries]
    exact hni
  · rw [PooledEntitySystem.walk_begin s fuel hfuel, hold]
  · rw [hall, hentries]
  · exact (PooledEntitySystem.vacate_spec s.slots p (i, o) ho).1

/-- Witness of C22 on the store of the `erase` test: components for the ids 1, 2 and
3, the iterator on the component of id 2. -/
theorem C22_erase_returns_next_witness :
    (PooledEntitySystem.run [.create 1 [("myint", .int 1)], .create 2 [("myint", .int 2)],
        .create 3 [("myint", .int 3)]] (PooledEntitySystem.empty testingMetaObject 4)).WF ∧
    (PooledEntitySystem.run [.create 1 [("myint", .int 1)], .create 2 [("myint", .int 2)],
        .create 3 [("myint", .int 3)]]
      (PooledEntitySystem.empty testingMetaObject 4)).deref 1 = some (2, 1) ∧
    (PooledEntitySystem.run [.create 1 [("myint", .int 1)], .create 2 [("myint", .int 2)],
        .create 3 [("myint", .int 3)]]
      (PooledEntitySystem.empty testingMetaObject 4)).capacity < 5 ∧
    ∃ q before after,
      ((PooledEntitySystem.run [.create 1 [("myint", .int 1)], .create 2 [("myint", .int 2)],
        .create 3 [("myint", .int 3)]]
        (PooledEntitySystem.empty testingMetaObject 4)).erase 1).1 = .ok q ∧
      ((PooledEntitySystem.run [.create 1 [("myint", .int 1)], .create 2 [("myint", .int 2)],
        .create 3 [("myint", .int 3)]]
        (PooledEntitySystem.empty testingMetaObject 4)).erase 1).2.component 2 = none ∧
      (PooledEntitySystem.run [.create 1 [("myint", .int 1)], .create 2 [("myint", .int 2)],
        .create 3 [("myint", .int 3)]] (PooledEntitySystem.empty testingMetaObject 4)).walk 5
          (PooledEntitySystem.run [.create 1 [("myint", .int 1)], .create 2 [("myint", .int 2)],
            .create 3 [("myint", .int 3)]]
            (PooledEntitySystem.empty testingMetaObject 4)).begin
        = some (before ++ (2, 1) :: after) ∧
      ((PooledEntitySystem.run [.create 1 [("myint", .int 1)], .create 2 [("myint", .int 2)],
        .create 3 [("myint", .int 3)]]
        (PooledEntitySystem.empty testingMetaObject 4)).erase 1).2.walk 5 q = some after ∧
      ((PooledEntitySystem.run [.create 1 [("myint", .int 1)], .create 2 [("myint", .int 2)],
        .create 3 [("myint", .int 3)]]
        (PooledEntitySystem.empty testingMetaObject 4)).erase 1).2.walk 5
          ((PooledEntitySystem.run [.create 1 [("myint", .int 1)],
            .create 2 [("myint", .int 2)], .create 3 [("myint", .int 3)]]
            (PooledEntitySystem.empty testingMetaObject 4)).erase 1).2.begin
        = some (before ++ after) ∧
      ((PooledEntitySystem.run [.create 1 [("myint", .int 1)], .create 2 [("myint", .int 2)],
        .create 3 [("myint", .int 3)]]
        (PooledEntitySystem.empty testingMetaObject 4)).erase 1).2.deref q = after.head? ∧
      (after = [] → q = ((PooledEntitySystem.run [.create 1 [("myint", .int 1)],
        .create 2 [("myint", .int 2)], .create 3 [("myint", .int 3)]]
        (PooledEntitySystem.empty testingMetaObject 4)).erase 1).2.end_) ∧
      ((before ++ after).map Prod.fst).Nodup ∧
      ((PooledEntitySystem.run [.create 1 [("myint", .int 1)], .create 2 [("myint", .int 2)],
        .create 3 [("myint", .int 3)]]
        (PooledEntitySystem.empty testingMetaObject 4)).erase 1).2.count + 1
        = (PooledEntitySystem.run [.create 1 [("myint", .int 1)], .create 2 [("myint", .int 2)],
            .create 3 [("myint", .int 3)]]
            (PooledEntitySystem.empty testingMetaObject 4)).count :=
  ⟨(PooledEntitySystem.run_inv _ _ (PooledEntitySystem.pool_WF_empty testingMetaObject 4)).1,
    by decide, by decide,
    C22_erase_returns_next _ 1 2 5
      (PooledEntitySystem.run_inv _ _ (PooledEntitySystem.pool_WF_empty testingMetaObject 4)).1
      (by decide) (by decide)⟩
/-- Counterexample to C23 as stated: a pooled store with chunk size 2 that holds no
component and has no chunk yet.  After `clear()` the next `createComponent` succeeds
with count 1, and the capacity, 0 before the clear, is 2. -/
theorem C23_counterexample :
    (PooledEntitySystem.empty testingMetaObject 2).count = 0 ∧
      (PooledEntitySystem.empty testingMetaObject 2).capacity = 0 ∧
      ((PooledEntitySystem.empty testingMetaObject 2).clear.createComponent 1 []).1 = .ok 0 ∧
      ((PooledEntitySystem.empty testingMetaObject 2).clear.createComponent 1 []).2.count = 1 ∧
      ¬ ((PooledEntitySystem.empty testingMetaObject 2).clear.createComponent 1 []).2.capacity
        ≤ (PooledEntitySystem.empty testingMetaObject 2).capacity := by
  decide

/-- Claim C23, amended: for a pooled store reached from the empty store by a
sequence of `createComponent` and `destroyComponent` calls and whose `capacity()` is
positive (it holds, or has held, a component), `clear()` makes `count()` equal 0 and
every id absent and keeps the capacity; the very next `createComponent`, for any id,
succeeds, gives `count() = 1`, makes the id present and leaves `capacity()` at its
value before the clear. -/
theorem C23_clear_then_create (mo : QMetaObject) (c : Nat) (ops : List PoolOp)
    (id : EntityId) (m : QVariantMap)
    (hcap : 0 < (PooledEntitySystem.run ops (PooledEntitySystem.empty mo c)).capacity) :
    (PooledEntitySystem.run ops (PooledEntitySystem.empty mo c)).clear.count = 0 ∧
      (∀ j, (PooledEntitySystem.run ops (PooledEntitySystem.empty mo c)).clear.component j
        = none) ∧
      (PooledEntitySystem.run ops (PooledEntitySystem.empty mo c)).clear.capacity
        = (PooledEntitySystem.run ops (PooledEntitySystem.empty mo c)).capacity ∧
      ((PooledEntitySystem.run ops (PooledEntitySystem.empty mo c)).clear.createComponent
        id m).1 = .ok 0 ∧
      ((PooledEntitySystem.run ops (PooledEntitySystem.empty mo c)).clear.createComponent
        id m).2.count = 1 ∧
      ((PooledEntitySystem.run ops (PooledEntitySystem.empty mo c)).clear.createComponent
        id m).2.component id = some 0 ∧
      ((PooledEntitySystem.run ops (PooledEntitySystem.empty mo c)).clear.createComponent
        id m).2.capacity
        = (PooledEntitySystem.run ops (PooledEntitySystem.empty mo c)).capacity := by
  obtain ⟨hwf, _, _, _⟩ :=
    PooledEntitySystem.run_inv ops _ (PooledEntitySystem.pool_WF_empty mo c)
  generalize PooledEntitySystem.run ops (PooledEntitySystem.empty mo c) = s at hcap hwf ⊢
  have hinv : s.componentMetaObject.invokable = true :=
    hwf.constructible (fun e => by
      have : s.capacity = 0 := by show s.slots.length = 0; rw [e]; rfl
      omega)
  obtain ⟨n, hn⟩ : ∃ n, s.slots.length = n + 1 := ⟨s.slots.length - 1, by
    have : 0 < s.slots.length := hcap
    omega⟩
  have hnone : ∀ j, s.clear.component j = none :=
    fun j => PooledEntitySystem.slotOf_replicate _ j
  have hcreate : s.clear.createComponent id m
      = (.ok 0,
          { s.clear with
            slots := s.clear.slots.set 0
              (some (id, PooledEntitySystem.construct s.componentMetaObject m)),
            freeList := (List.range n).map Nat.succ,
            trace := s.clear.trace ++
              [.componentCreated s.componentMetaObject.className id 0] }) := by
    unfold PooledEntitySystem.createComponent
    rw [hnone id]
    have hfree : s.clear.freeList = 0 :: (List.range n).map Nat.succ := by
      show List.range s.slots.length = _
      rw [hn, List.range_succ_eq_map]
    have hmo : s.clear.componentMetaObject = s.componentMetaObject := rfl
    rw [hmo, hinv, hfree]
    rfl
  have hslots : s.clear.slots = none :: List.replicate n none := by
    show List.replicate s.slots.length none = _
    rw [hn]; rfl
  refine ⟨?_, hnone, ?_, ?_, ?_, ?_, ?_⟩
  · show (List.replicate s.slots.length none).countP (fun sl => sl.isSome) = 0
    rw [List.countP_replicate]
    rfl
  · show (List.replicate s.slots.length none).length = s.slots.length
    rw [List.length_replicate]
  · rw [hcreate]
  · rw [hcreate]
    show (s.clear.slots.set 0 _).countP (fun sl => sl.isSome) = 1
    rw [hslots, List.set_cons_zero, List.countP_cons_of_pos _ _ rfl, List.countP_replicate]
    rfl
  · rw [hcreate]
    show PooledEntitySystem.slotOf (s.clear.slots.set 0 _) id = some 0
    rw [hslots]
    show (if id = id then some 0 else _) = some 0
    rw [if_pos rfl]
  · rw [hcreate]
    show (s.clear.slots.set 0 _).length = s.slots.length
    rw [List.length_set]
    show (List.replicate s.slots.length none).length = s.slots.length
    rw [List.length_replicate]

/-- Witness of C23 (amended) on the store of the `clear` test: components for the ids
1, 2 and 3 with chunk size 4, then `clear()` and a create for the id 1. -/
theorem C23_clear_then_create_witness :
    0 < (PooledEntitySystem.run [.create 1 [], .create 2 [], .create 3 []]
      (PooledEntitySystem.empty testingMetaObject 4)).capacity ∧
    ((PooledEntitySystem.run [.create 1 [], .create 2 [], .create 3 []]
        (PooledEntitySystem.empty testingMetaObject 4)).clear.count = 0 ∧
      (∀ j, (PooledEntitySystem.run [.create 1 [], .create 2 [], .create 3 []]
        (PooledEntitySystem.empty testingMetaObject 4)).clear.component j = none) ∧
      (PooledEntitySystem.run [.create 1 [], .create 2 [], .create 3 []]
          (PooledEntitySystem.empty testingMetaObject 4)).clear.capacity
        = (PooledEntitySystem.run [.create 1 [], .create 2 [], .create 3 []]
            (PooledEntitySystem.empty testingMetaObject 4)).capacity ∧
      ((PooledEntitySystem.run [.create 1 [], .create 2 [], .create 3 []]
        (PooledEntitySystem.empty testingMetaObject 4)).clear.createComponent 1 []).1
        = .ok 0 ∧
      ((PooledEntitySystem.run [.create 1 [], .create 2 [], .create 3 []]
        (PooledEntitySystem.empty testingMetaObject 4)).clear.createComponent 1 []).2.count
        = 1 ∧
      ((PooledEntitySystem.run [.create 1 [], .create 2 [], .create 3 []]
        (PooledEntitySystem.empty testingMetaObject 4)).clear.createComponent 1
          []).2.component 1 = some 0 ∧
      ((PooledEntitySystem.run [.create 1 [], .create 2 [], .create 3 []]
        (PooledEntitySystem.empty testingMetaObject 4)).clear.createComponent 1 []).2.capacity
        = (PooledEntitySystem.run [.create 1 [], .create 2 [], .create 3 []]
            (PooledEntitySystem.empty testingMetaObject 4)).capacity) :=
  ⟨by decide,
    C23_clear_then_create testingMetaObject 4 [.create 1 [], .create 2 [], .create 3 []] 1 []
      (by decide)⟩

/-! ## Sequences of calls on a store -/

namespace SimpleEntitySystem

theorem walkKeys_eq_drop (s : SimpleEntitySystem) :
    ∀ (fuel it : Nat), it ≤ s.components.length → s.components.length - it < fuel →
      s.walkKeys fuel it = some ((s.components.drop it).map Prod.fst) := by
  intro fuel
  induction fuel with
  | zero => intro it _ h; omega
  | succ n ih =>
    intro it hle hfuel
    by_cases he : it = s.components.length
    · subst he
      simp [walkKeys, end_]
    · have hlt : it < s.components.length := Nat.lt_of_le_of_ne hle he
      have hget : s.components[it]? = some s.components[it] := List.getElem?_eq_getElem hlt
      have hrec := ih (it + 1) hlt (by omega)
      have hdrop : s.components.drop it = s.components[it] :: s.components.drop (it + 1) :=
        List.drop_eq_getElem_cons hlt
      show (if it = s.end_ then some [] else
        match s.components[it]? with
        | none => none
        | some kv => (walkKeys s n (it + 1)).map (fun l => kv.1 :: l)) = _
      have he' : ¬ it = s.end_ := he
      rw [if_neg he', hget, hdrop]
      show (walkKeys s n (it + 1)).map _ = _
      rw [hrec]
      rfl

/-- What one `createComponent` does to the map of a store. -/
theorem createComponent_components (s : SimpleEntitySystem) (rt : Runtime) (id : EntityId)
    (m : QVariantMap) :
    (∃ p, (s.createComponent rt id m).1 = .ok p ∧ s.getComponent id = none ∧
        (s.createComponent rt id m).2.1.components = s.components.insert id p) ∨
      ((∀ p, (s.createComponent rt id m).1 ≠ .ok p) ∧ (s.createComponent rt id m).2.1 = s) := by
  unfold createComponent
  by_cases hd : (s.getComponent id).isSome = true
  · rw [if_pos hd]
    exact Or.inr ⟨fun p h => (by cases h), rfl⟩
  · rw [if_neg hd]
    have hnone : s.getComponent id = none := by
      cases hg : s.getComponent id with
      | none => rfl
      | some p => rw [hg] at hd; exact absurd rfl hd
    cases hr : s.createObjectInstance rt id m with
    | mk o rt' =>
      cases o with
      | ok a =>
        cases a with
        | none => exact Or.inr ⟨fun p h => (by cases h), rfl⟩
        | some obj => exact Or.inl ⟨obj, rfl, hnone, rfl⟩
      | thrown e => exact Or.inr ⟨fun p h => (by cases h), rfl⟩
      | crash => exact Or.inr ⟨fun p h => (by cases h), rfl⟩

/-- What one `destroyComponent` does to the map of a store. -/
theorem destroyComponent_components (s : SimpleEntitySystem) (rt : Runtime) (id : EntityId) :
    (∃ p, (s.destroyComponent rt id).1 = true ∧ s.getComponent id = some p ∧
        (s.destroyComponent rt id).2.1.components = s.components.erase id) ∨
      ((s.destroyComponent rt id).1 = false ∧ (s.destroyComponent rt id).2.1 = s) := by
  unfold destroyComponent
  cases hf : s.components.find id with
  | none => exact Or.inr ⟨rfl, rfl⟩
  | some p => exact Or.inl ⟨p, rfl, hf, rfl⟩

theorem step_keys_nodup (st : SimpleEntitySystem × Runtime) (op : StoreOp)
    (h : (QMap.keys st.1.components).Nodup) : (QMap.keys (step st op).1.components).Nodup := by
  cases op with
  | create id m =>
    rcases createComponent_components st.1 st.2 id m with ⟨p, _, hnone, hc⟩ | ⟨_, hs⟩
    · show (QMap.keys (st.1.createComponent st.2 id m).2.1.components).Nodup
      rw [hc]
      exact (QMap.keys_insert_perm _ id p hnone).nodup_iff.mpr
        (List.nodup_cons.mpr ⟨(QMap.find_eq_none_iff _ id).mp hnone, h⟩)
    · show (QMap.keys (st.1.createComponent st.2 id m).2.1.components).Nodup
      rw [hs]; exact h
  | destroy id =>
    rcases destroyComponent_components st.1 st.2 id with ⟨p, _, _, hc⟩ | ⟨_, hs⟩
    · show (QMap.keys (st.1.destroyComponent st.2 id).2.1.components).Nodup
      rw [hc]
      exact List.Nodup.sublist ((QMap.erase_sublist _ id).map Prod.fst) h
    · show (QMap.keys (st.1.destroyComponent st.2 id).2.1.components).Nodup
      rw [hs]; exact h

theorem run_keys_nodup (ops : List StoreOp) (st : SimpleEntitySystem × Runtime)
    (h : (QMap.keys st.1.components).Nodup) : (QMap.keys (run ops st).1.components).Nodup := by
  induction ops generalizing st with
  | nil => exact h
  | cons op ops ih => exact ih (step st op) (step_keys_nodup st op h)

end SimpleEntitySystem

/-- Claim C24: after every sequence of `createComponent` and `destroyComponent` calls
on a store that starts empty, the ids `i` for which `getComponent(i)` is present form
a list without repetition whose length is `count()` and which the typed iteration
visits in full, each id once; from there a successful create raises the count by one,
a successful destroy lowers it by one, and a failed call leaves it unchanged. -/
theorem C24_count_matches_live_ids (mo : QMetaObject) (rt0 : Runtime) (ops : List StoreOp)
    (s : SimpleEntitySystem) (rt : Runtime)
    (hrun : SimpleEntitySystem.run ops ({ componentMetaObject := mo, components := [] }, rt0)
      = (s, rt)) :
    ∃ ids : List EntityId,
      ids.Nodup ∧
      (∀ i, i ∈ ids ↔ (s.getComponent i).isSome = true) ∧
      s.count = ids.length ∧
      (∀ fuel, ids.length < fuel → s.walkKeys fuel s.begin = some ids) ∧
      (∀ id m p, (s.createComponent rt id m).1 = .ok p →
        (s.createComponent rt id m).2.1.count = s.count + 1) ∧
      (∀ id m, (∀ p, (s.createComponent rt id m).1 ≠ .ok p) →
        (s.createComponent rt id m).2.1.count = s.count) ∧
      (∀ id, (s.destroyComponent rt id).1 = true →
        (s.destroyComponent rt id).2.1.count + 1 = s.count) ∧
      (∀ id, (s.destroyComponent rt id).1 = false →
        (s.destroyComponent rt id).2.1.count = s.count) := by
  have hnd := SimpleEntitySystem.run_keys_nodup ops
    ({ componentMetaObject := mo, components := [] }, rt0) List.nodup_nil
  rw [hrun] at hnd
  have hnd' : (QMap.keys s.components).Nodup := hnd
  have hlen : s.count = (QMap.keys s.components).length := by
    show s.components.length = (s.components.map Prod.fst).length
    rw [List.length_map]
  refine ⟨QMap.keys s.components, hnd', ?_, hlen, ?_, ?_, ?_, ?_, ?_⟩
  · intro i
    show i ∈ QMap.keys s.components ↔ (QMap.find s.components i).isSome = true
    have h := QMap.find_eq_none_iff s.components i
    cases hf : QMap.find s.components i with
    | none => rw [hf] at h; simpa using h.mp rfl
    | some p =>
      rw [hf] at h
      simp only [Option.isSome_some, iff_true]
      by_contra hni
      cases h.mpr hni
  · intro fuel hf
    exact SimpleEntitySystem.walkKeys_eq_drop s fuel 0 (Nat.zero_le _)
      (by rw [← hlen] at hf; exact hf)
  · intro id m p hok
    rcases SimpleEntitySystem.createComponent_components s rt id m with
      ⟨q, _, hnone, hc⟩ | ⟨hno, _⟩
    · show (s.createComponent rt id m).2.1.components.length = s.components.length + 1
      rw [hc]
      exact QMap.length_insert _ id q hnone
    · exact absurd hok (hno p)
  · intro id m hno
    rcases SimpleEntitySystem.createComponent_components s rt id m with
      ⟨q, hok, _, _⟩ | ⟨_, hs⟩
    · exact absurd hok (hno q)
    · rw [hs]
  · intro id hd
    rcases SimpleEntitySystem.destroyComponent_components s rt id with
      ⟨p, _, hsome, hc⟩ | ⟨hno, _⟩
    · show (s.destroyComponent rt id).2.1.components.length + 1 = s.components.length
      rw [hc]
      exact QMap.length_erase s.components id p hsome
    · rw [hno] at hd
      cases hd
  · intro id hd
    rcases SimpleEntitySystem.destroyComponent_components s rt id with
      ⟨p, hok, _, _⟩ | ⟨_, hs⟩
    · rw [hok] at hd
      cases hd
    · rw [hs]

/-- Witness of C24: a create for the id 1, a duplicate create that fails and a
destroy of an absent id; the id 1 remains. -/
theorem C24_count_matches_live_ids_witness :
    SimpleEntitySystem.run [.create 1 [], .create 1 [], .destroy 2]
        ({ componentMetaObject := testingMetaObject, components := [] }, emptyRuntime)
      = (oneSystem, oneRuntime) ∧
    ∃ ids : List EntityId,
      ids.Nodup ∧
      (∀ i, i ∈ ids ↔ (oneSystem.getComponent i).isSome = true) ∧
      oneSystem.count = ids.length ∧
      (∀ fuel, ids.length < fuel → oneSystem.walkKeys fuel oneSystem.begin = some ids) ∧
      (∀ id m p, (oneSystem.createComponent oneRuntime id m).1 = .ok p →
        (oneSystem.createComponent oneRuntime id m).2.1.count = oneSystem.count + 1) ∧
      (∀ id m, (∀ p, (oneSystem.createComponent oneRuntime id m).1 ≠ .ok p) →
        (oneSystem.createComponent oneRuntime id m).2.1.count = oneSystem.count) ∧
      (∀ id, (oneSystem.destroyComponent oneRuntime id).1 = true →
        (oneSystem.destroyComponent oneRuntime id).2.1.count + 1 = oneSystem.count) ∧
      (∀ id, (oneSystem.destroyComponent oneRuntime id).1 = false →
        (oneSystem.destroyComponent oneRuntime id).2.1.count = oneSystem.count) :=
  ⟨by decide,
    C24_count_matches_live_ids testingMetaObject emptyRuntime
      [.create 1 [], .create 1 [], .destroy 2] oneSystem oneRuntime (by decide)⟩

/-- Claim C29, as the code has it: the condition of the `Q_ASSERT` in
`SimpleVIterator::equal` is false for every cursor it is given, the cursors of
`pbegin()` and `pend()` of one store included, so in a build that keeps assertions
the comparison `pbegin() == pend()` aborts instead of comparing the wrapped
iterators; the check on the object pointed to, `typeid(*other)`, would hold. -/
theorem C29_assertion_always_fails (s : SimpleEntitySystem) :
    SimpleVIterator.equalAssertion s.pend = false ∧
      SimpleVIterator.equalAssertion s.pbegin = false ∧
      s.pbegin.equalChecked s.pend = .crash ∧
      s.pend.equalChecked s.pbegin = .crash ∧
      SimpleVIterator.typeidOfPointee s.pend = SimpleVIterator.typeidOfClass ∧
      SimpleVIterator.typeidOfPointee s.pbegin = SimpleVIterator.typeidOfClass := by
  exact ⟨rfl, rfl, rfl, rfl, rfl, rfl⟩

/-! ## The writes of the update step -/

namespace Runtime

/-- What one `prop.write` does: it fails and changes nothing, or it stores the
converted value, recorded as one write of that field, and leaves every other field of
the object as it is. -/
theorem writeProperty_cases (rt : Runtime) (obj : Ptr) (i : Nat) (prop : QMetaProperty)
    (v : QVariant) :
    (rt.writeProperty obj i prop v).2 = rt ∨
      ∃ v', QVariant.convert prop.type v = some v' ∧
        (rt.writeProperty obj i prop v).2.trace = rt.trace ++ [Event.written obj i v'] ∧
        ∀ k, k ≠ i → (rt.writeProperty obj i prop v).2.readProperty obj k
          = rt.readProperty obj k := by
  unfold writeProperty
  by_cases hw : (!prop.writable) = true
  · rw [if_pos hw]
    exact Or.inl rfl
  · rw [if_neg hw]
    cases hr : rt.read obj with
    | none => exact Or.inl rfl
    | some o =>
      cases hc : QVariant.convert prop.type v with
      | none => exact Or.inl rfl
      | some v' =>
        right
        refine ⟨v', rfl, rfl, ?_⟩
        intro k hk
        have hlt := read_lt rt obj o hr
        show (match Runtime.read
            { heap := rt.heap.set obj (some { o with values := o.values.set i v' }),
              trace := rt.trace ++ [Event.written obj i v'] } obj with
          | some o' => (o'.values[k]?).getD QVariant.invalid
          | none => QVariant.invalid) = rt.readProperty obj k
        have hread : Runtime.read
            { heap := rt.heap.set obj (some { o with values := o.values.set i v' }),
              trace := rt.trace ++ [Event.written obj i v'] } obj
            = some { o with values := o.values.set i v' } := by
          unfold read
          simp only
          rw [List.getElem?_set_self hlt]
        rw [hread]
        show ((o.values.set i v')[k]?).getD QVariant.invalid = rt.readProperty obj k
        rw [List.getElem?_set_ne (fun e => hk e.symm)]
        unfold readProperty
        rw [hr]

end Runtime

namespace PrefabSystem

/-- The writes of the innermost loop of `updatePrefab` from property index `i` on:
each is a write of a field of the component, at an index the loop visits, of a field
that is not exempt and that the new map names with a value that does not compare
equal to the value the field held when the loop started; the conversion of that value
to the type of the field is what is written. -/
theorem updateProperties_writes (ps : List String) (newvals : QVariantMap) (c : Ptr)
    (props : List QMetaProperty) :
    ∀ (i : Nat) (rt : Runtime),
      ∃ ext, (updateProperties ps newvals c props i rt).trace = rt.trace ++ ext ∧
        ∀ e ∈ ext, ∃ j prop nv v, e = Event.written c (i + j) v ∧ props[j]? = some prop ∧
          ¬ exempt ps prop.name ∧ QMap.find newvals prop.name = some nv ∧
          nv.cmp (rt.readProperty c (i + j)) = false ∧
          QVariant.convert prop.type nv = some v := by
  induction props with
  | nil => intro i rt; exact ⟨[], by simp [updateProperties], fun e he => by cases he⟩
  | cons prop rest ih =>
    intro i rt
    have shift : ∀ (rt1 : Runtime) (ext1 : List Event),
        (∀ k, k ≠ i → rt1.readProperty c k = rt.readProperty c k) →
        (∀ e ∈ ext1, ∃ j q nv v, e = Event.written c (i + 1 + j) v ∧ rest[j]? = some q ∧
          ¬ exempt ps q.name ∧ QMap.find newvals q.name = some nv ∧
          nv.cmp (rt1.readProperty c (i + 1 + j)) = false ∧
          QVariant.convert q.type nv = some v) →
        ∀ e ∈ ext1, ∃ j q nv v, e = Event.written c (i + j) v ∧ (prop :: rest)[j]? = some q ∧
          ¬ exempt ps q.name ∧ QMap.find newvals q.name = some nv ∧
          nv.cmp (rt.readProperty c (i + j)) = false ∧
          QVariant.convert q.type nv = some v := by
      intro rt1 ext1 hsame h e he
      obtain ⟨j, q, nv, v, h1, h2, h3, h4, h5, h6⟩ := h e he
      have hidx : i + 1 + j = i + (j + 1) := by omega
      refine ⟨j + 1, q, nv, v, by rw [h1, hidx], by simpa using h2, h3, h4, ?_, h6⟩
      rw [← hidx, ← hsame (i + 1 + j) (by omega)]
      exact h5
    by_cases hex : (ps.contains prop.name || decide (prop.name = "objectName")) = true
    · obtain ⟨ext1, ht1, he1⟩ := ih (i + 1) rt
      have hunf : updateProperties ps newvals c (prop :: rest) i rt
          = updateProperties ps newvals c rest (i + 1) rt := by
        rw [updateProperties, if_pos hex]
      rw [hunf]
      exact ⟨ext1, ht1, shift rt ext1 (fun _ _ => rfl) he1⟩
    · have hne : ¬ exempt ps prop.name := by
        intro h
        apply hex
        rcases h with h | h
        · rw [h]; rfl
        · rw [h]; simp
      cases hf : QMap.find newvals prop.name with
      | none =>
        obtain ⟨ext1, ht1, he1⟩ := ih (i + 1) rt
        have hunf : updateProperties ps newvals c (prop :: rest) i rt
            = updateProperties ps newvals c rest (i + 1) rt := by
          rw [updateProperties, if_neg hex]
          simp only [hf]
        rw [hunf]
        exact ⟨ext1, ht1, shift rt ext1 (fun _ _ => rfl) he1⟩
      | some nv =>
        cases hcmp : nv.cmp (rt.readProperty c i) with
        | true =>
          obtain ⟨ext1, ht1, he1⟩ := ih (i + 1) rt
          have hunf : updateProperties ps newvals c (prop :: rest) i rt
              = updateProperties ps newvals c rest (i + 1) rt := by
            rw [updateProperties, if_neg hex]
            simp only [hf, hcmp]
            rfl
          rw [hunf]
          exact ⟨ext1, ht1, shift rt ext1 (fun _ _ => rfl) he1⟩
        | false =>
          obtain ⟨ext1, ht1, he1⟩ := ih (i + 1) (rt.writeProperty c i prop nv).2
          have hunf : updateProperties ps newvals c (prop :: rest) i rt
              = updateProperties ps newvals c rest (i + 1)
                  (rt.writeProperty c i prop nv).2 := by
            rw [updateProperties, if_neg hex]
            simp only [hf, hcmp]
            rfl
          rw [hunf]
          rcases Runtime.writeProperty_cases rt c i prop nv with hsame | ⟨v', hc, htr, hk⟩
          · rw [hsame] at ht1 he1 ⊢
            exact ⟨ext1, ht1, shift rt ext1 (fun _ _ => rfl) he1⟩
          · refine ⟨Event.written c i v' :: ext1, ?_, ?_⟩
            · rw [ht1, htr]
              simp
            · intro e he
              rcases List.mem_cons.mp he with rfl | he'
              · exact ⟨0, prop, nv, v', rfl, by simp, hne, hf, hcmp, hc⟩
              · exact shift _ ext1 hk he1 e he'

end PrefabSystem

/-- Claim C25: the update step of `updatePrefab` on one component (the loop over its
properties) writes a field only if the field is not exempt and the new map for the
type names it with a value that does not compare equal to the value the field holds;
what is written is that value converted to the type of the field.  So no write is
performed on a field the new map does not name, nor on a field whose current value
already equals the new value. -/
theorem C25_written_only_when_different (ps : List String) (newvals : QVariantMap)
    (component : Ptr) (props : List QMetaProperty) (rt : Runtime) :
    ∃ ext,
      (PrefabSystem.updateProperties ps newvals component props 0 rt).trace = rt.trace ++ ext ∧
      (∀ e ∈ ext, ∃ k prop nv v, e = Event.written component k v ∧ props[k]? = some prop ∧
        ¬ PrefabSystem.exempt ps prop.name ∧ QMap.find newvals prop.name = some nv ∧
        nv.cmp (rt.readProperty component k) = false ∧
        QVariant.convert prop.type nv = some v) ∧
      (∀ k prop, props[k]? = some prop → QMap.find newvals prop.name = none →
        ∀ v, Event.written component k v ∉ ext) ∧
      ∀ k prop nv, props[k]? = some prop → QMap.find newvals prop.name = some nv →
        nv.cmp (rt.readProperty component k) = true →
        ∀ v, Event.written component k v ∉ ext := by
  obtain ⟨ext, ht, he⟩ := PrefabSystem.updateProperties_writes ps newvals component props 0 rt
  have he' : ∀ e ∈ ext, ∃ k prop nv v, e = Event.written component k v ∧
      props[k]? = some prop ∧ ¬ PrefabSystem.exempt ps prop.name ∧
      QMap.find newvals prop.name = some nv ∧
      nv.cmp (rt.readProperty component k) = false ∧
      QVariant.convert prop.type nv = some v := by
    intro e hm
    obtain ⟨j, prop, nv, v, h1, h2, h3, h4, h5, h6⟩ := he e hm
    rw [Nat.zero_add] at h1 h5
    exact ⟨j, prop, nv, v, h1, h2, h3, h4, h5, h6⟩
  refine ⟨ext, ht, he', ?_, ?_⟩
  · intro k prop hk hnone v hm
    obtain ⟨j, q, nv, v', h1, h2, _, h4, _, _⟩ := he' _ hm
    cases h1
    rw [hk] at h2
    cases h2
    rw [hnone] at h4
    cases h4
  · intro k prop nv hk hsome hcmp v hm
    obtain ⟨j, q, nv', v', h1, h2, _, h4, h5, _⟩ := he' _ hm
    cases h1
    rw [hk] at h2
    cases h2
    rw [hsome] at h4
    cases h4
    rw [hcmp] at h5
    cases h5

/-! ## Failures while propagating -/

namespace PrefabSystem

end PrefabSystem

namespace World

theorem Bypasses.bypasses_refl (e : EntityId) (w : World) : Bypasses e w w :=
  ⟨rfl, fun _ es h => ⟨es, h, rfl⟩, fun _ _ _ _ _ => rfl, fun _ _ => rfl⟩

theorem Bypasses.bypasses_trans {e : EntityId} {w w1 w2 : World} (h1 : Bypasses e w w1)
    (h2 : Bypasses e w1 w2) : Bypasses e w w2 := by
  refine ⟨h2.prefabSystem_eq.trans h1.prefabSystem_eq, ?_, ?_, ?_⟩
  · intro n es hs
    obtain ⟨es1, hs1, hg1⟩ := h1.stores n es hs
    obtain ⟨es2, hs2, hg2⟩ := h2.stores n es1 hs1
    exact ⟨es2, hs2, hg2.trans hg1⟩
  · intro n es c hs hg
    obtain ⟨es1, hs1, hg1⟩ := h1.stores n es hs
    rw [h2.objects n es1 c hs1 (hg1.trans hg), h1.objects n es c hs hg]
  · intro q hq
    rw [h2.instances q (by rw [h1.prefabSystem_eq]; exact hq), h1.instances q hq]

/-- A step that touches the binding of one id other than `e` in one store, and no
object but the component bound there or a new one, keeps the pointer discipline and
passes `e` by. -/
theorem Tidy.of_step {w w' : World} (ht : w.Tidy) (e : EntityId) (cls : String) (id : EntityId)
    (hne : id ≠ e) (hps : w'.prefabSystem = w.prefabSystem)
    (hlen : w.rt.heap.length ≤ w'.rt.heap.length)
    (hkeys : ∀ n es', w'.getSystemByComponentClassName n = some es' →
      (QMap.keys es'.components).Nodup)
    (hstores : ∀ n es, w.getSystemByComponentClassName n = some es →
      ∃ es', w'.getSystemByComponentClassName n = some es' ∧
        es'.getComponent e = es.getComponent e)
    (hback : ∀ n es' i p, w'.getSystemByComponentClassName n = some es' →
      es'.getComponent i = some p →
      (∃ es, w.getSystemByComponentClassName n = some es ∧ es.getComponent i = some p) ∨
        (n = cls ∧ i = id ∧ w.rt.heap.length ≤ p ∧ p < w'.rt.heap.length))
    (hread : ∀ p, p < w.rt.heap.length →
      (∀ es, w.getSystemByComponentClassName cls = some es → es.getComponent id ≠ some p) →
      w'.rt.read p = w.rt.read p) :
    w'.Tidy ∧ Bypasses e w w' := by
  refine ⟨⟨hkeys, ?_, ?_, ?_⟩, ⟨hps, hstores, ?_, ?_⟩⟩
  · intro n1 es1 i1 n2 es2 i2 p h1 g1 h2 g2
    rcases hback n1 es1 i1 p h1 g1 with ⟨a1, ha1, hg1⟩ | ⟨hn1, hi1, hp1, _⟩
    · rcases hback n2 es2 i2 p h2 g2 with ⟨a2, ha2, hg2⟩ | ⟨_, _, hp2, _⟩
      · exact ht.inj n1 a1 i1 n2 a2 i2 p ha1 hg1 ha2 hg2
      · exact absurd (ht.lt n1 a1 i1 p ha1 hg1) (Nat.not_lt.mpr hp2)
    · rcases hback n2 es2 i2 p h2 g2 with ⟨a2, ha2, hg2⟩ | ⟨hn2, hi2, _, _⟩
      · exact absurd (ht.lt n2 a2 i2 p ha2 hg2) (Nat.not_lt.mpr hp1)
      · exact ⟨hn1.trans hn2.symm, hi1.trans hi2.symm⟩
  · intro n es' i p h g
    rcases hback n es' i p h g with ⟨a, ha, hg⟩ | ⟨_, _, _, hp⟩
    · exact Nat.lt_of_lt_of_le (ht.lt n a i p ha hg) hlen
    · exact hp
  · intro q hq
    rw [hps] at hq
    obtain ⟨hq1, hq2⟩ := ht.inst_out q hq
    refine ⟨Nat.lt_of_lt_of_le hq1 hlen, ?_⟩
    intro n es' i h g
    rcases hback n es' i q h g with ⟨a, ha, hg⟩ | ⟨_, _, hp, _⟩
    · exact hq2 n a i ha hg
    · exact absurd hq1 (Nat.not_lt.mpr hp)
  · intro n es c hs hg
    apply hread c (ht.lt n es e c hs hg)
    intro es0 hs0 hg0
    exact hne (ht.inj cls es0 id n es e c hs0 hg0 hs hg).2
  · intro q hq
    obtain ⟨hq1, hq2⟩ := ht.inst_out q hq
    exact hread q hq1 (fun es0 hs0 => hq2 cls es0 id hs0)

/-- Destroying the component of an id other than `e` passes `e` by. -/
theorem bypasses_destroyComponentIn (e : EntityId) (w : World) (cls : String)
    (es : SimpleEntitySystem) (id : EntityId) (ht : w.Tidy)
    (hs : w.getSystemByComponentClassName cls = some es) (hne : id ≠ e) :
    (w.destroyComponentIn cls es id).2.Tidy ∧ Bypasses e w (w.destroyComponentIn cls es id).2 := by
  cases hg : es.getComponent id with
  | none =>
    have hw : (w.destroyComponentIn cls es id).2 = w := by
      unfold destroyComponentIn
      rw [SimpleEntitySystem.destroyComponent_absent es w.rt id hg]
      show { w with systems := QMap.replace w.systems cls es, rt := w.rt } = w
      rw [QMap.replace_same _ _ _ hs]
    rw [hw]
    exact ⟨ht, Bypasses.bypasses_refl e w⟩
  | some obj =>
    have hw : (w.destroyComponentIn cls es id).2
        = { w with
            systems := QMap.replace w.systems cls
              { es with components := QMap.erase es.components id },
            rt := (w.rt.emit
              (.componentAboutToDestruct es.componentMetaObject.className id obj)).delete obj } := by
      unfold destroyComponentIn
      rw [SimpleEntitySystem.destroyComponent_live es w.rt id obj hg]
    rw [hw]
    have hself : QMap.find (QMap.replace w.systems cls
        { es with components := QMap.erase es.components id }) cls
        = some { es with components := QMap.erase es.components id } :=
      QMap.find_replace_self _ _ _ _ hs
    have hother : ∀ n, n ≠ cls → QMap.find (QMap.replace w.systems cls
        { es with components := QMap.erase es.components id }) n = QMap.find w.systems n :=
      fun n hn => QMap.find_replace_ne _ _ _ _ hn
    have hnd := ht.keys_nodup cls es hs
    refine Tidy.of_step ht e cls id hne ?_ ?_ ?_ ?_ ?_ ?_
    · rfl
    · show w.rt.heap.length ≤ (w.rt.heap.set obj none).length
      rw [List.length_set]
    · intro n es' h
      by_cases hn : n = cls
      · subst hn
        have h' : QMap.find (QMap.replace w.systems n
            { es with components := QMap.erase es.components id }) n = some es' := h
        rw [hself] at h'
        cases h'
        exact List.Nodup.sublist ((QMap.erase_sublist _ id).map Prod.fst) hnd
      · have h' : QMap.find (QMap.replace w.systems cls
            { es with components := QMap.erase es.components id }) n = some es' := h
        rw [hother n hn] at h'
        exact ht.keys_nodup n es' h'
    · intro n es0 h0
      by_cases hn : n = cls
      · subst hn
        rw [hs] at h0
        cases h0
        exact ⟨_, hself, QMap.find_erase_ne _ _ _ (fun h => hne h.symm)⟩
      · exact ⟨es0, (hother n hn).trans h0, rfl⟩
    · intro n es' i p h g
      left
      by_cases hn : n = cls
      · subst hn
        have h' : QMap.find (QMap.replace w.systems n
            { es with components := QMap.erase es.components id }) n = some es' := h
        rw [hself] at h'
        cases h'
        refine ⟨es, hs, ?_⟩
        have g' : QMap.find (QMap.erase es.components id) i = some p := g
        by_cases hi : i = id
        · rw [hi, QMap.find_erase_self _ _ hnd] at g'
          cases g'
        · rw [QMap.find_erase_ne _ _ _ hi] at g'
          exact g'
      · have h' : QMap.find (QMap.replace w.systems cls
            { es with components := QMap.erase es.components id }) n = some es' := h
        rw [hother n hn] at h'
        exact ⟨es', h', g⟩
    · intro p _ hp
      have hpo : p ≠ obj := fun h => hp es hs (h ▸ hg)
      show ((w.rt.emit _).delete obj).read p = w.rt.read p
      rw [Runtime.read_delete_ne _ _ _ hpo, Runtime.read_emit]

/-- Updating the component of an id other than `e` passes `e` by. -/
theorem bypasses_updateProperties (e : EntityId) (ps : List String) (newvals : QVariantMap)
    (w : World) (cls : String) (es : SimpleEntitySystem) (id : EntityId) (c : Ptr) (o : QObject)
    (ht : w.Tidy) (hs : w.getSystemByComponentClassName cls = some es)
    (hg : es.getComponent id = some c) (hr : w.rt.read c = some o) (hne : id ≠ e) :
    World.Tidy { w with
        rt := PrefabSystem.updateProperties ps newvals c o.metaObject.properties 0 w.rt } ∧
      Bypasses e w { w with
        rt := PrefabSystem.updateProperties ps newvals c o.metaObject.properties 0 w.rt } := by
  obtain ⟨hup, hframe⟩ := PrefabSystem.updateProperties_updated ps newvals c
    o.metaObject.properties 0 w.rt o hr rfl
  refine Tidy.of_step ht e cls id hne ?_ ?_ ?_ ?_ ?_ ?_
  · rfl
  · exact Nat.le_of_eq hup.length_eq.symm
  · exact fun n es' h => ht.keys_nodup n es' h
  · exact fun n es0 h0 => ⟨es0, h0, rfl⟩
  · exact fun n es' i p h g => Or.inl ⟨es', h, g⟩
  · intro p _ hp
    exact hframe p (fun h => hp es hs (h ▸ hg))

end World

namespace SimpleEntitySystem

/-- The two ways `createComponent` can end: the component is built at the next free
address and bound to the id, or nothing changes. -/
theorem createComponent_cases (s : SimpleEntitySystem) (rt : Runtime) (id : EntityId)
    (m : QVariantMap) :
    (∃ rt', s.createComponent rt id m
          = (.ok rt.heap.length,
              { s with components := QMap.insert s.components id rt.heap.length }, rt') ∧
        s.getComponent id = none ∧ rt'.heap.length = rt.heap.length + 1 ∧
        ∀ q, q ≠ rt.heap.length → rt'.read q = rt.read q) ∨
      (s.createComponent rt id m).2 = (s, rt) := by
  cases hg : s.getComponent id with
  | some p =>
    right
    unfold createComponent
    rw [hg]
    rfl
  | none =>
    cases hc : s.componentMetaObject.invokable with
    | true =>
      obtain ⟨rt', h1, _, h3, h4⟩ := createComponent_fresh s rt id m hg hc
      exact Or.inl ⟨rt', h1, rfl, h3, h4⟩
    | false =>
      right
      cases m with
      | nil => rw [createComponent_no_ctor s rt id hg hc]
      | cons x r => rw [createComponent_null_deref s rt id x r hg hc]

end SimpleEntitySystem

namespace World

/-- Creating the component of an id other than `e` passes `e` by. -/
theorem bypasses_createComponentIn (e : EntityId) (w : World) (cls : String)
    (es : SimpleEntitySystem) (id : EntityId) (m : QVariantMap) (ht : w.Tidy)
    (hs : w.getSystemByComponentClassName cls = some es) (hne : id ≠ e) :
    (w.createComponentIn cls es id m).2.Tidy ∧
      Bypasses e w (w.createComponentIn cls es id m).2 := by
  rcases SimpleEntitySystem.createComponent_cases es w.rt id m with
    ⟨rt', hres, hnone, hlen, hold⟩ | hsame
  · have hw : (w.createComponentIn cls es id m).2
        = { w with
            systems := QMap.replace w.systems cls
              { es with components := QMap.insert es.components id w.rt.heap.length },
            rt := rt' } := by
      unfold createComponentIn
      rw [hres]
    rw [hw]
    have hself : QMap.find (QMap.replace w.systems cls
        { es with components := QMap.insert es.components id w.rt.heap.length }) cls
        = some { es with components := QMap.insert es.components id w.rt.heap.length } :=
      QMap.find_replace_self _ _ _ _ hs
    have hother : ∀ n, n ≠ cls → QMap.find (QMap.replace w.systems cls
        { es with components := QMap.insert es.components id w.rt.heap.length }) n
        = QMap.find w.systems n :=
      fun n hn => QMap.find_replace_ne _ _ _ _ hn
    have hnd := ht.keys_nodup cls es hs
    refine Tidy.of_step ht e cls id hne ?_ ?_ ?_ ?_ ?_ ?_
    · rfl
    · show w.rt.heap.length ≤ rt'.heap.length
      omega
    · intro n es' h
      by_cases hn : n = cls
      · subst hn
        have h' : QMap.find (QMap.replace w.systems n
            { es with components := QMap.insert es.components id w.rt.heap.length }) n
            = some es' := h
        rw [hself] at h'
        cases h'
        exact (QMap.keys_insert_perm _ id _ hnone).nodup_iff.mpr
          (List.nodup_cons.mpr ⟨(QMap.find_eq_none_iff _ id).mp hnone, hnd⟩)
      · have h' : QMap.find (QMap.replace w.systems cls
            { es with components := QMap.insert es.components id w.rt.heap.length }) n
            = some es' := h
        rw [hother n hn] at h'
        exact ht.keys_nodup n es' h'
    · intro n es0 h0
      by_cases hn : n = cls
      · subst hn
        rw [hs] at h0
        cases h0
        exact ⟨_, hself, QMap.find_insert_ne _ _ _ _ (fun h => hne h.symm)⟩
      · exact ⟨es0, (hother n hn).trans h0, rfl⟩
    · intro n es' i p h g
      by_cases hn : n = cls
      · subst hn
        have h' : QMap.find (QMap.replace w.systems n
            { es with components := QMap.insert es.components id w.rt.heap.length }) n
            = some es' := h
        rw [hself] at h'
        cases h'
        have g' : QMap.find (QMap.insert es.components id w.rt.heap.length) i = some p := g
        by_cases hi : i = id
        · rw [hi, QMap.find_insert_self] at g'
          cases g'
          right
          refine ⟨rfl, hi, Nat.le_refl _, ?_⟩
          show w.rt.heap.length < rt'.heap.length
          omega
        · rw [QMap.find_insert_ne _ _ _ _ hi] at g'
          exact Or.inl ⟨es, hs, g'⟩
      · have h' : QMap.find (QMap.replace w.systems cls
            { es with components := QMap.insert es.components id w.rt.heap.length }) n
            = some es' := h
        rw [hother n hn] at h'
        exact Or.inl ⟨es', h', g⟩
    · intro p hp _
      exact hold p (Nat.ne_of_lt hp)
  · have hw : (w.createComponentIn cls es id m).2 = w := by
      unfold createComponentIn
      rw [hsame]
      show { w with systems := QMap.replace w.systems cls es, rt := w.rt } = w
      rw [QMap.replace_same _ _ _ hs]
    rw [hw]
    exact ⟨ht, Bypasses.bypasses_refl e w⟩

theorem Skips.skips_tail {e : EntityId} {prefab : Ptr} {x : EntityId × Ptr}
    {l : List (EntityId × Ptr)} {w : World} (h : Skips e prefab (x :: l) w) :
    Skips e prefab l w :=
  ⟨fun id pi hm => h.1 id pi (List.mem_cons_of_mem _ hm),
    fun pi hm => h.2 pi (List.mem_cons_of_mem _ hm)⟩

theorem Skips.skips_carry {e : EntityId} {prefab : Ptr} {l : List (EntityId × Ptr)} {w w1 : World}
    (h : Skips e prefab l w) (hb : Bypasses e w w1) : Skips e prefab l w1 := by
  refine ⟨fun id pi hm => ?_, fun pi hm => ?_⟩
  · rw [hb.prefabSystem_eq]
    exact h.1 id pi hm
  · rw [hb.instances pi (h.1 e pi hm)]
    exact h.2 pi hm

/-- The entity of a matching entry of the instance list is not `e`. -/
theorem Skips.skips_head_ne {e : EntityId} {prefab : Ptr} {id : EntityId} {pi : Ptr}
    {l : List (EntityId × Ptr)} {w : World} (h : Skips e prefab ((id, pi) :: l) w)
    (hq : (w.rt.read pi).bind QObject.prefab = some prefab) : id ≠ e := by
  intro he
  subst he
  exact h.2 pi (List.mem_cons_self _ _) hq

theorem Bypasses.bypasses_setComponents {e : EntityId} {w w2 : World} (h : Bypasses e w w2)
    (prefab : Ptr) (c : QVariantMap) : Bypasses e w (w2.setComponents prefab c) := by
  have hs := PrefabSystem.setComponents_systems w2 prefab c
  have hr := PrefabSystem.setComponents_rt w2 prefab c
  have hp := PrefabSystem.setComponents_prefabSystem w2 prefab c
  refine ⟨hp.trans h.prefabSystem_eq, ?_, ?_, ?_⟩
  · intro n es hn
    obtain ⟨es', h1, h2⟩ := h.stores n es hn
    refine ⟨es', ?_, h2⟩
    show QMap.find (w2.setComponents prefab c).systems n = some es'
    rw [hs]
    exact h1
  · intro n es x hn hg
    rw [hr]
    exact h.objects n es x hn hg
  · intro q hq
    rw [hr]
    exact h.instances q hq

end World

namespace PrefabSystem

theorem bypasses_destroyOnInstances (e : EntityId) (cls : String) (prefab : Ptr)
    (instances : List (EntityId × Ptr)) :
    ∀ (w : World), w.Tidy → World.Skips e prefab instances w →
      (destroyOnInstances cls prefab instances w).2.Tidy ∧
        World.Bypasses e w (destroyOnInstances cls prefab instances w).2 := by
  induction instances with
  | nil => intro w ht _; exact ⟨ht, World.Bypasses.bypasses_refl e w⟩
  | cons x rest ih =>
    obtain ⟨id, pi⟩ := x
    intro w ht hsk
    unfold destroyOnInstances
    cases hq : (w.rt.read pi).bind QObject.prefab with
    | none => exact ⟨ht, World.Bypasses.bypasses_refl e w⟩
    | some q =>
      by_cases hqp : q = prefab
      · subst hqp
        have hne := hsk.skips_head_ne hq
        simp only [if_true]
        cases hs : w.getSystemByComponentClassName cls with
        | none => exact ih w ht hsk.skips_tail
        | some es =>
          obtain ⟨ht1, hb1⟩ := World.bypasses_destroyComponentIn e w cls es id ht hs hne
          obtain ⟨ht2, hb2⟩ := ih _ ht1 (hsk.skips_tail.skips_carry hb1)
          exact ⟨ht2, hb1.bypasses_trans hb2⟩
      · simp only [if_neg hqp]
        exact ih w ht hsk.skips_tail

theorem bypasses_updateOnInstances (e : EntityId) (cls : String) (prefab : Ptr)
    (ps : List String) (newvals : QVariantMap) (instances : List (EntityId × Ptr)) :
    ∀ (w : World), w.Tidy → World.Skips e prefab instances w →
      (updateOnInstances cls prefab ps newvals instances w).2.Tidy ∧
        World.Bypasses e w (updateOnInstances cls prefab ps newvals instances w).2 := by
  induction instances with
  | nil => intro w ht _; exact ⟨ht, World.Bypasses.bypasses_refl e w⟩
  | cons x rest ih =>
    obtain ⟨id, pi⟩ := x
    intro w ht hsk
    unfold updateOnInstances
    cases hq : (w.rt.read pi).bind QObject.prefab with
    | none => exact ⟨ht, World.Bypasses.bypasses_refl e w⟩
    | some q =>
      by_cases hqp : q = prefab
      · subst hqp
        have hne := hsk.skips_head_ne hq
        simp only [if_true]
        cases hs : w.getSystemByComponentClassName cls with
        | none => exact ih w ht hsk.skips_tail
        | some es =>
          cases hg : es.getComponent id with
          | none =>
            simp only [Option.some_bind, hg]
            exact ih w ht hsk.skips_tail
          | some c =>
            simp only [Option.some_bind, hg]
            cases hr : w.rt.read c with
            | none => exact ⟨ht, World.Bypasses.bypasses_refl e w⟩
            | some o =>
              obtain ⟨ht1, hb1⟩ :=
                World.bypasses_updateProperties e ps newvals w cls es id c o ht hs hg hr hne
              obtain ⟨ht2, hb2⟩ := ih _ ht1 (hsk.skips_tail.skips_carry hb1)
              exact ⟨ht2, hb1.bypasses_trans hb2⟩
      · simp only [if_neg hqp]
        exact ih w ht hsk.skips_tail

theorem bypasses_createOnInstances (e : EntityId) (cls : String) (prefab : Ptr)
    (vals : QVariantMap) (instances : List (EntityId × Ptr)) :
    ∀ (w : World), w.Tidy → World.Skips e prefab instances w →
      (createOnInstances cls prefab vals instances w).2.Tidy ∧
        World.Bypasses e w (createOnInstances cls prefab vals instances w).2 := by
  induction instances with
  | nil => intro w ht _; exact ⟨ht, World.Bypasses.bypasses_refl e w⟩
  | cons x rest ih =>
    obtain ⟨id, pi⟩ := x
    intro w ht hsk
    unfold createOnInstances
    cases hq : (w.rt.read pi).bind QObject.prefab with
    | none => exact ⟨ht, World.Bypasses.bypasses_refl e w⟩
    | some q =>
      by_cases hqp : q = prefab
      · subst hqp
        have hne := hsk.skips_head_ne hq
        simp only [if_true]
        cases hs : w.getSystemByComponentClassName cls with
        | none => exact ih w ht hsk.skips_tail
        | some es =>
          obtain ⟨ht1, hb1⟩ := World.bypasses_createComponentIn e w cls es id vals ht hs hne
          dsimp only
          cases hr : w.createComponentIn cls es id vals with
          | mk o w1 =>
            rw [hr] at ht1 hb1
            cases o with
            | ok p =>
              obtain ⟨ht2, hb2⟩ := ih _ ht1 (hsk.skips_tail.skips_carry hb1)
              exact ⟨ht2, hb1.bypasses_trans hb2⟩
            | thrown x => exact ⟨ht1, hb1⟩
            | crash => exact ⟨ht1, hb1⟩
      · simp only [if_neg hqp]
        exact ih w ht hsk.skips_tail

theorem bypasses_updateExisting (e : EntityId) (prefab : Ptr) (ps : List String)
    (newcomponents : QVariantMap) (instances : List (EntityId × Ptr)) (old : QVariantMap) :
    ∀ (w : World), w.Tidy → World.Skips e prefab instances w →
      (updateExisting prefab ps newcomponents instances old w).2.Tidy ∧
        World.Bypasses e w (updateExisting prefab ps newcomponents instances old w).2 := by
  induction old with
  | nil => intro w ht _; exact ⟨ht, World.Bypasses.bypasses_refl e w⟩
  | cons x rest ih =>
    obtain ⟨key, val⟩ := x
    intro w ht hsk
    unfold updateExisting
    cases hs : w.getSystemByComponentClassName key with
    | none => exact ih w ht hsk
    | some es =>
      dsimp only
      cases hf : QMap.find newcomponents key with
      | none =>
        obtain ⟨ht1, hb1⟩ := bypasses_destroyOnInstances e key prefab instances w ht hsk
        dsimp only
        cases hr : destroyOnInstances key prefab instances w with
        | mk o w1 =>
          rw [hr] at ht1 hb1
          cases o with
          | ok u =>
            obtain ⟨ht2, hb2⟩ := ih _ ht1 (hsk.skips_carry hb1)
            exact ⟨ht2, hb1.bypasses_trans hb2⟩
          | thrown x => exact ⟨ht1, hb1⟩
          | crash => exact ⟨ht1, hb1⟩
      | some newval =>
        obtain ⟨ht1, hb1⟩ :=
          bypasses_updateOnInstances e key prefab ps newval.toMap instances w ht hsk
        dsimp only
        cases hr : updateOnInstances key prefab ps newval.toMap instances w with
        | mk o w1 =>
          rw [hr] at ht1 hb1
          cases o with
          | ok u =>
            obtain ⟨ht2, hb2⟩ := ih _ ht1 (hsk.skips_carry hb1)
            exact ⟨ht2, hb1.bypasses_trans hb2⟩
          | thrown x => exact ⟨ht1, hb1⟩
          | crash => exact ⟨ht1, hb1⟩

theorem bypasses_addMissing (e : EntityId) (prefab : Ptr) (old : QVariantMap)
    (instances : List (EntityId × Ptr)) (newcomponents : QVariantMap) :
    ∀ (w : World), w.Tidy → World.Skips e prefab instances w →
      (addMissing prefab old instances newcomponents w).2.Tidy ∧
        World.Bypasses e w (addMissing prefab old instances newcomponents w).2 := by
  induction newcomponents with
  | nil => intro w ht _; exact ⟨ht, World.Bypasses.bypasses_refl e w⟩
  | cons x rest ih =>
    obtain ⟨key, val⟩ := x
    intro w ht hsk
    unfold addMissing
    cases hf : QMap.find old key with
    | some v => exact ih w ht hsk
    | none =>
      cases hs : w.getSystemByComponentClassName key with
      | none => exact ih w ht hsk
      | some es =>
        obtain ⟨ht1, hb1⟩ :=
          bypasses_createOnInstances e key prefab val.toMap instances w ht hsk
        cases hr : createOnInstances key prefab val.toMap instances w with
        | mk o w1 =>
          rw [hr] at ht1 hb1
          cases o with
          | ok u =>
            obtain ⟨ht2, hb2⟩ := ih _ ht1 (hsk.skips_carry hb1)
            exact ⟨ht2, hb1.bypasses_trans hb2⟩
          | thrown x => exact ⟨ht1, hb1⟩
          | crash => exact ⟨ht1, hb1⟩

theorem bypasses_propagate (e : EntityId) (prefab : Ptr) (ps : List String)
    (newcomponents : QVariantMap) (instances : List (EntityId × Ptr)) (old : QVariantMap)
    (w : World) (ht : w.Tidy) (hsk : World.Skips e prefab instances w) :
    World.Bypasses e w (propagate prefab ps newcomponents instances old w).2 := by
  obtain ⟨ht1, hb1⟩ := bypasses_updateExisting e prefab ps newcomponents instances old w ht hsk
  unfold propagate
  cases hr : updateExisting prefab ps newcomponents instances old w with
  | mk o w1 =>
    rw [hr] at ht1 hb1
    cases o with
    | ok u =>
      exact hb1.bypasses_trans
        (bypasses_addMissing e prefab old instances newcomponents w1 ht1 (hsk.skips_carry hb1)).2
    | thrown x => exact hb1
    | crash => exact hb1

/-- A propagating `updatePrefab` on a known template passes by every entity that is
no instance of the template, whatever the outcome of the call. -/
theorem updatePrefab_bypasses (w : World) (path : String) (newcomponents : QVariantMap)
    (prefab : Ptr) (pf : Prefab) (e : EntityId)
    (hT : QMap.find w.prefabSystem.prefabs path = some prefab)
    (hpf : w.prefabHeap[prefab]? = some pf) (ht : w.Tidy)
    (hsk : World.Skips e prefab w.prefabSystem.base.components w) :
    World.Bypasses e w (updatePrefab w path newcomponents true).2 := by
  have hb := bypasses_propagate e prefab pf.parameters newcomponents
    w.prefabSystem.base.components pf.components w ht hsk
  rw [updatePrefab_eq_propagate w path newcomponents prefab pf hT hpf]
  cases hr : propagate prefab pf.parameters newcomponents w.prefabSystem.base.components
      pf.components w with
  | mk o w2 =>
    rw [hr] at hb
    cases o with
    | ok u => exact hb.bypasses_setComponents prefab newcomponents
    | thrown x => exact hb
    | crash => exact hb

end PrefabSystem

namespace World

/-- The representation invariant gives the pointer discipline. -/
theorem WF.tidy {w : World} (hwf : w.WF) : w.Tidy := by
  have hnd : (storePointers w.systems).Nodup := (List.nodup_append.mp hwf.pointers_nodup).1
  have hmem : ∀ n es i p, w.getSystemByComponentClassName n = some es →
      es.getComponent i = some p → p ∈ QMap.values es.components := by
    intro n es i p _ hg
    exact List.mem_map.mpr ⟨(i, p), QMap.mem_of_find _ _ _ hg, rfl⟩
  refine ⟨fun n es h => hwf.store_keys_nodup n es h, ?_, ?_, ?_⟩
  · intro n1 es1 i1 n2 es2 i2 p h1 g1 h2 g2
    by_cases hn : n1 = n2
    · subst hn
      rw [h1] at h2
      cases h2
      exact ⟨rfl, QMap.find_inj_of_values_nodup _ _ _ _ (hwf.values_nodup n1 es1 h1) g1 g2⟩
    · exact absurd (hmem n2 es2 i2 p h2 g2)
        (disjoint_stores w.systems n1 n2 es1 es2 p hnd h1 h2 hn (hmem n1 es1 i1 p h1 g1))
  · intro n es i p h g
    have hp : p ∈ storePointers w.systems ++ QMap.values w.prefabSystem.base.components :=
      List.mem_append_left _ ((values_sublist_storePointers w.systems n es h).mem
        (hmem n es i p h g))
    obtain ⟨o, ho, _⟩ := hwf.live p hp
    exact Runtime.read_lt _ _ _ ho
  · intro q hq
    obtain ⟨o, ho, _⟩ := hwf.live q (List.mem_append_right _ hq)
    refine ⟨Runtime.read_lt _ _ _ ho, ?_⟩
    intro n es i h g
    obtain ⟨⟨id, q'⟩, hm, hq'⟩ := List.mem_map.mp hq
    have hq'' : q' = q := hq'
    subst hq''
    exact hwf.disjoint_instances id q' hm n es h (hmem n es i q' h g)

/-- An entity that has no `PrefabInstance`, or one that references another template,
has no matching entry in the instance store. -/
theorem WF.skips {w : World} (hwf : w.WF) (e : EntityId) (prefab : Ptr)
    (he : ∀ pi, w.prefabSystem.base.getComponent e = some pi →
      (w.rt.read pi).bind QObject.prefab ≠ some prefab) :
    Skips e prefab w.prefabSystem.base.components w :=
  ⟨fun id pi hm => List.mem_map.mpr ⟨(id, pi), hm, rfl⟩,
    fun pi hm => he pi (QMap.find_of_mem _ _ _ hwf.instances_nodup hm)⟩

end World

namespace PrefabSystem

/-- `updatePrefab` leaves every `Prefab` object other than the one it is called for
as it is. -/
theorem updatePrefab_other_prefabs (w : World) (path : String) (newcomponents : QVariantMap)
    (prefab : Ptr) (pf : Prefab) (hT : QMap.find w.prefabSystem.prefabs path = some prefab)
    (hpf : w.prefabHeap[prefab]? = some pf) (q : Ptr) (hq : q ≠ prefab) :
    (updatePrefab w path newcomponents true).2.prefabHeap[q]? = w.prefabHeap[q]? := by
  have hfr := propagate_frame prefab pf.parameters newcomponents
    w.prefabSystem.base.components pf.components w
  rw [updatePrefab_eq_propagate w path newcomponents prefab pf hT hpf]
  cases hr : propagate prefab pf.parameters newcomponents w.prefabSystem.base.components
      pf.components w with
  | mk o w2 =>
    rw [hr] at hfr
    have hh : w2.prefabHeap = w.prefabHeap := hfr.1
    cases o with
    | ok u =>
      show (w2.setComponents prefab newcomponents).prefabHeap[q]? = _
      rw [setComponents_prefabHeap w2 prefab newcomponents pf (by rw [hh]; exact hpf), hh,
        List.getElem?_set_ne (fun e => hq e.symm)]
    | thrown x => show w2.prefabHeap[q]? = _; rw [hh]
    | crash => show w2.prefabHeap[q]? = _; rw [hh]

end PrefabSystem

/-- Claim C27: in a world that satisfies its representation invariant, a propagating
`updatePrefab` on a known template `T` leaves the components of every entity that has
no `PrefabInstance`, or whose `PrefabInstance` references another template, unchanged
in every store, whatever the outcome of the call: every store is still registered and
binds the entity to the same component or to none as before, the component is the
same object with the same field values, and the `PrefabSystem` is as before. -/
theorem C27_other_entities_untouched (w : World) (path : String) (newcomponents : QVariantMap)
    (prefab : Ptr) (pf : Prefab) (e : EntityId) (hwf : w.WF)
    (hT : QMap.find w.prefabSystem.prefabs path = some prefab)
    (hpf : w.prefabHeap[prefab]? = some pf)
    (he : ∀ pi, w.prefabSystem.base.getComponent e = some pi →
      (w.rt.read pi).bind QObject.prefab ≠ some prefab) :
    (PrefabSystem.updatePrefab w path newcomponents true).2.prefabSystem = w.prefabSystem ∧
      ∀ name es, w.getSystemByComponentClassName name = some es →
        ∃ es', (PrefabSystem.updatePrefab w path newcomponents
            true).2.getSystemByComponentClassName name = some es' ∧
          es'.getComponent e = es.getComponent e ∧
          ∀ c, es.getComponent e = some c →
            (PrefabSystem.updatePrefab w path newcomponents true).2.rt.read c = w.rt.read c := by
  have hb := PrefabSystem.updatePrefab_bypasses w path newcomponents prefab pf e hT hpf
    hwf.tidy (hwf.skips e prefab he)
  refine ⟨hb.prefabSystem_eq, ?_⟩
  intro name es hs
  obtain ⟨es', h1, h2⟩ := hb.stores name es hs
  exact ⟨es', h1, h2, fun c hc => hb.objects name es c hs hc⟩

/-- Witness of C27: entity 2 has an `A` component and no `PrefabInstance`; the update
of `T` to `{A: {x: 5}}` changes the components of entity 1 only. -/
theorem C27_other_entities_untouched_witness :
    bystanderWorld.WF ∧
    QMap.find bystanderWorld.prefabSystem.prefabs "T" = some 0 ∧
    bystanderWorld.prefabHeap[0]? = some templateT ∧
    (∀ pi, bystanderWorld.prefabSystem.base.getComponent 2 = some pi →
      (bystanderWorld.rt.read pi).bind QObject.prefab ≠ some 0) ∧
    (PrefabSystem.updatePrefab bystanderWorld "T" [("A", .map [("x", .int 5)])] true).2.rt.read 0
      = some { metaObject := metaA, values := [.str "", .int 5], prefab := none } ∧
    ((PrefabSystem.updatePrefab bystanderWorld "T"
        [("A", .map [("x", .int 5)])] true).2.prefabSystem = bystanderWorld.prefabSystem ∧
      ∀ name es, bystanderWorld.getSystemByComponentClassName name = some es →
        ∃ es', (PrefabSystem.updatePrefab bystanderWorld "T" [("A", .map [("x", .int 5)])]
            true).2.getSystemByComponentClassName name = some es' ∧
          es'.getComponent 2 = es.getComponent 2 ∧
          ∀ c, es.getComponent 2 = some c →
            (PrefabSystem.updatePrefab bystanderWorld "T" [("A", .map [("x", .int 5)])]
              true).2.rt.read c = bystanderWorld.rt.read c) :=
  ⟨⟨by decide, by decide, by decide, by decide, by decide⟩, by decide, by decide,
    (fun pi h => by cases h), by decide,
    C27_other_entities_untouched bystanderWorld "T" [("A", .map [("x", .int 5)])] 0 templateT 2
      ⟨by decide, by decide, by decide, by decide, by decide⟩ (by decide) (by decide)
      (fun pi h => by cases h)⟩

/-- Claim C28: instances are matched to a template by the identity of the template
object.  In a world that satisfies its representation invariant, let the entity `e`
hold a `PrefabInstance` of the template object registered under `name`.  After
`addPrefab` registers `name` again the name is bound to a new template object, and a
later propagating `updatePrefab(name, new)` leaves the `PrefabInstance` of `e` as it
is, still referencing the earlier template object, leaves that template object as it
is, and changes no component of `e` in any store, whatever its outcome. -/
theorem C28_instances_follow_template_object (w : World) (name : String) (c : QVariantMap)
    (ps : List String) (newcomponents : QVariantMap) (e : EntityId) (pi p0 : Ptr) (o : QObject)
    (pf0 : Prefab) (hwf : w.WF)
    (hreg : QMap.find w.prefabSystem.prefabs name = some p0)
    (hpf0 : w.prefabHeap[p0]? = some pf0)
    (hinst : w.prefabSystem.base.getComponent e = some pi)
    (hobj : w.rt.read pi = some o) (href : o.prefab = some p0) :
    QMap.find (PrefabSystem.addPrefab w name c ps).prefabSystem.prefabs name
        ≠ QMap.find w.prefabSystem.prefabs name ∧
      (PrefabSystem.updatePrefab (PrefabSystem.addPrefab w name c ps) name newcomponents
        true).2.prefabSystem.base.getComponent e = some pi ∧
      (PrefabSystem.updatePrefab (PrefabSystem.addPrefab w name c ps) name newcomponents
        true).2.rt.read pi = some o ∧
      (PrefabSystem.updatePrefab (PrefabSystem.addPrefab w name c ps) name newcomponents
        true).2.prefabHeap[p0]? = some pf0 ∧
      ∀ n es, w.getSystemByComponentClassName n = some es →
        ∃ es', (PrefabSystem.updatePrefab (PrefabSystem.addPrefab w name c ps) name
            newcomponents true).2.getSystemByComponentClassName n = some es' ∧
          es'.getComponent e = es.getComponent e ∧
          ∀ x, es.getComponent e = some x →
            (PrefabSystem.updatePrefab (PrefabSystem.addPrefab w name c ps) name newcomponents
              true).2.rt.read x = w.rt.read x := by
  have hlt : p0 < w.prefabHeap.length := by
    by_contra h
    rw [List.getElem?_eq_none (Nat.le_of_not_lt h)] at hpf0
    cases hpf0
  have hne : p0 ≠ w.prefabHeap.length := Nat.ne_of_lt hlt
  have hT : QMap.find (PrefabSystem.addPrefab w name c ps).prefabSystem.prefabs name
      = some w.prefabHeap.length := QMap.find_insert_self _ _ _
  have hpf : (PrefabSystem.addPrefab w name c ps).prefabHeap[w.prefabHeap.length]?
      = some { path := name, components := c, parameters := ps } := by
    simp [PrefabSystem.addPrefab]
  have ht0 := hwf.tidy
  have ht : (PrefabSystem.addPrefab w name c ps).Tidy :=
    ⟨ht0.keys_nodup, ht0.inj, ht0.lt, ht0.inst_out⟩
  have hsk0 := hwf.skips e w.prefabHeap.length (fun q hq => by
    rw [hinst] at hq
    cases hq
    rw [hobj]
    show o.prefab ≠ some w.prefabHeap.length
    rw [href]
    exact fun h => hne (Option.some.inj h))
  have hsk : World.Skips e w.prefabHeap.length
      (PrefabSystem.addPrefab w name c ps).prefabSystem.base.components
      (PrefabSystem.addPrefab w name c ps) := hsk0
  have hb := PrefabSystem.updatePrefab_bypasses (PrefabSystem.addPrefab w name c ps) name
    newcomponents w.prefabHeap.length _ e hT hpf ht hsk
  have hpi : pi ∈ QMap.values w.prefabSystem.base.components :=
    List.mem_map.mpr ⟨(e, pi), QMap.mem_of_find _ _ _ hinst, rfl⟩
  refine ⟨?_, ?_, ?_, ?_, ?_⟩
  · rw [hT, hreg]
    exact fun h => hne (Option.some.inj h).symm
  · rw [hb.prefabSystem_eq]
    exact hinst
  · rw [hb.instances pi hpi]
    exact hobj
  · rw [PrefabSystem.updatePrefab_other_prefabs _ name newcomponents w.prefabHeap.length _
      hT hpf p0 hne]
    show (w.prefabHeap ++ _)[p0]? = some pf0
    rw [List.getElem?_append_left hlt]
    exact hpf0
  · intro n es hs
    obtain ⟨es', h1, h2⟩ := hb.stores n es hs
    exact ⟨es', h1, h2, fun x hx => hb.objects n es x hs hx⟩

/-- Witness of C28: the template `T` of the instantiated scenario is registered
again with `{A: {x: 9}}`; the later update of `T` to `{A: {x: 5}}` leaves entity 1, an
instance of the earlier template, with `x` 1 and its `B` component. -/
theorem C28_instances_follow_template_object_witness :
    instanceWorld.WF ∧
    QMap.find instanceWorld.prefabSystem.prefabs "T" = some 0 ∧
    instanceWorld.prefabHeap[0]? = some templateT ∧
    instanceWorld.prefabSystem.base.getComponent 1 = some 2 ∧
    instanceWorld.rt.read 2
      = some { metaObject := metaPrefabInstance, values := [.str ""], prefab := some 0 } ∧
    (PrefabSystem.updatePrefab
      (PrefabSystem.addPrefab instanceWorld "T" [("A", .map [("x", .int 9)])] []) "T"
      [("A", .map [("x", .int 5)])] true).2.systems = instanceWorld.systems ∧
    (QMap.find (PrefabSystem.addPrefab instanceWorld "T" [("A", .map [("x", .int 9)])]
        []).prefabSystem.prefabs "T" ≠ QMap.find instanceWorld.prefabSystem.prefabs "T" ∧
      (PrefabSystem.updatePrefab
        (PrefabSystem.addPrefab instanceWorld "T" [("A", .map [("x", .int 9)])] []) "T"
        [("A", .map [("x", .int 5)])] true).2.prefabSystem.base.getComponent 1 = some 2 ∧
      (PrefabSystem.updatePrefab
        (PrefabSystem.addPrefab instanceWorld "T" [("A", .map [("x", .int 9)])] []) "T"
        [("A", .map [("x", .int 5)])] true).2.rt.read 2
        = some { metaObject := metaPrefabInstance, values := [.str ""], prefab := some 0 } ∧
      (PrefabSystem.updatePrefab
        (PrefabSystem.addPrefab instanceWorld "T" [("A", .map [("x", .int 9)])] []) "T"
        [("A", .map [("x", .int 5)])] true).2.prefabHeap[0]? = some templateT ∧
      ∀ n es, instanceWorld.getSystemByComponentClassName n = some es →
        ∃ es', (PrefabSystem.updatePrefab
            (PrefabSystem.addPrefab instanceWorld "T" [("A", .map [("x", .int 9)])] []) "T"
            [("A", .map [("x", .int 5)])] true).2.getSystemByComponentClassName n = some es' ∧
          es'.getComponent 1 = es.getComponent 1 ∧
          ∀ x, es.getComponent 1 = some x →
            (PrefabSystem.updatePrefab
              (PrefabSystem.addPrefab instanceWorld "T" [("A", .map [("x", .int 9)])] []) "T"
              [("A", .map [("x", .int 5)])] true).2.rt.read x = instanceWorld.rt.read x) :=
  ⟨⟨by decide, by decide, by decide, by decide, by decide⟩, by decide, by decide, by decide,
    by decide, by decide,
    C28_instances_follow_template_object instanceWorld "T" [("A", .map [("x", .int 9)])] []
      [("A", .map [("x", .int 5)])] 1 2 0
      { metaObject := metaPrefabInstance, values := [.str ""], prefab := some 0 } templateT
      ⟨by decide, by decide, by decide, by decide, by decide⟩ (by decide) (by decide)
      (by decide) (by decide) rfl⟩

end QtEntity
